import Mathlib

/-!
# Lightweight Levenberg-Marquardt engine: `MyGTSAMSolver`

Shallow embedding of `src/prototype/MyGTSAMSolver.h` and statements about
`getError`, `getCholeskyDecomposition`, `solveCholesky` and `fit`.

## Model

* The code is written once, for any type that has the operations of `double` the
  source uses (`+ - * /`, unary minus, the comparison `<`, numerals); `sqrt` from
  `math.h` is an argument, so that every definition is computable.  Two instances
  occur.  Over `ℝ` with `Real.sqrt` the arithmetic is exact and every value is a
  number: this is the reading "over the reals".  Over `Double` with `Double.sqrt`
  the arithmetic is IEEE 754 binary64: NaN and the infinities, comparisons that
  are false as soon as one side is NaN, results rounded to nearest (ties to even)
  with overflow and subnormal numbers; only the sign of zero is left out.
* The arrays `double a[P]` and `double a[P][P]` are functions on `Nat`; the code
  only touches the indices below the template dimensions.  The two function
  pointers receive the first `RowsParameters` entries of the arrays handed to them.
* A `for` loop is `forLoop` (upwards) or `forDown` (downwards).  The `while` loop
  of `fit` is the well-founded recursion `dampingLoop`.  The outer `for` loop of
  `fit`, whose counter the `while` loop advances too, is `outerLoop`; its first
  argument bounds the number of passes and is never exhausted before the loop
  guard fails (`outerLoop_fuel_enough`).
* `FitState` holds the array members of the solver and the locals of `fit`,
  together with two ghost counters (`attempts`, `solves`).
* Ghost traces make the order of events and the divisions observable:
  `outerTrace` and `attemptStates` list the states at the end of the outer passes
  and at the start of the `while` passes; `getCholeskyDecompositionLog` and
  `solveCholeskyLog` are the two routines with the list of their divisors, and
  compute the same arrays (`choleskyFromLog_fst`, `solveCholeskyLog_eq`).

## Contents

* loops and array writes; the row loop of `getCholeskyDecomposition` and what it
  leaves (`choleskyFrom_spec`); the factor over the reals (`factor_matrix`,
  `cholesky_of_factor`);
* `solveCholesky` as forward and back substitution (`solveCholesky_matrix`);
* the build pass (`buildNormalEquations_eq`), one pass of the `while` body
  (`attempt_of_ill`, `attempt_of_reject`, `attempt_of_accept`), the `while` loop
  (`dampingLoop_spec`) and one pass of the outer loop (`outerIteration_spec`);
* the statements C1-C10 with their witnesses and concrete runs;
* the iteration budget (`outerLoop_budget`, C11), the stopping rule (C12), the
  returned flag (C13), the build pass in terms of the written gradients (C14), the
  divisors (C15), repetition of rejected passes (C16), a Hessian that is never
  factorised (C17) and models linear in their parameters (C18);
* runs in binary64 arithmetic: a NaN candidate that is accepted, a division by
  NaN, and an indefinite matrix that rounding lets through the factorisation.
-/

namespace LMEngine

/-- A C array of doubles, indexed by position. -/
abbrev Vec (α : Type) := Nat → α

/-- A C two-dimensional array of doubles, indexed by row and column. -/
abbrev Mat (α : Type) := Nat → Nat → α

/-- The assignment `v[i] = a`. -/
def setVec {α : Type} (v : Vec α) (i : Nat) (a : α) : Vec α :=
  fun k => if k = i then a else v k

/-- The assignment `m[i][j] = a`. -/
def setMat {α : Type} (m : Mat α) (i j : Nat) (a : α) : Mat α :=
  fun r c => if r = i ∧ c = j then a else m r c

/-- The loop `for (i = 0; i < n; i++) s = body i s`. -/
def forLoop {σ : Type} : Nat → (Nat → σ → σ) → σ → σ
  | 0, _, s => s
  | n + 1, body, s => body n (forLoop n body s)

/-- The loop `for (i = n - 1; i >= 0; i--) s = body i s`. -/
def forDown {σ : Type} : Nat → (Nat → σ → σ) → σ → σ
  | 0, _, s => s
  | n + 1, body, s => forDown n body (body n s)

section Code

/-! ## The code

The definitions of this section follow the source line by line.  They use the
arithmetic of `double` only through `+ - * /`, unary minus, the comparison `<` and
numerals, so they are stated for any type with these operations. -/

variable {α : Type} [Zero α] [One α] [NatCast α] [Add α] [Sub α] [Mul α] [Div α] [Neg α]
  [Pow α Nat] [LT α] [DecidableRel (fun a b : α => a < b)]

/-- The macro `#define TOL 1e-30`. -/
def TOL : α := 1 / 10 ^ 30

/-- The template arguments, the two function pointers and the measurement
arrays `x`, `y` of a `MyGTSAMSolver`.  The function pointers receive arrays of
`RowsParameters` doubles; `gradientFunction` receives the old content of the
`gradient` buffer first and returns its new content. -/
structure Problem (α : Type) where
  RowsParameters : Nat
  RowsMeasurements : Nat
  evaluationFunction : (Fin RowsParameters → α) → (Fin RowsParameters → α) → α
  gradientFunction : (Fin RowsParameters → α) → (Fin RowsParameters → α) →
    (Fin RowsParameters → α) → (Fin RowsParameters → α)
  x : Nat → Vec α
  y : Vec α

/-- The first `n` entries of the array `v`, as handed to a function pointer. -/
def toVector (n : Nat) (v : Vec α) : Fin n → α :=
  fun i => v i

/-- The array `old` after its first `n` entries were overwritten with `g`. -/
def fromVector (n : Nat) (g : Fin n → α) (old : Vec α) : Vec α :=
  fun k => if h : k < n then g ⟨k, h⟩ else old k

/-- The array members of a `MyGTSAMSolver` (`parameters` aliases the caller's array). -/
structure Memory (α : Type) where
  parameters : Vec α
  hessian : Mat α
  choleskyDecomposition : Mat α
  derivative : Vec α
  gradient : Vec α
  newParameters : Vec α
  delta : Vec α

/-- The constructor: binds `parameters` and value-initialises every scratch array. -/
def construct (initialParams : Vec α) : Memory α :=
  { parameters := initialParams
    hessian := fun _ _ => 0
    choleskyDecomposition := fun _ _ => 0
    derivative := fun _ => 0
    gradient := fun _ => 0
    newParameters := fun _ => 0
    delta := fun _ => 0 }

/-- `MyGTSAMSolver::getError`: the sum of squared residuals. -/
def getError (pb : Problem α) (parameters : Vec α) : α :=
  forLoop pb.RowsMeasurements
    (fun i error =>
      let residual := pb.evaluationFunction (toVector pb.RowsParameters parameters)
        (toVector pb.RowsParameters (pb.x i)) - pb.y i
      error + residual * residual) 0

/-- Rows `j = 0 .. i-1` of `getCholeskyDecomposition` for a fixed row `i`:
`L[i][j] = (H[i][j] - sum_{k<j} L[i][k] * L[j][k]) / L[j][j]`. -/
def choleskyOffDiag (H : Mat α) (i : Nat) (L : Mat α) : Mat α :=
  forLoop i
    (fun j L =>
      let sum := forLoop j (fun k sum => sum + L i k * L j k) 0
      setMat L i j ((H i j - sum) / L j j)) L

/-- The value `hessian[i][i] - sum_{k<i} L[i][k] * L[i][k]` tested against `TOL`. -/
def choleskyPivot (H : Mat α) (i : Nat) (L : Mat α) : α :=
  H i i - forLoop i (fun k sum => sum + L i k * L i k) 0

/-- The row loop of `getCholeskyDecomposition` from row `i` on, with `rem`
rows left (`rem = n - i`); the first component is the returned flag. -/
def choleskyFrom (sqrt : α → α) (H : Mat α) : Nat → Nat → Mat α → Bool × Mat α
  | 0, _, L => (false, L)
  | rem + 1, i, L =>
    let L1 := choleskyOffDiag H i L
    let sum := choleskyPivot H i L1
    if sum < TOL then (true, L1)
    else choleskyFrom sqrt H rem (i + 1) (setMat L1 i i (sqrt sum))

/-- `MyGTSAMSolver::getCholeskyDecomposition` on `hessian = H` and prior
`choleskyDecomposition = L`: returns the flag (`true` = ill-conditioned) and
the new content of `choleskyDecomposition`. -/
def getCholeskyDecomposition (sqrt : α → α) (n : Nat) (H L : Mat α) : Bool × Mat α :=
  choleskyFrom sqrt H n 0 L

/-- Inner loop of the forward pass of `solveCholesky`; the state is the pair
`(j, sum)`, so the first component is the value the index `j` is left with. -/
def forwardInner (C : Mat α) (delta : Vec α) (i : Nat) : Nat × α :=
  forLoop i (fun _ js => (js.1 + 1, js.2 + C i js.1 * delta js.1)) (0, 0)

/-- First loop of `solveCholesky`; the write goes through the index `j`
left by the inner loop: `delta[j] = (derivative[i] - sum) / L[i][i]`. -/
def forwardSubstitution (n : Nat) (C : Mat α) (derivative delta : Vec α) : Vec α :=
  forLoop n
    (fun i delta =>
      let js := forwardInner C delta i
      setVec delta js.1 ((derivative i - js.2) / C i i)) delta

/-- Inner loop of the backward pass: `for (j = i + 1; j < n; j++) sum += L[j][i] * delta[j]`. -/
def backInner (n : Nat) (C : Mat α) (delta : Vec α) (i : Nat) : α :=
  forLoop (n - (i + 1)) (fun t sum => sum + C (i + 1 + t) i * delta (i + 1 + t)) 0

/-- Second loop of `solveCholesky`: `delta[i] = (delta[i] - sum) / L[i][i]`, `i = n-1 .. 0`. -/
def backSubstitution (n : Nat) (C : Mat α) (delta : Vec α) : Vec α :=
  forDown n (fun i delta => setVec delta i ((delta i - backInner n C delta i) / C i i)) delta

/-- `MyGTSAMSolver::solveCholesky`: the new content of `delta`. -/
def solveCholesky (n : Nat) (C : Mat α) (derivative delta : Vec α) : Vec α :=
  backSubstitution n C (forwardSubstitution n C derivative delta)

/-- The constants at the top of `fit` ("TODO: make these input arguments"). -/
structure Config (α : Type) where
  maxIterations : Nat
  lambda : α
  upFactor : α
  downFactor : α
  targetDeltaError : α

/-- The values `fit` hard-codes. -/
def fitConfig : Config α :=
  { maxIterations := 10000
    lambda := 1 / 10
    upFactor := 10
    downFactor := 1 / 10
    targetDeltaError := 1 / 100 }

/-- The members and the locals of `fit`.  `attempts` and `solves` are ghost
counters of the calls to `getCholeskyDecomposition` and `solveCholesky`. -/
@[ext]
structure FitState (α : Type) where
  parameters : Vec α
  hessian : Mat α
  choleskyDecomposition : Mat α
  derivative : Vec α
  gradient : Vec α
  newParameters : Vec α
  delta : Vec α
  lambda : α
  multFactor : α
  currentError : α
  newError : α
  deltaError : α
  illConditioned : Bool
  iteration : Nat
  attempts : Nat
  solves : Nat

/-- Lines 126-133 of `fit`: the contribution of measurement `m` to `derivative`
and `hessian`, with `gradient` already filled in for this measurement. -/
def accumulate (pb : Problem α) (m : Nat) (s : FitState α) : FitState α :=
  forLoop pb.RowsParameters
    (fun i s =>
      let s := { s with
        derivative := setVec s.derivative i
          (s.derivative i
            + (pb.y m - pb.evaluationFunction (toVector pb.RowsParameters s.parameters)
                (toVector pb.RowsParameters (pb.x m))) * s.gradient i) }
      { s with
        hessian := forLoop (i + 1)
          (fun j h => setMat h i j (h i j + s.gradient i * s.gradient j)) s.hessian })
    s

/-- Lines 110-134 of `fit`: zero `derivative` and `hessian`, then accumulate
over the measurements. -/
def buildNormalEquations (pb : Problem α) (s : FitState α) : FitState α :=
  let s1 := { s with
    derivative := forLoop pb.RowsParameters (fun i d => setVec d i 0) s.derivative }
  let s2 := { s1 with
    hessian := forLoop pb.RowsParameters
      (fun i h => forLoop pb.RowsParameters (fun j h => setMat h i j 0) h) s1.hessian }
  forLoop pb.RowsMeasurements
    (fun m s =>
      accumulate pb m
        { s with
          gradient := fromVector pb.RowsParameters
            (pb.gradientFunction (toVector pb.RowsParameters s.gradient)
              (toVector pb.RowsParameters s.parameters)
              (toVector pb.RowsParameters (pb.x m))) s.gradient })
    s2

/-- One pass through the body of the `while` loop of `fit` (lines 142-157):
the factorisation, then (only when it reports success) the solve and the
evaluation of the candidate, then the escalation `if (illConditioned)`. -/
def attempt (sqrt : α → α) (cfg : Config α) (pb : Problem α) (s : FitState α) : FitState α :=
  let r := getCholeskyDecomposition sqrt pb.RowsParameters s.hessian s.choleskyDecomposition
  if r.1 then
    { s with
      choleskyDecomposition := r.2
      illConditioned := true
      attempts := s.attempts + 1
      multFactor := (1 + s.lambda * cfg.upFactor) / (1 + s.lambda)
      lambda := s.lambda * cfg.upFactor
      iteration := s.iteration + 1 }
  else
    let delta := solveCholesky pb.RowsParameters r.2 s.derivative s.delta
    let newParameters := forLoop pb.RowsParameters
      (fun i np => setVec np i (s.parameters i + delta i)) s.newParameters
    let newError := getError pb newParameters
    let deltaError := newError - s.currentError
    if deltaError > 0 then
      { s with
        choleskyDecomposition := r.2
        attempts := s.attempts + 1
        delta := delta
        solves := s.solves + 1
        newParameters := newParameters
        newError := newError
        deltaError := deltaError
        illConditioned := true
        multFactor := (1 + s.lambda * cfg.upFactor) / (1 + s.lambda)
        lambda := s.lambda * cfg.upFactor
        iteration := s.iteration + 1 }
    else
      { s with
        choleskyDecomposition := r.2
        attempts := s.attempts + 1
        delta := delta
        solves := s.solves + 1
        newParameters := newParameters
        newError := newError
        deltaError := deltaError
        illConditioned := false }

/-- The loop `while (illConditioned && iteration < maxIterations)` of `fit`. -/
def dampingLoop (sqrt : α → α) (cfg : Config α) (pb : Problem α) (s : FitState α) :
    FitState α :=
  if s.illConditioned = true ∧ s.iteration < cfg.maxIterations then
    dampingLoop sqrt cfg pb (attempt sqrt cfg pb s)
  else s
termination_by (cfg.maxIterations - s.iteration) + (if s.illConditioned then 1 else 0)
decreasing_by
  rename_i h
  obtain ⟨h1, h2⟩ := h
  simp only [attempt]
  split
  · simp [h1]; omega
  · split
    · simp [h1]; omega
    · simp [h1]

/-- Lines 110-139 of `fit`: the normal equations are built and the locals of
the loop body initialised; this is the state in which the `while` loop is entered. -/
def enterDamping (pb : Problem α) (s : FitState α) : FitState α :=
  let s := buildNormalEquations pb s
  { s with
    multFactor := 1 + s.lambda, illConditioned := true, newError := 0, deltaError := 0 }

/-- One pass through the body of the outer `for` loop of `fit`, up to and
including `lambda *= downFactor` (lines 106-165). -/
def outerIteration (sqrt : α → α) (cfg : Config α) (pb : Problem α) (s : FitState α) :
    FitState α :=
  let s := dampingLoop sqrt cfg pb (enterDamping pb s)
  let s := { s with
    parameters := forLoop pb.RowsParameters
      (fun i p => setVec p i (s.newParameters i)) s.parameters }
  let s := { s with currentError := s.newError }
  { s with lambda := s.lambda * cfg.downFactor }

/-- The test of line 167: `!illConditioned && (-deltaError < targetDeltaError)`. -/
def breakTest (cfg : Config α) (s : FitState α) : Bool :=
  !s.illConditioned && decide (-s.deltaError < cfg.targetDeltaError)

/-- The outer loop `for (...; iteration < maxIterations; iteration++)` of `fit`.
Every pass advances `iteration`, so at most `maxIterations` passes happen and
the first argument, started at `maxIterations`, never cuts the loop short
(`outerLoop_fuel_enough`). -/
def outerLoop (sqrt : α → α) (cfg : Config α) (pb : Problem α) :
    Nat → FitState α → FitState α
  | 0, s => s
  | fuel + 1, s =>
    if s.iteration < cfg.maxIterations then
      let s := outerIteration sqrt cfg pb s
      if breakTest cfg s then s
      else outerLoop sqrt cfg pb fuel { s with iteration := s.iteration + 1 }
    else s

/-- The states reached at the end of each pass of the outer loop (after line 165),
in order; up to the counters the last one is the state `outerLoop` stops in
(`outerLoop_last`). -/
def outerTrace (sqrt : α → α) (cfg : Config α) (pb : Problem α) :
    Nat → FitState α → List (FitState α)
  | 0, _ => []
  | fuel + 1, s =>
    if s.iteration < cfg.maxIterations then
      let s := outerIteration sqrt cfg pb s
      if breakTest cfg s then [s]
      else s :: outerTrace sqrt cfg pb fuel { s with iteration := s.iteration + 1 }
    else []

/-- The state of `fit` when the outer loop is first reached (lines 96-105). -/
def fitStart (cfg : Config α) (pb : Problem α) (m : Memory α) : FitState α :=
  { parameters := m.parameters
    hessian := m.hessian
    choleskyDecomposition := m.choleskyDecomposition
    derivative := m.derivative
    gradient := m.gradient
    newParameters := m.newParameters
    delta := m.delta
    lambda := cfg.lambda
    multFactor := 0
    currentError := getError pb m.parameters
    newError := 0
    deltaError := 0
    illConditioned := true
    iteration := 0
    attempts := 0
    solves := 0 }

/-- `MyGTSAMSolver::fit` with its constants as arguments: the returned flag
and the final state. -/
def fitWith (sqrt : α → α) (cfg : Config α) (pb : Problem α) (m : Memory α) :
    Bool × FitState α :=
  (true, outerLoop sqrt cfg pb cfg.maxIterations (fitStart cfg pb m))

/-- `MyGTSAMSolver::fit`. -/
def fit (sqrt : α → α) (pb : Problem α) (m : Memory α) : Bool × FitState α :=
  fitWith sqrt fitConfig pb m

/-- The content of the `gradient` buffer after the calls of `gradientFunction`
for the measurements `0 .. m-1` at the parameters `p`, starting from `g0`. -/
def gradientAfter (pb : Problem α) (p g0 : Vec α) : Nat → Vec α
  | 0 => g0
  | m + 1 =>
    fromVector pb.RowsParameters
      (pb.gradientFunction (toVector pb.RowsParameters (gradientAfter pb p g0 m))
        (toVector pb.RowsParameters p) (toVector pb.RowsParameters (pb.x m)))
      (gradientAfter pb p g0 m)

/-- The residual `y[m] - evaluationFunction(p, x[m])` of measurement `m`. -/
def residualAt (pb : Problem α) (p : Vec α) (m : Nat) : α :=
  pb.y m - pb.evaluationFunction (toVector pb.RowsParameters p)
    (toVector pb.RowsParameters (pb.x m))

/-- The state with the damping bookkeeping (`lambda`, `multFactor`) and the
counters (`iteration`, `attempts`, `solves`) blanked: what is left are the
arrays, the three errors and the flag. -/
def FitState.core (s : FitState α) : FitState α :=
  { s with lambda := 0, multFactor := 0, iteration := 0, attempts := 0, solves := 0 }

/-- The state after the first pass through the `while` loop of the outer
iteration started in `s`. -/
def firstAttempt (sqrt : α → α) (cfg : Config α) (pb : Problem α) (s : FitState α) :
    FitState α :=
  attempt sqrt cfg pb (enterDamping pb s)

/-- The step `delta` that line 144 computes in state `s` (meaningful when the
factorisation of line 142 succeeded). -/
def stepOf (sqrt : α → α) (pb : Problem α) (s : FitState α) : Vec α :=
  solveCholesky pb.RowsParameters
    (getCholeskyDecomposition sqrt pb.RowsParameters s.hessian s.choleskyDecomposition).2
    s.derivative s.delta

/-- The candidate `newParameters` that lines 145-147 compute in state `s`. -/
def candidateOf (sqrt : α → α) (pb : Problem α) (s : FitState α) : Vec α :=
  forLoop pb.RowsParameters
    (fun i np => setVec np i (s.parameters i + stepOf sqrt pb s i)) s.newParameters

/-- The state `s` with other values in the damping bookkeeping `lambda`, `multFactor`. -/
def FitState.withDamping (s : FitState α) (l m : α) : FitState α :=
  { s with lambda := l, multFactor := m }

/-- The gradient that the call `gradientFunction(gradient, parameters, x[m])` of
the build pass at parameters `p` writes for measurement `m`, the `gradient`
buffer holding `g0` before the pass. -/
def gradientWritten (pb : Problem α) (p g0 : Vec α) (m : Nat) : Fin pb.RowsParameters → α :=
  pb.gradientFunction (toVector pb.RowsParameters (gradientAfter pb p g0 m))
    (toVector pb.RowsParameters p) (toVector pb.RowsParameters (pb.x m))

/-- The flag that the call of `getCholeskyDecomposition` at line 142 returns in
state `s` (`true` = ill-conditioned). -/
def factorFails (sqrt : α → α) (pb : Problem α) (s : FitState α) : Bool :=
  (getCholeskyDecomposition sqrt pb.RowsParameters s.hessian s.choleskyDecomposition).1

/-- The states in which the body of the `while` loop is entered, in order: one
entry per call of `getCholeskyDecomposition` made by this `while` loop. -/
def dampingStates (sqrt : α → α) (cfg : Config α) (pb : Problem α) (s : FitState α) :
    List (FitState α) :=
  if s.illConditioned = true ∧ s.iteration < cfg.maxIterations then
    s :: dampingStates sqrt cfg pb (attempt sqrt cfg pb s)
  else []
termination_by (cfg.maxIterations - s.iteration) + (if s.illConditioned then 1 else 0)
decreasing_by
  rename_i h
  obtain ⟨h1, h2⟩ := h
  simp only [attempt]
  split
  · simp [h1]; omega
  · split
    · simp [h1]; omega
    · simp [h1]

/-- The states in which the body of the `while` loop is entered over the whole
outer loop, in order: one entry per call of `getCholeskyDecomposition` made by `fit`. -/
def attemptStates (sqrt : α → α) (cfg : Config α) (pb : Problem α) :
    Nat → FitState α → List (FitState α)
  | 0, _ => []
  | fuel + 1, s =>
    if s.iteration < cfg.maxIterations then
      dampingStates sqrt cfg pb (enterDamping pb s)
        ++ (let s := outerIteration sqrt cfg pb s
            if breakTest cfg s then []
            else attemptStates sqrt cfg pb fuel { s with iteration := s.iteration + 1 })
    else []

/-- The off-diagonal part of row `i` of `getCholeskyDecomposition` together with
the list of the divisors `choleskyDecomposition[j][j]` it uses, in order, each read
at the moment of its division. -/
def choleskyOffDiagLog (H : Mat α) (i : Nat) (L : Mat α) : Mat α × List α :=
  forLoop i
    (fun j st =>
      let sum := forLoop j (fun k sum => sum + st.1 i k * st.1 j k) 0
      (setMat st.1 i j ((H i j - sum) / st.1 j j), st.2 ++ [st.1 j j])) (L, [])

/-- The row loop of `getCholeskyDecomposition` with the list of all divisors used
so far as a ghost component. -/
def choleskyFromLog (sqrt : α → α) (H : Mat α) :
    Nat → Nat → Mat α → List α → (Bool × Mat α) × List α
  | 0, _, L, log => ((false, L), log)
  | rem + 1, i, L, log =>
    let r := choleskyOffDiagLog H i L
    let sum := choleskyPivot H i r.1
    if sum < TOL then ((true, r.1), log ++ r.2)
    else choleskyFromLog sqrt H rem (i + 1) (setMat r.1 i i (sqrt sum)) (log ++ r.2)

/-- `MyGTSAMSolver::getCholeskyDecomposition` with the list of its divisors. -/
def getCholeskyDecompositionLog (sqrt : α → α) (n : Nat) (H L : Mat α) :
    (Bool × Mat α) × List α :=
  choleskyFromLog sqrt H n 0 L []

/-- First loop of `solveCholesky` with the list of its divisors. -/
def forwardSubstitutionLog (n : Nat) (C : Mat α) (derivative delta : Vec α) :
    Vec α × List α :=
  forLoop n
    (fun i st =>
      let js := forwardInner C st.1 i
      (setVec st.1 js.1 ((derivative i - js.2) / C i i), st.2 ++ [C i i])) (delta, [])

/-- Second loop of `solveCholesky` with the list of its divisors appended to `log`. -/
def backSubstitutionLog (n : Nat) (C : Mat α) (delta : Vec α) (log : List α) :
    Vec α × List α :=
  forDown n
    (fun i st =>
      (setVec st.1 i ((st.1 i - backInner n C st.1 i) / C i i), st.2 ++ [C i i])) (delta, log)

/-- `MyGTSAMSolver::solveCholesky` with the list of its divisors. -/
def solveCholeskyLog (n : Nat) (C : Mat α) (derivative delta : Vec α) : Vec α × List α :=
  let f := forwardSubstitutionLog n C derivative delta
  backSubstitutionLog n C f.1 f.2

/-- The divisors used during one pass through the body of the `while` loop of `fit`
(lines 142-144): those of `getCholeskyDecomposition` and, when `solveCholesky` is
called, those of `solveCholesky`. -/
def attemptDivisors (sqrt : α → α) (pb : Problem α) (s : FitState α) : List α :=
  let r := getCholeskyDecompositionLog sqrt pb.RowsParameters s.hessian s.choleskyDecomposition
  if r.1.1 then r.2
  else r.2 ++ (solveCholeskyLog pb.RowsParameters r.1.2 s.derivative s.delta).2

end Code

section Defs

/-! ## Notions used in the statements over the reals -/

variable {α : Type} [LinearOrderedField α]

/-- Row `i` of `L` obeys the off-diagonal Cholesky recurrence for `H`. -/
def OffDiagOK (H L : Mat α) (i : Nat) : Prop :=
  ∀ c, c < i → L i c = (H i c - ∑ k in Finset.range c, L i k * L c k) / L c c

/-- Row `i` of `L` is a completed Cholesky row for `H`: off-diagonal recurrence,
pivot not below `TOL`, diagonal entry the square root of the pivot. -/
def RowOK (sqrt : α → α) (H L : Mat α) (i : Nat) : Prop :=
  OffDiagOK H L i ∧ ¬ (choleskyPivot H i L < TOL) ∧ L i i = sqrt (choleskyPivot H i L)

/-- The `n × n` array `A` as a matrix. -/
def toMatrix (n : Nat) (A : Mat α) : Matrix (Fin n) (Fin n) α :=
  fun i j => A i j

/-- The lower triangle of `A` (diagonal included), zero above it. -/
def lowerPart (A : Mat α) : Mat α :=
  fun i j => if j ≤ i then A i j else 0

/-- The symmetric matrix whose lower triangle is that of `A`. -/
def symmetrize (A : Mat α) : Mat α :=
  fun i j => if j ≤ i then A i j else A j i

/-- Example data: the lower-triangular `2 × 2` array with rows `(1)`, `(1, 1)`. -/
def exampleFactor : Mat α :=
  fun i j => if j ≤ i ∧ i < 2 then 1 else 0

/-- Example data: the Gram matrix `[[1, 1], [1, 2]]` of `exampleFactor`. -/
def exampleGram : Mat α :=
  fun i j => if i = 1 ∧ j = 1 then 2 else if i < 2 ∧ j < 2 then 1 else 0

/-- Example data: the symmetric indefinite matrix `[[1, 2], [2, 1]]`. -/
def exampleIndefinite : Mat α :=
  fun i j => if i = j then 1 else 2

/-- Example problem: one parameter, one measurement, model `f(p, x) = p[0]^2`
with gradient `2 p[0]`; the measurement is `x = 0`, `y = 5`. -/
def squareModel : Problem α :=
  { RowsParameters := 1
    RowsMeasurements := 1
    evaluationFunction := fun p _ => p 0 * p 0
    gradientFunction := fun _ p _ => fun _ => 2 * p 0
    x := fun _ _ => 0
    y := fun _ => 5 }

/-- Example problem: one parameter, one measurement, model `f(p, x) = (p[0] - 1)^2`
with gradient `2 (p[0] - 1)`; the measurement is `x = 0`, `y = 0`.  Its sum of
squared residuals `(p[0] - 1)^4` is minimal at `p[0] = 1`, where the gradient vanishes. -/
def flatModel : Problem α :=
  { RowsParameters := 1
    RowsMeasurements := 1
    evaluationFunction := fun p _ => (p 0 - 1) * (p 0 - 1)
    gradientFunction := fun _ p _ => fun _ => 2 * (p 0 - 1)
    x := fun _ _ => 0
    y := fun _ => 0 }

/-- Example problem: one parameter, one measurement, the linear model
`f(p, x) = p[0] * x[0]` with gradient `x[0]`; the measurement is `x = 1`, `y = 1`. -/
def lineModel : Problem α :=
  { RowsParameters := 1
    RowsMeasurements := 1
    evaluationFunction := fun p x => p 0 * x 0
    gradientFunction := fun _ _ x => fun _ => x 0
    x := fun _ _ => 1
    y := fun _ => 1 }

/-- The end-to-end scenario: the quadratic `a * x * x + b * x + c` of
`BasicExample.cpp` with gradient `(x^2, x, 1)`, and the six measurements
`x = -2, -1, 0, 1, 2, 3` with targets `y = 2 x^2 - 3 x + 1`, i.e.
`15, 6, 1, 0, 3, 10`.  Measurement `m` has its abscissa `m - 2` in entry `0` of
its design vector; `rest` is the content of the other entries, which the model
does not read. -/
def quadraticModel (rest : Nat → Vec α) : Problem α :=
  { RowsParameters := 3
    RowsMeasurements := 6
    evaluationFunction := fun p x => p 0 * x 0 * x 0 + p 1 * x 0 + p 2
    gradientFunction := fun _ _ x => ![x 0 * x 0, x 0, 1]
    x := fun m k => if k = 0 then (m : α) - 2 else rest m k
    y := fun m => 2 * ((m : α) - 2) * ((m : α) - 2) - 3 * ((m : α) - 2) + 1 }

/-- The lower-triangular factor of the Gauss-Newton Hessian `[[115, 27, 19],
[27, 19, 3], [19, 3, 6]]` of `quadraticModel`, in terms of its diagonal entries
`a = sqrt 115`, `b = sqrt (1456 / 115)`, `c = sqrt (35 / 13)`. -/
def quadraticFactor (a b c : α) : Mat α :=
  fun i j =>
    if i = 0 ∧ j = 0 then a
    else if i = 1 ∧ j = 0 then 27 / a
    else if i = 1 ∧ j = 1 then b
    else if i = 2 ∧ j = 0 then 19 / a
    else if i = 2 ∧ j = 1 then (-168 / 115) / b
    else if i = 2 ∧ j = 2 then c
    else 0

/-- The Jacobian of the build pass at parameters `p`: row `i` is the gradient
written by `gradientFunction` for measurement `i` (`g0` is the prior content of the
`gradient` buffer). -/
def jacobian (pb : Problem α) (p g0 : Vec α) :
    Matrix (Fin pb.RowsMeasurements) (Fin pb.RowsParameters) α :=
  fun i k => gradientWritten pb p g0 i k

/-- The measured values `y[0 .. RowsMeasurements - 1]` as a vector. -/
def measured (pb : Problem α) : Fin pb.RowsMeasurements → α :=
  fun i => pb.y i

/-- The model values `evaluationFunction(p, x[i])` at the measurements, as a vector. -/
def predicted (pb : Problem α) (p : Vec α) : Fin pb.RowsMeasurements → α :=
  fun i => pb.evaluationFunction (toVector pb.RowsParameters p)
    (toVector pb.RowsParameters (pb.x i))

end Defs

/-! ## Binary64 numbers -/

/-- Nearest natural number to `n / d` (`d > 0`), ties to even. -/
def roundHalfEven (n d : Nat) : Nat :=
  if 2 * (n % d) < d then n / d
  else if d < 2 * (n % d) then n / d + 1
  else if (n / d) % 2 = 0 then n / d else n / d + 1

/-- The number of times `n` can be halved before it drops below `2`, counted in at
most `fuel` steps. -/
def log2Aux : Nat → Nat → Nat
  | 0, _ => 0
  | fuel + 1, n => if 2 ≤ n then log2Aux fuel (n / 2) + 1 else 0

/-- The binary logarithm `floor (log2 n)` of a natural number (`0` for `n = 0`),
by structural recursion so that it can be evaluated (`log2Floor_eq`). -/
def log2Floor (n : Nat) : Nat := log2Aux n n

/-- The binary exponent `floor (log2 (n / d))` of a positive fraction. -/
def exponentOf (n d : Nat) : Int :=
  let k : Int := (log2Floor n : Int) - (log2Floor d : Int)
  if 0 ≤ k then (if d * 2 ^ k.toNat ≤ n then k else k - 1)
  else (if d ≤ n * 2 ^ (-k).toNat then k else k - 1)

/-- Rounding of a rational number to the binary64 grid: 53 significant bits, round
to nearest, ties to even, with the fixed spacing `2^-1074` below `2^-1022`
(subnormal numbers).  The result can exceed the largest binary64 number; `ofRat`
turns that into an infinity. -/
def round64 (x : ℚ) : ℚ :=
  if x = 0 then 0 else
    let n := x.num.natAbs
    let d := x.den
    let s : Int := 52 - max (exponentOf n d) (-1022)
    let mag : ℚ :=
      if 0 ≤ s then (roundHalfEven (n * 2 ^ s.toNat) d : ℚ) / 2 ^ s.toNat
      else (roundHalfEven n (d * 2 ^ (-s).toNat) : ℚ) * 2 ^ (-s).toNat
    if x < 0 then -mag else mag

/-- The values of a C `double` (IEEE 754 binary64): NaN, the two infinities and
the finite numbers, which are kept as rationals.  The sign of zero is not modelled. -/
inductive Double where
  | nan : Double
  | pinf : Double
  | ninf : Double
  | fin (q : ℚ) : Double
  deriving DecidableEq

namespace Double

/-- The `double` nearest to the rational `x`; overflow gives an infinity. -/
def ofRat (x : ℚ) : Double :=
  if 2 ^ 1024 ≤ round64 x then pinf
  else if round64 x ≤ -(2 ^ 1024) then ninf
  else fin (round64 x)

/-- Unary minus. -/
def neg : Double → Double
  | nan => nan
  | pinf => ninf
  | ninf => pinf
  | fin a => fin (-a)

/-- Addition: NaN propagates, `inf + -inf` is NaN, a finite sum is rounded. -/
def add : Double → Double → Double
  | nan, _ => nan
  | _, nan => nan
  | pinf, ninf => nan
  | ninf, pinf => nan
  | pinf, _ => pinf
  | _, pinf => pinf
  | ninf, _ => ninf
  | _, ninf => ninf
  | fin a, fin b => ofRat (a + b)

/-- Subtraction. -/
def sub (a b : Double) : Double := add a (neg b)

/-- The infinity with the given sign. -/
def signedInf (positive : Bool) : Double := if positive then pinf else ninf

/-- Multiplication: NaN propagates, `0 * inf` is NaN, a finite product is rounded. -/
def mul : Double → Double → Double
  | nan, _ => nan
  | _, nan => nan
  | fin a, fin b => ofRat (a * b)
  | fin a, pinf => if a = 0 then nan else signedInf (decide (0 < a))
  | fin a, ninf => if a = 0 then nan else signedInf (decide (a < 0))
  | pinf, fin b => if b = 0 then nan else signedInf (decide (0 < b))
  | ninf, fin b => if b = 0 then nan else signedInf (decide (b < 0))
  | pinf, pinf => pinf
  | pinf, ninf => ninf
  | ninf, pinf => ninf
  | ninf, ninf => pinf

/-- Division: NaN propagates, `0 / 0` and `inf / inf` are NaN, a non-zero number
over zero is an infinity, a finite quotient is rounded. -/
def div : Double → Double → Double
  | nan, _ => nan
  | _, nan => nan
  | fin a, fin b =>
    if b = 0 then (if a = 0 then nan else signedInf (decide (0 < a)))
    else ofRat (a / b)
  | fin _, pinf => fin 0
  | fin _, ninf => fin 0
  | pinf, fin b => signedInf (decide (0 ≤ b))
  | ninf, fin b => signedInf (decide (b < 0))
  | pinf, pinf => nan
  | pinf, ninf => nan
  | ninf, pinf => nan
  | ninf, ninf => nan

/-- The comparison `a < b`: false as soon as one side is NaN. -/
def lt : Double → Double → Bool
  | nan, _ => false
  | _, nan => false
  | fin a, fin b => decide (a < b)
  | ninf, ninf => false
  | ninf, _ => true
  | _, ninf => false
  | pinf, _ => false
  | fin _, pinf => true

/-- The comparison `a <= b`: false as soon as one side is NaN. -/
def le : Double → Double → Bool
  | nan, _ => false
  | _, nan => false
  | fin a, fin b => decide (a ≤ b)
  | ninf, _ => true
  | _, pinf => true
  | pinf, _ => false
  | fin _, ninf => false

/-- Bitwise integer square root: the largest `r < 2^bits` with `r * r <= n`,
added to `acc`. -/
def isqrtAux (n : Nat) : Nat → Nat → Nat
  | 0, acc => acc
  | bits + 1, acc =>
    isqrtAux n bits (if (acc + 2 ^ bits) * (acc + 2 ^ bits) ≤ n then acc + 2 ^ bits else acc)

/-- The correctly rounded square root of a positive rational `n / d`: the fraction
is scaled by a power of four into `[2^104, 2^106)`, so that the integer root has 53
bits, and the remainder decides the rounding. -/
def sqrt64 (n d : Nat) : ℚ :=
  let e := exponentOf n d
  if e ≤ 105 then
    let t := (105 - e).toNat / 2
    let m := isqrtAux (n * 4 ^ t / d) 53 0
    let up : Bool :=
      decide ((2 * m + 1) * (2 * m + 1) * d < 4 * (n * 4 ^ t)) ||
        (decide ((2 * m + 1) * (2 * m + 1) * d = 4 * (n * 4 ^ t)) && decide (m % 2 = 1))
    ((if up then m + 1 else m : Nat) : ℚ) / 2 ^ t
  else
    let u := (e - 104).toNat / 2
    let m := isqrtAux (n / (d * 4 ^ u)) 53 0
    let up : Bool :=
      decide ((2 * m + 1) * (2 * m + 1) * (d * 4 ^ u) < 4 * n) ||
        (decide ((2 * m + 1) * (2 * m + 1) * (d * 4 ^ u) = 4 * n) && decide (m % 2 = 1))
    ((if up then m + 1 else m : Nat) : ℚ) * 2 ^ u

/-- The function `sqrt` of `math.h`: NaN for NaN and for negative arguments,
correctly rounded otherwise. -/
def sqrt : Double → Double
  | nan => nan
  | pinf => pinf
  | ninf => nan
  | fin q => if q < 0 then nan else if q = 0 then fin 0 else fin (sqrt64 q.num.natAbs q.den)

/-- The rational value of a finite `double` (`0` for NaN and the infinities). -/
def value : Double → ℚ
  | fin q => q
  | _ => 0

instance : Zero Double := ⟨fin 0⟩
instance : One Double := ⟨fin 1⟩
instance : NatCast Double := ⟨fun n => ofRat n⟩
instance : Add Double := ⟨add⟩
instance : Sub Double := ⟨sub⟩
instance : Mul Double := ⟨mul⟩
instance : Div Double := ⟨div⟩
instance : Neg Double := ⟨neg⟩
instance : LT Double := ⟨fun a b => lt a b = true⟩
instance : LE Double := ⟨fun a b => le a b = true⟩
instance : DecidableRel (fun a b : Double => a < b) :=
  fun a b => inferInstanceAs (Decidable (lt a b = true))
instance : DecidableRel (fun a b : Double => a ≤ b) :=
  fun a b => inferInstanceAs (Decidable (le a b = true))

/-- Powers occur only inside decimal literals (`1e-30` is written `1 / 10 ^ 30`), so
they are not rounded: the literal is rounded once, by the division. -/
instance : Pow Double Nat :=
  ⟨fun a n => match a with
    | fin q => fin (q ^ n)
    | _ => nan⟩

end Double

/-- Example problem over `double`: one parameter, one measurement, the model
`f(p, x) = sqrt(p[0])` with gradient `1 / (2 * sqrt(p[0]))`; the measurement is
`x = 0`, `y = -1`. -/
def rootModel : Problem Double :=
  { RowsParameters := 1
    RowsMeasurements := 1
    evaluationFunction := fun p _ => Double.sqrt (p 0)
    gradientFunction := fun _ p _ => fun _ => 1 / (2 * Double.sqrt (p 0))
    x := fun _ _ => 0
    y := fun _ => -1 }

/-- Example data over `double`: the symmetric matrix `[[25, 7], [7, 1.96]]`. -/
def roundedGram : Mat Double :=
  fun i j => if i = 0 ∧ j = 0 then 25 else if i = 1 ∧ j = 1 then 49 / 25 else 7

/-! ## Loops -/

section Loops

theorem forLoop_zero {σ : Type} (body : Nat → σ → σ) (s : σ) : forLoop 0 body s = s := rfl

theorem forLoop_succ {σ : Type} (n : Nat) (body : Nat → σ → σ) (s : σ) :
    forLoop (n + 1) body s = body n (forLoop n body s) := rfl

theorem forDown_zero {σ : Type} (body : Nat → σ → σ) (s : σ) : forDown 0 body s = s := rfl

theorem forDown_succ {σ : Type} (n : Nat) (body : Nat → σ → σ) (s : σ) :
    forDown (n + 1) body s = forDown n body (body n s) := rfl

/-- An accumulation loop computes a finite sum. -/
theorem forLoop_sum {β : Type} [AddCommMonoid β] (n : Nat) (f : Nat → β) (a : β) :
    forLoop n (fun k s => s + f k) a = a + ∑ k in Finset.range n, f k := by
  induction n with
  | zero => simp [forLoop]
  | succ n ih => rw [forLoop_succ, ih, Finset.sum_range_succ, add_assoc]

/-- A loop only depends on its body at the indices it runs through. -/
theorem forLoop_congr {σ : Type} (n : Nat) (f g : Nat → σ → σ) (s : σ)
    (h : ∀ k, k < n → ∀ t, f k t = g k t) : forLoop n f s = forLoop n g s := by
  induction n with
  | zero => rfl
  | succ n ih =>
    rw [forLoop_succ, forLoop_succ, ih (fun k hk t => h k (Nat.lt_succ_of_lt hk) t),
      h n (Nat.lt_succ_self n)]

theorem setVec_same {β : Type} (v : Vec β) (i : Nat) (a : β) : setVec v i a i = a := by
  simp [setVec]

theorem setVec_other {β : Type} (v : Vec β) (i k : Nat) (a : β) (h : k ≠ i) :
    setVec v i a k = v k := by
  simp [setVec, h]

theorem setMat_same {β : Type} (m : Mat β) (i j : Nat) (a : β) : setMat m i j a i j = a := by
  simp [setMat]

theorem setMat_other {β : Type} (m : Mat β) (i j r c : Nat) (a : β) (h : r ≠ i ∨ c ≠ j) :
    setMat m i j a r c = m r c := by
  unfold setMat
  rw [if_neg]
  rintro ⟨h1, h2⟩
  rcases h with h | h
  · exact h h1
  · exact h h2

/-- A loop of writes `v[i] = f i` sets the entries below `n` and keeps the others. -/
theorem forLoop_setVec {β : Type} (n : Nat) (f : Nat → β) (v : Vec β) (k : Nat) :
    forLoop n (fun i w => setVec w i (f i)) v k = if k < n then f k else v k := by
  induction n with
  | zero => simp [forLoop]
  | succ n ih =>
    rw [forLoop_succ]
    by_cases hk : k = n
    · subst hk; simp [setVec]
    · rw [setVec_other _ _ _ _ hk, ih]
      by_cases h1 : k < n
      · simp [h1, Nat.lt_succ_of_lt h1]
      · have : ¬ k < n + 1 := by omega
        simp [h1, this]

end Loops

/-! ## Unfolding the loops of `fit` -/

section Unfolding

variable {α : Type} [Zero α] [One α] [NatCast α] [Add α] [Sub α] [Mul α] [Div α]
  [Pow α Nat] [LT α] [DecidableRel (fun a b : α => a < b)]

theorem dampingLoop_unfold (sqrt : α → α) (cfg : Config α) (pb : Problem α) (s : FitState α) :
    dampingLoop sqrt cfg pb s
      = if s.illConditioned = true ∧ s.iteration < cfg.maxIterations then
          dampingLoop sqrt cfg pb (attempt sqrt cfg pb s)
        else s := by
  rw [dampingLoop]

theorem outerIteration_eq (sqrt : α → α) (cfg : Config α) (pb : Problem α) (s : FitState α) :
    outerIteration sqrt cfg pb s
      = { dampingLoop sqrt cfg pb (enterDamping pb s) with
          parameters := forLoop pb.RowsParameters
            (fun i p => setVec p i ((dampingLoop sqrt cfg pb (enterDamping pb s)).newParameters i))
            (dampingLoop sqrt cfg pb (enterDamping pb s)).parameters
          currentError := (dampingLoop sqrt cfg pb (enterDamping pb s)).newError
          lambda := (dampingLoop sqrt cfg pb (enterDamping pb s)).lambda * cfg.downFactor } := by
  unfold outerIteration
  rfl

/-- A `while` loop whose first pass ends with `illConditioned` cleared makes that
pass only. -/
theorem dampingLoop_accepted (sqrt : α → α) (cfg : Config α) (pb : Problem α) (s : FitState α)
    (hill : s.illConditioned = true) (hlt : s.iteration < cfg.maxIterations)
    (hacc : (attempt sqrt cfg pb s).illConditioned = false) :
    dampingLoop sqrt cfg pb s = attempt sqrt cfg pb s := by
  have hnot : ¬ ((attempt sqrt cfg pb s).illConditioned = true ∧
      (attempt sqrt cfg pb s).iteration < cfg.maxIterations) := by
    rw [hacc]
    exact fun h => Bool.noConfusion h.1
  rw [dampingLoop_unfold, if_pos ⟨hill, hlt⟩, dampingLoop_unfold, if_neg hnot]

/-- A pass of the outer loop whose first pass through the `while` body is accepted:
the commit of lines 160-165 applied to the state that pass leaves. -/
theorem outerIteration_accepted_eq (sqrt : α → α) (cfg : Config α) (pb : Problem α)
    (s : FitState α) (hlt : (enterDamping pb s).iteration < cfg.maxIterations)
    (hacc : (attempt sqrt cfg pb (enterDamping pb s)).illConditioned = false) :
    outerIteration sqrt cfg pb s
      = { attempt sqrt cfg pb (enterDamping pb s) with
          parameters := forLoop pb.RowsParameters
            (fun i p => setVec p i ((attempt sqrt cfg pb (enterDamping pb s)).newParameters i))
            (attempt sqrt cfg pb (enterDamping pb s)).parameters
          currentError := (attempt sqrt cfg pb (enterDamping pb s)).newError
          lambda := (attempt sqrt cfg pb (enterDamping pb s)).lambda * cfg.downFactor } := by
  rw [outerIteration_eq, dampingLoop_accepted sqrt cfg pb (enterDamping pb s) rfl hlt hacc]

variable [Neg α]

theorem outerLoop_succ (sqrt : α → α) (cfg : Config α) (pb : Problem α) (fuel : Nat)
    (s : FitState α) :
    outerLoop sqrt cfg pb (fuel + 1) s
      = if s.iteration < cfg.maxIterations then
          if breakTest cfg (outerIteration sqrt cfg pb s) = true then
            outerIteration sqrt cfg pb s
          else outerLoop sqrt cfg pb fuel
            { outerIteration sqrt cfg pb s with
              iteration := (outerIteration sqrt cfg pb s).iteration + 1 }
        else s := rfl

theorem outerTrace_succ (sqrt : α → α) (cfg : Config α) (pb : Problem α) (fuel : Nat)
    (s : FitState α) :
    outerTrace sqrt cfg pb (fuel + 1) s
      = if s.iteration < cfg.maxIterations then
          if breakTest cfg (outerIteration sqrt cfg pb s) = true then
            [outerIteration sqrt cfg pb s]
          else outerIteration sqrt cfg pb s :: outerTrace sqrt cfg pb fuel
            { outerIteration sqrt cfg pb s with
              iteration := (outerIteration sqrt cfg pb s).iteration + 1 }
        else [] := rfl

end Unfolding

/-! ## `getCholeskyDecomposition` -/

section Cholesky

variable {α : Type} [LinearOrderedField α]

theorem choleskyPivot_eq (H : Mat α) (i : Nat) (L : Mat α) :
    choleskyPivot H i L = H i i - ∑ k in Finset.range i, L i k * L i k := by
  unfold choleskyPivot
  rw [forLoop_sum, zero_add]

/-- The first `m` columns of row `i`: what is written and what is kept. -/
theorem offDiag_loop (H : Mat α) (i : Nat) (L : Mat α) (m : Nat) (hm : m ≤ i) :
    (∀ r c, (r ≠ i ∨ m ≤ c) →
      forLoop m (fun j L =>
        let sum := forLoop j (fun k sum => sum + L i k * L j k) 0
        setMat L i j ((H i j - sum) / L j j)) L r c = L r c) ∧
    (∀ c, c < m →
      forLoop m (fun j L =>
        let sum := forLoop j (fun k sum => sum + L i k * L j k) 0
        setMat L i j ((H i j - sum) / L j j)) L i c
      = (H i c - ∑ k in Finset.range c,
          forLoop m (fun j L =>
            let sum := forLoop j (fun k sum => sum + L i k * L j k) 0
            setMat L i j ((H i j - sum) / L j j)) L i k * L c k) / L c c) := by
  induction m with
  | zero =>
    refine ⟨fun r c _ => rfl, fun c hc => absurd hc (Nat.not_lt_zero c)⟩
  | succ m ih =>
    obtain ⟨ihf, ihs⟩ := ih (Nat.le_of_succ_le hm)
    have hmi : m ≠ i := by omega
    refine ⟨?_, ?_⟩
    · intro r c hrc
      rw [forLoop_succ]
      simp only []
      rw [setMat_other]
      · exact ihf r c (by rcases hrc with h | h; exact Or.inl h; exact Or.inr (by omega))
      · rcases hrc with h | h
        · exact Or.inl h
        · exact Or.inr (by omega)
    · intro c hc
      rw [forLoop_succ]
      simp only []
      by_cases hcm : c = m
      · subst hcm
        rw [setMat_same, forLoop_sum, zero_add]
        rw [ihf c c (Or.inl hmi)]
        congr 2
        apply Finset.sum_congr rfl
        intro k hk
        have hkc : k < c := Finset.mem_range.mp hk
        rw [setMat_other _ _ _ _ _ _ (Or.inr (by omega)), ihf c k (Or.inl hmi)]
      · have hlt : c < m := by omega
        rw [setMat_other _ _ _ _ _ _ (Or.inr hcm), ihs c hlt]
        congr 2
        apply Finset.sum_congr rfl
        intro k hk
        have hkc : k < c := Finset.mem_range.mp hk
        rw [setMat_other _ _ _ _ _ _ (Or.inr (by omega))]

/-- `choleskyOffDiag` only writes the entries `(i, c)` with `c < i`. -/
theorem choleskyOffDiag_frame (H : Mat α) (i : Nat) (L : Mat α) (r c : Nat)
    (h : r ≠ i ∨ i ≤ c) : choleskyOffDiag H i L r c = L r c :=
  (offDiag_loop H i L i (Nat.le_refl i)).1 r c h

/-- The entries `choleskyOffDiag` writes satisfy the Cholesky recurrence. -/
theorem choleskyOffDiag_spec (H : Mat α) (i : Nat) (L : Mat α) (c : Nat) (hc : c < i) :
    choleskyOffDiag H i L i c
      = (H i c - ∑ k in Finset.range c, choleskyOffDiag H i L i k * L c k) / L c c :=
  (offDiag_loop H i L i (Nat.le_refl i)).2 c hc

theorem choleskyFrom_zero (sqrt : α → α) (H : Mat α) (i : Nat) (L : Mat α) :
    choleskyFrom sqrt H 0 i L = (false, L) := rfl

theorem choleskyFrom_succ (sqrt : α → α) (H : Mat α) (rem i : Nat) (L : Mat α) :
    choleskyFrom sqrt H (rem + 1) i L
      = if choleskyPivot H i (choleskyOffDiag H i L) < TOL then (true, choleskyOffDiag H i L)
        else choleskyFrom sqrt H rem (i + 1)
          (setMat (choleskyOffDiag H i L) i i
            (sqrt (choleskyPivot H i (choleskyOffDiag H i L)))) := rfl

/-- `OffDiagOK` at row `i` reads only the lower triangle up to row `i`, diagonal
entry `(i, i)` excluded. -/
theorem OffDiagOK_congr (H L K : Mat α) (i : Nat)
    (h : ∀ r c, c ≤ r → r ≤ i → (r ≠ i ∨ c ≠ i) → K r c = L r c)
    (hL : OffDiagOK H L i) : OffDiagOK H K i := by
  intro c hc
  rw [h i c (by omega) (Nat.le_refl i) (Or.inr (by omega)), hL c hc,
    h c c (Nat.le_refl c) (by omega) (Or.inl (by omega))]
  congr 2
  apply Finset.sum_congr rfl
  intro k hk
  have hkc : k < c := Finset.mem_range.mp hk
  rw [h i k (by omega) (Nat.le_refl i) (Or.inr (by omega)),
    h c k (by omega) (by omega) (Or.inl (by omega))]

/-- The pivot of row `i` reads only the entries `(i, k)` with `k < i`. -/
theorem choleskyPivot_congr (H L K : Mat α) (i : Nat)
    (h : ∀ k, k < i → K i k = L i k) : choleskyPivot H i K = choleskyPivot H i L := by
  rw [choleskyPivot_eq, choleskyPivot_eq]
  congr 1
  apply Finset.sum_congr rfl
  intro k hk
  rw [h k (Finset.mem_range.mp hk)]

/-- `RowOK` at row `i` reads only the lower triangle up to row `i`. -/
theorem RowOK_congr (sqrt : α → α) (H L K : Mat α) (i : Nat)
    (h : ∀ r c, c ≤ r → r ≤ i → K r c = L r c)
    (hL : RowOK sqrt H L i) : RowOK sqrt H K i := by
  obtain ⟨h1, h2, h3⟩ := hL
  have hp : choleskyPivot H i K = choleskyPivot H i L :=
    choleskyPivot_congr H L K i (fun k hk => h i k (by omega) (Nat.le_refl i))
  refine ⟨OffDiagOK_congr H L K i (fun r c h1 h2 _ => h r c h1 h2) h1, ?_, ?_⟩
  · rw [hp]; exact h2
  · rw [hp, h i i (Nat.le_refl i) (Nat.le_refl i)]; exact h3

/-- After `choleskyOffDiag`, row `i` obeys the off-diagonal recurrence. -/
theorem choleskyOffDiag_ok (H : Mat α) (i : Nat) (L : Mat α) :
    OffDiagOK H (choleskyOffDiag H i L) i := by
  intro c hc
  rw [choleskyOffDiag_spec H i L c hc, choleskyOffDiag_frame H i L c c (Or.inl (by omega))]
  congr 2
  apply Finset.sum_congr rfl
  intro k _
  rw [choleskyOffDiag_frame H i L c k (Or.inl (by omega))]

/-- After the diagonal write, row `i` is a completed Cholesky row. -/
theorem rowOK_after_diag (sqrt : α → α) (H : Mat α) (i : Nat) (L : Mat α)
    (hp : ¬ choleskyPivot H i (choleskyOffDiag H i L) < TOL) :
    RowOK sqrt H (setMat (choleskyOffDiag H i L) i i
      (sqrt (choleskyPivot H i (choleskyOffDiag H i L)))) i := by
  have hpiv : choleskyPivot H i (setMat (choleskyOffDiag H i L) i i
      (sqrt (choleskyPivot H i (choleskyOffDiag H i L))))
      = choleskyPivot H i (choleskyOffDiag H i L) :=
    choleskyPivot_congr H _ _ i (fun k hk => setMat_other _ _ _ _ _ _ (Or.inr (by omega)))
  refine ⟨?_, ?_, ?_⟩
  · exact OffDiagOK_congr H _ _ i
      (fun r c _ _ h => setMat_other _ _ _ _ _ _ h) (choleskyOffDiag_ok H i L)
  · rw [hpiv]; exact hp
  · rw [hpiv, setMat_same]

/-- What the row loop writes, what it keeps, and where it stops. -/
theorem choleskyFrom_spec (sqrt : α → α) (H : Mat α) (rem : Nat) :
    ∀ (i : Nat) (L : Mat α),
      (∀ r c, (r < i ∨ r < c ∨ i + rem ≤ r) → (choleskyFrom sqrt H rem i L).2 r c = L r c) ∧
      ((choleskyFrom sqrt H rem i L).1 = false →
        ∀ k, i ≤ k → k < i + rem → RowOK sqrt H (choleskyFrom sqrt H rem i L).2 k) ∧
      ((choleskyFrom sqrt H rem i L).1 = true →
        ∃ m, i ≤ m ∧ m < i + rem ∧
          (∀ k, i ≤ k → k < m → RowOK sqrt H (choleskyFrom sqrt H rem i L).2 k) ∧
          OffDiagOK H (choleskyFrom sqrt H rem i L).2 m ∧
          choleskyPivot H m (choleskyFrom sqrt H rem i L).2 < TOL ∧
          (∀ r c, (m < r ∨ (r = m ∧ c = m)) → (choleskyFrom sqrt H rem i L).2 r c = L r c)) := by
  induction rem with
  | zero =>
    intro i L
    refine ⟨fun r c _ => rfl, fun _ k h1 h2 => absurd h2 (by omega), fun h => ?_⟩
    simp [choleskyFrom_zero] at h
  | succ rem ih =>
    intro i L
    rw [choleskyFrom_succ]
    by_cases hp : choleskyPivot H i (choleskyOffDiag H i L) < TOL
    · rw [if_pos hp]
      refine ⟨?_, fun h => by simp at h, fun _ => ⟨i, Nat.le_refl i, by omega, ?_, ?_, hp, ?_⟩⟩
      · intro r c hrc
        exact choleskyOffDiag_frame H i L r c (by omega)
      · intro k h1 h2; omega
      · exact choleskyOffDiag_ok H i L
      · intro r c hrc
        exact choleskyOffDiag_frame H i L r c (by omega)
    · rw [if_neg hp]
      obtain ⟨ihf, ihs, iha⟩ := ih (i + 1) (setMat (choleskyOffDiag H i L) i i
        (sqrt (choleskyPivot H i (choleskyOffDiag H i L))))
      have hrow : RowOK sqrt H (choleskyFrom sqrt H rem (i + 1)
          (setMat (choleskyOffDiag H i L) i i
            (sqrt (choleskyPivot H i (choleskyOffDiag H i L))))).2 i :=
        RowOK_congr sqrt H _ _ i (fun r c _ h2 => ihf r c (Or.inl (by omega)))
          (rowOK_after_diag sqrt H i L hp)
      refine ⟨?_, ?_, ?_⟩
      · intro r c hrc
        rw [ihf r c (by omega), setMat_other _ _ _ _ _ _ (by omega)]
        exact choleskyOffDiag_frame H i L r c (by omega)
      · intro hflag k h1 h2
        by_cases hk : k = i
        · subst hk; exact hrow
        · exact ihs hflag k (by omega) (by omega)
      · intro hflag
        obtain ⟨m, hm1, hm2, hrows, hoff, hpiv, hkeep⟩ := iha hflag
        refine ⟨m, by omega, by omega, ?_, hoff, hpiv, ?_⟩
        · intro k h1 h2
          by_cases hk : k = i
          · subst hk; exact hrow
          · exact hrows k (by omega) h2
        · intro r c hrc
          rw [hkeep r c hrc, setMat_other _ _ _ _ _ _ (by omega)]
          exact choleskyOffDiag_frame H i L r c (by omega)

/-! ### Dependence on the inputs -/

/-- `choleskyOffDiag` at row `i` reads `H` only at `(i, c)` with `c < i`. -/
theorem choleskyOffDiag_congr_H (H K : Mat α) (i : Nat) (L : Mat α)
    (h : ∀ c, c < i → K i c = H i c) : choleskyOffDiag K i L = choleskyOffDiag H i L := by
  unfold choleskyOffDiag
  apply forLoop_congr
  intro j hj t
  simp only [h j hj]

/-- The factorisation reads only the lower triangle of `hessian`. -/
theorem choleskyFrom_congr_H (sqrt : α → α) (H K : Mat α) (rem : Nat) :
    ∀ (i : Nat) (L : Mat α), (∀ r c, c ≤ r → r < i + rem → K r c = H r c) →
      choleskyFrom sqrt K rem i L = choleskyFrom sqrt H rem i L := by
  induction rem with
  | zero => intro i L _; rfl
  | succ rem ih =>
    intro i L h
    have h1 : choleskyOffDiag K i L = choleskyOffDiag H i L :=
      choleskyOffDiag_congr_H H K i L (fun c hc => h i c (by omega) (by omega))
    have h2 : choleskyPivot K i (choleskyOffDiag H i L)
        = choleskyPivot H i (choleskyOffDiag H i L) := by
      unfold choleskyPivot
      rw [h i i (Nat.le_refl i) (by omega)]
    rw [choleskyFrom_succ, choleskyFrom_succ, h1, h2,
      ih (i + 1) _ (fun r c hc hr => h r c hc (by omega))]

/-- Two runs of `choleskyOffDiag` from arrays that agree on the finished rows
write the same values. -/
theorem choleskyOffDiag_sim (H : Mat α) (i : Nat) (L K : Mat α)
    (h : ∀ r c, c ≤ r → r < i → L r c = K r c) :
    ∀ c, c < i → choleskyOffDiag H i L i c = choleskyOffDiag H i K i c := by
  intro c
  induction c using Nat.strong_induction_on with
  | _ c ih =>
    intro hc
    rw [choleskyOffDiag_spec H i L c hc, choleskyOffDiag_spec H i K c hc,
      h c c (Nat.le_refl c) hc]
    congr 2
    apply Finset.sum_congr rfl
    intro k hk
    have hkc : k < c := Finset.mem_range.mp hk
    rw [ih k hkc (by omega), h c k (by omega) hc]

/-- Two runs of the row loop from arrays that agree on the finished rows return
the same flag, and every entry is either equal in both results or untouched in both. -/
theorem choleskyFrom_sim (sqrt : α → α) (H : Mat α) (rem : Nat) :
    ∀ (i : Nat) (L K : Mat α), (∀ r c, c ≤ r → r < i → L r c = K r c) →
      (choleskyFrom sqrt H rem i L).1 = (choleskyFrom sqrt H rem i K).1 ∧
      ∀ r c, (choleskyFrom sqrt H rem i L).2 r c = (choleskyFrom sqrt H rem i K).2 r c ∨
        ((choleskyFrom sqrt H rem i L).2 r c = L r c ∧
          (choleskyFrom sqrt H rem i K).2 r c = K r c) := by
  induction rem with
  | zero =>
    intro i L K _
    exact ⟨rfl, fun r c => Or.inr ⟨rfl, rfl⟩⟩
  | succ rem ih =>
    intro i L K h
    have hrow := choleskyOffDiag_sim H i L K h
    have hpiv : choleskyPivot H i (choleskyOffDiag H i L)
        = choleskyPivot H i (choleskyOffDiag H i K) :=
      choleskyPivot_congr H _ _ i hrow
    rw [choleskyFrom_succ, choleskyFrom_succ, hpiv]
    by_cases hp : choleskyPivot H i (choleskyOffDiag H i K) < TOL
    · rw [if_pos hp, if_pos hp]
      refine ⟨rfl, fun r c => ?_⟩
      by_cases hrc : r = i ∧ c < i
      · obtain ⟨h1, h2⟩ := hrc
        subst h1
        exact Or.inl (hrow c h2)
      · exact Or.inr ⟨choleskyOffDiag_frame H i L r c (by omega),
          choleskyOffDiag_frame H i K r c (by omega)⟩
    · rw [if_neg hp, if_neg hp]
      have hagree : ∀ r c, c ≤ r → r < i + 1 →
          setMat (choleskyOffDiag H i L) i i (sqrt (choleskyPivot H i (choleskyOffDiag H i K))) r c
          = setMat (choleskyOffDiag H i K) i i
              (sqrt (choleskyPivot H i (choleskyOffDiag H i K))) r c := by
        intro r c hc hr
        by_cases hri : r = i
        · subst hri
          by_cases hci : c = r
          · subst hci; rw [setMat_same, setMat_same]
          · rw [setMat_other _ _ _ _ _ _ (Or.inr hci), setMat_other _ _ _ _ _ _ (Or.inr hci)]
            exact hrow c (by omega)
        · rw [setMat_other _ _ _ _ _ _ (Or.inl hri), setMat_other _ _ _ _ _ _ (Or.inl hri),
            choleskyOffDiag_frame H i L r c (Or.inl hri),
            choleskyOffDiag_frame H i K r c (Or.inl hri)]
          exact h r c hc (by omega)
      obtain ⟨ih1, ih2⟩ := ih (i + 1) _ _ hagree
      refine ⟨ih1, fun r c => ?_⟩
      rcases ih2 r c with heq | ⟨hl, hk⟩
      · exact Or.inl heq
      · by_cases hrc : r = i ∧ c ≤ i
        · left
          rw [hl, hk]
          exact hagree r c (by omega) (by omega)
        · right
          refine ⟨?_, ?_⟩
          · rw [hl, setMat_other _ _ _ _ _ _ (by omega)]
            exact choleskyOffDiag_frame H i L r c (by omega)
          · rw [hk, setMat_other _ _ _ _ _ _ (by omega)]
            exact choleskyOffDiag_frame H i K r c (by omega)

/-- Calling `getCholeskyDecomposition` again on its own output changes nothing. -/
theorem getCholeskyDecomposition_idem (sqrt : α → α) (n : Nat) (H L : Mat α) :
    getCholeskyDecomposition sqrt n H (getCholeskyDecomposition sqrt n H L).2
      = getCholeskyDecomposition sqrt n H L := by
  unfold getCholeskyDecomposition
  obtain ⟨h1, h2⟩ := choleskyFrom_sim sqrt H n 0 L (choleskyFrom sqrt H n 0 L).2
    (fun r _ _ hr => absurd hr (Nat.not_lt_zero r))
  apply Prod.ext
  · exact h1.symm
  · funext r c
    rcases h2 r c with h | ⟨_, h⟩
    · exact h.symm
    · exact h

/-- The flag returned by `getCholeskyDecomposition` does not depend on the prior
content of `choleskyDecomposition`. -/
theorem getCholeskyDecomposition_flag (sqrt : α → α) (n : Nat) (H L K : Mat α) :
    (getCholeskyDecomposition sqrt n H L).1 = (getCholeskyDecomposition sqrt n H K).1 :=
  (choleskyFrom_sim sqrt H n 0 L K (fun r _ _ hr => absurd hr (Nat.not_lt_zero r))).1

end Cholesky

/-! ### Over the reals -/

section RealCholesky

theorem TOL_pos : (0 : ℝ) < TOL := by
  unfold TOL
  positivity

theorem sqrt_TOL_pos : 0 < Real.sqrt TOL := Real.sqrt_pos.mpr TOL_pos

/-- The diagonal entry of a completed row squares to the pivot and is at least `sqrt TOL`. -/
theorem RowOK_diag (H L : Mat ℝ) (i : Nat) (h : RowOK Real.sqrt H L i) :
    L i i * L i i = choleskyPivot H i L ∧ Real.sqrt TOL ≤ L i i ∧ 0 < L i i := by
  obtain ⟨_, h2, h3⟩ := h
  have hp : TOL ≤ choleskyPivot H i L := not_lt.mp h2
  have h0 : 0 ≤ choleskyPivot H i L := le_trans (le_of_lt TOL_pos) hp
  have hle : Real.sqrt TOL ≤ L i i := by rw [h3]; exact Real.sqrt_le_sqrt hp
  refine ⟨?_, hle, lt_of_lt_of_le sqrt_TOL_pos hle⟩
  rw [h3]
  exact Real.mul_self_sqrt h0

/-- An off-diagonal entry that obeys the recurrence reproduces `H[i][j]`. -/
theorem offDiag_entry (H L : Mat ℝ) (i j : Nat) (hoff : OffDiagOK H L i) (hj : j < i)
    (hjj : L j j ≠ 0) : ∑ k in Finset.range (j + 1), L i k * L j k = H i j := by
  rw [Finset.sum_range_succ, hoff j hj]
  field_simp

/-- The diagonal entry of a completed row reproduces `H[i][i]`. -/
theorem diag_entry (H L : Mat ℝ) (i : Nat) (h : RowOK Real.sqrt H L i) :
    ∑ k in Finset.range (i + 1), L i k * L i k = H i i := by
  rw [Finset.sum_range_succ, (RowOK_diag H L i h).1, choleskyPivot_eq]
  ring

/-- Completed rows reproduce the lower triangle of `H`. -/
theorem factor_entry (H L : Mat ℝ) (n : Nat) (h : ∀ k, k < n → RowOK Real.sqrt H L k)
    (i j : Nat) (hi : i < n) (hj : j ≤ i) :
    ∑ k in Finset.range (j + 1), L i k * L j k = H i j := by
  by_cases hij : j = i
  · subst hij
    exact diag_entry H L j (h j hi)
  · exact offDiag_entry H L i j (h i hi).1 (by omega)
      (ne_of_gt (RowOK_diag H L j (h j (by omega))).2.2)

/-- Entry `(i, j)`, `j ≤ i`, of `lowerPart L * (lowerPart L)ᵀ` as a sum over `k ≤ j`. -/
theorem sum_lower_lower (n : Nat) (L : Mat ℝ) (i j : Nat) (hj : j ≤ i) (hi : i < n) :
    ∑ k in Finset.range n, lowerPart L i k * lowerPart L j k
      = ∑ k in Finset.range (j + 1), L i k * L j k := by
  have hsub : Finset.range (j + 1) ⊆ Finset.range n := Finset.range_subset.mpr (by omega)
  rw [← Finset.sum_subset hsub]
  · apply Finset.sum_congr rfl
    intro k hk
    have hk1 : k < j + 1 := Finset.mem_range.mp hk
    unfold lowerPart
    rw [if_pos (by omega), if_pos (by omega)]
  · intro k _ hk
    have hk1 : ¬ k < j + 1 := fun h => hk (Finset.mem_range.mpr h)
    unfold lowerPart
    rw [if_neg (by omega : ¬ k ≤ j), mul_zero]

theorem lower_mul_transpose_apply (n : Nat) (L : Mat ℝ) (i j : Fin n) :
    (toMatrix n (lowerPart L) * (toMatrix n (lowerPart L)).transpose) i j
      = ∑ k in Finset.range n, lowerPart L i k * lowerPart L j k := by
  rw [Matrix.mul_apply]
  simp only [toMatrix, Matrix.transpose_apply]
  exact Fin.sum_univ_eq_sum_range (fun k => lowerPart L i k * lowerPart L j k) n

/-- Completed rows give `lowerPart L * (lowerPart L)ᵀ = symmetrize H`. -/
theorem factor_matrix (H L : Mat ℝ) (n : Nat) (h : ∀ k, k < n → RowOK Real.sqrt H L k) :
    toMatrix n (lowerPart L) * (toMatrix n (lowerPart L)).transpose
      = toMatrix n (symmetrize H) := by
  ext i j
  rw [lower_mul_transpose_apply]
  by_cases hji : (j : Nat) ≤ i
  · rw [sum_lower_lower n L i j hji i.2, factor_entry H L n h i j i.2 hji]
    simp [toMatrix, symmetrize, hji]
  · have hij : (i : Nat) ≤ j := by omega
    have hcomm : ∑ k in Finset.range n, lowerPart L i k * lowerPart L j k
        = ∑ k in Finset.range n, lowerPart L j k * lowerPart L i k :=
      Finset.sum_congr rfl (fun k _ => mul_comm _ _)
    rw [hcomm, sum_lower_lower n L j i hij j.2, factor_entry H L n h j i j.2 hij]
    simp [toMatrix, symmetrize, hji]

/-- A real square matrix with non-zero determinant times its transpose is positive definite. -/
theorem posDef_mul_transpose {n : Nat} (A : Matrix (Fin n) (Fin n) ℝ) (hdet : A.det ≠ 0) :
    (A * A.transpose).PosDef := by
  refine ⟨?_, ?_⟩
  · rw [Matrix.IsHermitian, Matrix.conjTranspose_eq_transpose_of_trivial, Matrix.transpose_mul,
      Matrix.transpose_transpose]
  · intro x hx
    have hne : A.transpose.mulVec x ≠ 0 := fun h =>
      hx (Matrix.eq_zero_of_mulVec_eq_zero (by rwa [Matrix.det_transpose]) h)
    have hpos := Matrix.dotProduct_star_self_pos_iff.mpr hne
    rw [← Matrix.mulVec_mulVec, Matrix.dotProduct_mulVec, star_trivial]
    rw [star_trivial, Matrix.mulVec_transpose] at hpos
    rw [Matrix.mulVec_transpose]
    exact hpos

/-- The determinant of the lower triangle is the product of the diagonal. -/
theorem lowerPart_det (n : Nat) (L : Mat ℝ) :
    (toMatrix n (lowerPart L)).det = ∏ i : Fin n, L i i := by
  rw [Matrix.det_of_lowerTriangular]
  · apply Finset.prod_congr rfl
    intro i _
    simp [toMatrix, lowerPart]
  · intro i j hij
    have hlt : (i : Nat) < j := hij
    have : ¬ (j : Nat) ≤ i := by omega
    simp [toMatrix, lowerPart, this]

/-- Completed rows make `symmetrize H` positive definite. -/
theorem posDef_of_rows (H L : Mat ℝ) (n : Nat) (h : ∀ k, k < n → RowOK Real.sqrt H L k) :
    (toMatrix n (symmetrize H)).PosDef := by
  rw [← factor_matrix H L n h]
  apply posDef_mul_transpose
  rw [lowerPart_det]
  exact Finset.prod_ne_zero_iff.mpr
    (fun i _ => ne_of_gt (RowOK_diag H L i (h i i.2)).2.2)

/-- A symmetric array is its own symmetrisation. -/
theorem symmetrize_of_symm (n : Nat) (H : Mat ℝ) (hs : ∀ i j, i < n → j < n → H i j = H j i) :
    toMatrix n (symmetrize H) = toMatrix n H := by
  ext i j
  unfold toMatrix symmetrize
  by_cases hji : (j : Nat) ≤ i
  · rw [if_pos hji]
  · rw [if_neg hji]
    exact hs j i j.2 i.2

/-- The Cholesky recurrences determine the lower triangle. -/
theorem rowOK_unique (H L M : Mat ℝ) (m : Nat)
    (hL : ∀ k, k < m → RowOK Real.sqrt H L k) (hM : ∀ k, k < m → RowOK Real.sqrt H M k) :
    ∀ i, i < m → ∀ c, c ≤ i → L i c = M i c := by
  intro i
  induction i using Nat.strong_induction_on with
  | _ i ihi =>
    intro hi
    have hoff : ∀ c, c < i → L i c = M i c := by
      intro c
      induction c using Nat.strong_induction_on with
      | _ c ihc =>
        intro hc
        rw [(hL i hi).1 c hc, (hM i hi).1 c hc, ihi c hc (by omega) c (Nat.le_refl c)]
        congr 2
        apply Finset.sum_congr rfl
        intro k hk
        have hkc : k < c := Finset.mem_range.mp hk
        rw [ihc k hkc (by omega), ihi c hc (by omega) k (by omega)]
    intro c hc
    by_cases hci : c = i
    · subst hci
      rw [(hL c hi).2.2, (hM c hi).2.2, choleskyPivot_congr H M L c hoff]
    · exact hoff c (by omega)

/-- On top of equal completed rows, the off-diagonal recurrence determines the next row. -/
theorem offDiag_unique (H L M : Mat ℝ) (m : Nat)
    (hrows : ∀ i, i < m → ∀ c, c ≤ i → L i c = M i c)
    (hL : OffDiagOK H L m) (hM : OffDiagOK H M m) : ∀ c, c < m → L m c = M m c := by
  intro c
  induction c using Nat.strong_induction_on with
  | _ c ihc =>
    intro hc
    rw [hL c hc, hM c hc, hrows c hc c (Nat.le_refl c)]
    congr 2
    apply Finset.sum_congr rfl
    intro k hk
    have hkc : k < c := Finset.mem_range.mp hk
    rw [ihc k hkc (by omega), hrows c hc k (by omega)]

/-- A lower-triangular factor with positive diagonal whose squares reach `TOL`
obeys the Cholesky recurrences of the matrix it factors. -/
theorem rowOK_of_factor (H M : Mat ℝ) (n : Nat)
    (hpos : ∀ i, i < n → 0 < M i i) (htol : ∀ i, i < n → TOL ≤ M i i * M i i)
    (hfac : ∀ i j, i < n → j ≤ i → H i j = ∑ k in Finset.range (j + 1), M i k * M j k) :
    ∀ k, k < n → RowOK Real.sqrt H M k := by
  intro i hi
  have hpiv : choleskyPivot H i M = M i i * M i i := by
    rw [choleskyPivot_eq, hfac i i hi (Nat.le_refl i), Finset.sum_range_succ]
    ring
  refine ⟨?_, ?_, ?_⟩
  · intro c hc
    have hcc : M c c ≠ 0 := ne_of_gt (hpos c (by omega))
    rw [hfac i c hi (by omega), Finset.sum_range_succ]
    field_simp
  · rw [hpiv]
    exact not_lt.mpr (htol i hi)
  · rw [hpiv, Real.sqrt_mul_self (le_of_lt (hpos i hi))]

/-- If `H` has a lower-triangular factor `M` with positive diagonal whose squares
reach `TOL`, the factorisation succeeds and writes `M`. -/
theorem cholesky_of_factor (n : Nat) (H M C : Mat ℝ)
    (hpos : ∀ i, i < n → 0 < M i i) (htol : ∀ i, i < n → TOL ≤ M i i * M i i)
    (hfac : ∀ i j, i < n → j ≤ i → H i j = ∑ k in Finset.range (j + 1), M i k * M j k) :
    (getCholeskyDecomposition Real.sqrt n H C).1 = false ∧
      ∀ i j, i < n → j ≤ i → (getCholeskyDecomposition Real.sqrt n H C).2 i j = M i j := by
  have hM := rowOK_of_factor H M n hpos htol hfac
  obtain ⟨_, hs, ha⟩ := choleskyFrom_spec Real.sqrt H n 0 C
  have hflag : (getCholeskyDecomposition Real.sqrt n H C).1 = false := by
    by_contra hne
    have htrue : (choleskyFrom Real.sqrt H n 0 C).1 = true := by
      simpa [getCholeskyDecomposition] using hne
    obtain ⟨m, _, hm, hrows, hoff, hpiv, _⟩ := ha htrue
    have hm' : m < n := by omega
    have heq := rowOK_unique H _ M m (fun k hk => hrows k (Nat.zero_le k) hk)
      (fun k hk => hM k (by omega))
    have hrow := offDiag_unique H _ M m heq hoff (hM m hm').1
    rw [choleskyPivot_congr H M _ m hrow] at hpiv
    exact (hM m hm').2.1 hpiv
  refine ⟨hflag, ?_⟩
  have hrows : ∀ k, k < n → RowOK Real.sqrt H (choleskyFrom Real.sqrt H n 0 C).2 k :=
    fun k hk => hs hflag k (Nat.zero_le k) (by omega)
  intro i j hi hj
  exact rowOK_unique H _ M n hrows hM i hi j hj

end RealCholesky

/-! ## `solveCholesky` -/

section Solve

variable {α : Type} [LinearOrderedField α]

/-- The inner loop of the forward pass leaves `j = i` and the sum over `j < i`. -/
theorem forwardInner_eq (C : Mat α) (delta : Vec α) (i : Nat) :
    forwardInner C delta i = (i, ∑ j in Finset.range i, C i j * delta j) := by
  have hgen : ∀ t : Nat,
      forLoop t (fun _ (js : Nat × α) => (js.1 + 1, js.2 + C i js.1 * delta js.1)) (0, 0)
        = (t, ∑ j in Finset.range t, C i j * delta j) := by
    intro t
    induction t with
    | zero => simp [forLoop]
    | succ t iht => rw [forLoop_succ, iht, Finset.sum_range_succ]
  exact hgen i

/-- The forward pass with the index `j` of the write resolved to `i`. -/
theorem forwardSubstitution_eq (n : Nat) (C : Mat α) (d delta : Vec α) :
    forwardSubstitution n C d delta
      = forLoop n (fun i w =>
          setVec w i ((d i - ∑ j in Finset.range i, C i j * w j) / C i i)) delta := by
  unfold forwardSubstitution
  simp only [forwardInner_eq]

/-- The forward pass after `m` rows: entries from `m` on are kept, the earlier
ones obey the forward-substitution recurrence. -/
theorem forward_loop (C : Mat α) (d delta : Vec α) (m : Nat) :
    (∀ k, m ≤ k → forLoop m (fun i w =>
        setVec w i ((d i - ∑ j in Finset.range i, C i j * w j) / C i i)) delta k = delta k) ∧
    (∀ i, i < m → forLoop m (fun i w =>
        setVec w i ((d i - ∑ j in Finset.range i, C i j * w j) / C i i)) delta i
      = (d i - ∑ j in Finset.range i, C i j * forLoop m (fun i w =>
        setVec w i ((d i - ∑ j in Finset.range i, C i j * w j) / C i i)) delta j) / C i i) := by
  induction m with
  | zero => exact ⟨fun k _ => rfl, fun i hi => absurd hi (Nat.not_lt_zero i)⟩
  | succ m ih =>
    obtain ⟨ihf, ihs⟩ := ih
    refine ⟨?_, ?_⟩
    · intro k hk
      rw [forLoop_succ, setVec_other _ _ _ _ (by omega)]
      exact ihf k (by omega)
    · intro i hi
      rw [forLoop_succ]
      by_cases him : i = m
      · subst him
        rw [setVec_same]
        congr 2
        apply Finset.sum_congr rfl
        intro j hj
        have hji : j < i := Finset.mem_range.mp hj
        rw [setVec_other _ _ _ _ (by omega)]
      · rw [setVec_other _ _ _ _ him, ihs i (by omega)]
        congr 2
        apply Finset.sum_congr rfl
        intro j hj
        have hji : j < i := Finset.mem_range.mp hj
        rw [setVec_other _ _ _ _ (by omega)]

theorem forwardSubstitution_frame (n : Nat) (C : Mat α) (d delta : Vec α) (k : Nat)
    (hk : n ≤ k) : forwardSubstitution n C d delta k = delta k := by
  rw [forwardSubstitution_eq]
  exact (forward_loop C d delta n).1 k hk

theorem forwardSubstitution_spec (n : Nat) (C : Mat α) (d delta : Vec α) (i : Nat)
    (hi : i < n) :
    forwardSubstitution n C d delta i
      = (d i - ∑ j in Finset.range i, C i j * forwardSubstitution n C d delta j) / C i i := by
  rw [forwardSubstitution_eq]
  exact (forward_loop C d delta n).2 i hi

theorem backInner_eq (n : Nat) (C : Mat α) (delta : Vec α) (i : Nat) :
    backInner n C delta i
      = ∑ t in Finset.range (n - (i + 1)), C (i + 1 + t) i * delta (i + 1 + t) := by
  unfold backInner
  rw [forLoop_sum, zero_add]

/-- The inner loop of the backward pass reads `delta` only above `i`. -/
theorem backInner_congr (n : Nat) (C : Mat α) (v w : Vec α) (i : Nat)
    (h : ∀ k, i < k → v k = w k) : backInner n C v i = backInner n C w i := by
  rw [backInner_eq, backInner_eq]
  apply Finset.sum_congr rfl
  intro t _
  rw [h (i + 1 + t) (by omega)]

/-- The backward pass over rows `m-1 .. 0`: entries from `m` on are kept, the
earlier ones obey the back-substitution recurrence. -/
theorem back_loop (n : Nat) (C : Mat α) (m : Nat) :
    ∀ v : Vec α,
      (∀ k, m ≤ k → forDown m (fun i delta =>
          setVec delta i ((delta i - backInner n C delta i) / C i i)) v k = v k) ∧
      (∀ i, i < m → forDown m (fun i delta =>
          setVec delta i ((delta i - backInner n C delta i) / C i i)) v i
        = (v i - backInner n C (forDown m (fun i delta =>
          setVec delta i ((delta i - backInner n C delta i) / C i i)) v) i) / C i i) := by
  induction m with
  | zero => intro v; exact ⟨fun k _ => rfl, fun i hi => absurd hi (Nat.not_lt_zero i)⟩
  | succ m ih =>
    intro v
    obtain ⟨ihf, ihs⟩ := ih (setVec v m ((v m - backInner n C v m) / C m m))
    refine ⟨?_, ?_⟩
    · intro k hk
      rw [forDown_succ, ihf k (by omega), setVec_other _ _ _ _ (by omega)]
    · intro i hi
      rw [forDown_succ]
      by_cases him : i = m
      · subst him
        rw [ihf i (Nat.le_refl i), setVec_same]
        congr 2
        apply backInner_congr
        intro k hk
        rw [ihf k (by omega), setVec_other _ _ _ _ (by omega)]
      · rw [ihs i (by omega), setVec_other _ _ _ _ him]

theorem backSubstitution_frame (n : Nat) (C : Mat α) (v : Vec α) (k : Nat) (hk : n ≤ k) :
    backSubstitution n C v k = v k :=
  (back_loop n C n v).1 k hk

theorem backSubstitution_spec (n : Nat) (C : Mat α) (v : Vec α) (i : Nat) (hi : i < n) :
    backSubstitution n C v i
      = (v i - ∑ t in Finset.range (n - (i + 1)),
          C (i + 1 + t) i * backSubstitution n C v (i + 1 + t)) / C i i := by
  rw [← backInner_eq]
  exact (back_loop n C n v).2 i hi

/-- `solveCholesky` keeps the entries of `delta` from `n` on. -/
theorem solveCholesky_frame (n : Nat) (C : Mat α) (d delta : Vec α) (k : Nat) (hk : n ≤ k) :
    solveCholesky n C d delta k = delta k := by
  unfold solveCholesky
  rw [backSubstitution_frame n C _ k hk, forwardSubstitution_frame n C d delta k hk]

/-- The forward pass does not depend on the prior content of `delta` below `n`. -/
theorem forwardSubstitution_prior (n : Nat) (C : Mat α) (d v w : Vec α) :
    ∀ i, i < n → forwardSubstitution n C d v i = forwardSubstitution n C d w i := by
  intro i
  induction i using Nat.strong_induction_on with
  | _ i ih =>
    intro hi
    rw [forwardSubstitution_spec n C d v i hi, forwardSubstitution_spec n C d w i hi]
    congr 2
    apply Finset.sum_congr rfl
    intro j hj
    have hji : j < i := Finset.mem_range.mp hj
    rw [ih j hji (by omega)]

/-- The backward pass is determined by the entries of its input below `n`. -/
theorem backSubstitution_prior (n : Nat) (C : Mat α) (v w : Vec α)
    (h : ∀ i, i < n → v i = w i) :
    ∀ i, i < n → backSubstitution n C v i = backSubstitution n C w i := by
  have key : ∀ a i, i < n → n - i = a → backSubstitution n C v i = backSubstitution n C w i := by
    intro a
    induction a using Nat.strong_induction_on with
    | _ a ih =>
      intro i hi ha
      rw [backSubstitution_spec n C v i hi, backSubstitution_spec n C w i hi, h i hi]
      congr 2
      apply Finset.sum_congr rfl
      intro t ht
      have htn : t < n - (i + 1) := Finset.mem_range.mp ht
      rw [ih (n - (i + 1 + t)) (by omega) (i + 1 + t) (by omega) rfl]
  intro i hi
  exact key (n - i) i hi rfl

/-- `solveCholesky` overwrites `delta` below `n` with values that do not depend
on its prior content. -/
theorem solveCholesky_prior (n : Nat) (C : Mat α) (d v w : Vec α) :
    ∀ i, i < n → solveCholesky n C d v i = solveCholesky n C d w i := by
  unfold solveCholesky
  exact backSubstitution_prior n C _ _ (forwardSubstitution_prior n C d v w)

/-- Calling `solveCholesky` again on its own output changes nothing. -/
theorem solveCholesky_idem (n : Nat) (C : Mat α) (d delta : Vec α) :
    solveCholesky n C d (solveCholesky n C d delta) = solveCholesky n C d delta := by
  funext k
  by_cases hk : k < n
  · exact solveCholesky_prior n C d _ _ k hk
  · rw [solveCholesky_frame n C d _ k (by omega)]

/-- Row `i` of the lower triangle against a vector: only `j ≤ i` contributes. -/
theorem sum_lower_row (n : Nat) (C : Mat α) (z : Vec α) (i : Nat) (hi : i < n) :
    ∑ j in Finset.range n, lowerPart C i j * z j
      = ∑ j in Finset.range i, C i j * z j + C i i * z i := by
  have hsub : Finset.range (i + 1) ⊆ Finset.range n := Finset.range_subset.mpr (by omega)
  rw [← Finset.sum_range_succ (fun j => C i j * z j) i, ← Finset.sum_subset hsub]
  · apply Finset.sum_congr rfl
    intro j hj
    have hj1 : j < i + 1 := Finset.mem_range.mp hj
    unfold lowerPart
    rw [if_pos (by omega)]
  · intro j _ hj
    have hj1 : ¬ j < i + 1 := fun h => hj (Finset.mem_range.mpr h)
    unfold lowerPart
    rw [if_neg (by omega), zero_mul]

/-- Column `i` of the lower triangle against a vector: only `j ≥ i` contributes. -/
theorem sum_lower_col (n : Nat) (C : Mat α) (w : Vec α) (i : Nat) (hi : i < n) :
    ∑ j in Finset.range n, lowerPart C j i * w j
      = C i i * w i + ∑ t in Finset.range (n - (i + 1)), C (i + 1 + t) i * w (i + 1 + t) := by
  have hn : n = (i + 1) + (n - (i + 1)) := by omega
  have h1 : ∑ j in Finset.range (i + 1), lowerPart C j i * w j = C i i * w i := by
    rw [Finset.sum_range_succ]
    have hz : ∑ j in Finset.range i, lowerPart C j i * w j = 0 := by
      apply Finset.sum_eq_zero
      intro j hj
      have hji : j < i := Finset.mem_range.mp hj
      unfold lowerPart
      rw [if_neg (by omega), zero_mul]
    rw [hz, zero_add]
    unfold lowerPart
    rw [if_pos (Nat.le_refl i)]
  have h2 : ∑ t in Finset.range (n - (i + 1)), lowerPart C (i + 1 + t) i * w (i + 1 + t)
      = ∑ t in Finset.range (n - (i + 1)), C (i + 1 + t) i * w (i + 1 + t) := by
    apply Finset.sum_congr rfl
    intro t _
    unfold lowerPart
    rw [if_pos (by omega)]
  calc ∑ j in Finset.range n, lowerPart C j i * w j
      = ∑ j in Finset.range ((i + 1) + (n - (i + 1))), lowerPart C j i * w j := by rw [← hn]
    _ = C i i * w i + ∑ t in Finset.range (n - (i + 1)), C (i + 1 + t) i * w (i + 1 + t) := by
        rw [Finset.sum_range_add, h1, h2]

/-- The forward pass solves `L z = d` for the lower triangle `L` of `C`. -/
theorem forward_solves (n : Nat) (C : Mat α) (d delta : Vec α)
    (hdiag : ∀ i, i < n → C i i ≠ 0) (i : Nat) (hi : i < n) :
    ∑ j in Finset.range n, lowerPart C i j * forwardSubstitution n C d delta j = d i := by
  rw [sum_lower_row n C _ i hi]
  have hii := hdiag i hi
  have hz := forwardSubstitution_spec n C d delta i hi
  rw [eq_div_iff hii] at hz
  rw [mul_comm (C i i), hz]
  ring

/-- The backward pass solves `Lᵀ w = v` for the lower triangle `L` of `C`. -/
theorem back_solves (n : Nat) (C : Mat α) (v : Vec α)
    (hdiag : ∀ i, i < n → C i i ≠ 0) (i : Nat) (hi : i < n) :
    ∑ j in Finset.range n, lowerPart C j i * backSubstitution n C v j = v i := by
  rw [sum_lower_col n C _ i hi]
  have hii := hdiag i hi
  have hz := backSubstitution_spec n C v i hi
  rw [eq_div_iff hii] at hz
  rw [mul_comm (C i i), hz]
  ring

theorem lower_mulVec_apply (n : Nat) (C : Mat α) (z : Vec α) (i : Fin n) :
    (toMatrix n (lowerPart C)).mulVec (toVector n z) i
      = ∑ j in Finset.range n, lowerPart C i j * z j := by
  simp only [Matrix.mulVec, Matrix.dotProduct, toMatrix, toVector]
  exact Fin.sum_univ_eq_sum_range (fun j => lowerPart C i j * z j) n

theorem lower_transpose_mulVec_apply (n : Nat) (C : Mat α) (z : Vec α) (i : Fin n) :
    (toMatrix n (lowerPart C)).transpose.mulVec (toVector n z) i
      = ∑ j in Finset.range n, lowerPart C j i * z j := by
  simp only [Matrix.mulVec, Matrix.dotProduct, toMatrix, toVector, Matrix.transpose_apply]
  exact Fin.sum_univ_eq_sum_range (fun j => lowerPart C j i * z j) n

/-- `solveCholesky` in matrix form: `L z = d` and `Lᵀ delta = z`. -/
theorem solveCholesky_matrix (n : Nat) (C : Mat α) (d delta : Vec α)
    (hdiag : ∀ i, i < n → C i i ≠ 0) :
    (toMatrix n (lowerPart C)).mulVec (toVector n (forwardSubstitution n C d delta))
        = toVector n d ∧
      (toMatrix n (lowerPart C)).transpose.mulVec (toVector n (solveCholesky n C d delta))
        = toVector n (forwardSubstitution n C d delta) := by
  refine ⟨?_, ?_⟩
  · funext i
    rw [lower_mulVec_apply]
    exact forward_solves n C d delta hdiag i i.2
  · funext i
    rw [lower_transpose_mulVec_apply]
    exact back_solves n C _ hdiag i i.2

end Solve

/-! ## The factorisation and the solve: statements -/

section CholeskyClaims

/-- An array whose strict upper triangle vanishes is its own lower triangle. -/
theorem toMatrix_lowerPart (n : Nat) (L : Mat ℝ) (h : ∀ i j, i < j → j < n → L i j = 0) :
    toMatrix n (lowerPart L) = toMatrix n L := by
  ext i j
  unfold toMatrix lowerPart
  by_cases hji : (j : Nat) ≤ i
  · rw [if_pos hji]
  · rw [if_neg hji]
    exact (h i j (by omega) j.2).symm

/-- On success every row below `n` is a completed Cholesky row. -/
theorem rows_of_success (n : Nat) (H C : Mat ℝ)
    (hret : (getCholeskyDecomposition Real.sqrt n H C).1 = false) :
    ∀ k, k < n → RowOK Real.sqrt H (getCholeskyDecomposition Real.sqrt n H C).2 k := by
  intro k hk
  exact (choleskyFrom_spec Real.sqrt H n 0 C).2.1 hret k (Nat.zero_le k) (by omega)

/-- The factorisation never writes above the diagonal. -/
theorem upper_kept (n : Nat) (H C : Mat ℝ) (i j : Nat) (hij : i < j) :
    (getCholeskyDecomposition Real.sqrt n H C).2 i j = C i j :=
  (choleskyFrom_spec Real.sqrt H n 0 C).1 i j (Or.inr (Or.inl hij))

/-- C6: whatever `hessian` holds and whatever `choleskyDecomposition` held before
(strict upper triangle zero), if `getCholeskyDecomposition` returns `false` then
the resulting `L` is lower-triangular, every diagonal entry is at least
`sqrt TOL > 0`, and `(L * Lᵀ)[i][j] = hessian[i][j]` for all `j ≤ i`; the result
is the same for any other `hessian` with the same lower triangle. -/
theorem getCholeskyDecomposition_success (n : Nat) (H C : Mat ℝ)
    (hC : ∀ i j, i < j → j < n → C i j = 0)
    (hret : (getCholeskyDecomposition Real.sqrt n H C).1 = false) :
    (∀ i j, i < j → j < n → (getCholeskyDecomposition Real.sqrt n H C).2 i j = 0) ∧
    (∀ i, i < n → Real.sqrt TOL ≤ (getCholeskyDecomposition Real.sqrt n H C).2 i i) ∧
    0 < Real.sqrt TOL ∧
    (∀ i j : Fin n, j ≤ i →
      (toMatrix n (getCholeskyDecomposition Real.sqrt n H C).2
        * (toMatrix n (getCholeskyDecomposition Real.sqrt n H C).2).transpose) i j = H i j) ∧
    (∀ K : Mat ℝ, (∀ i j, j ≤ i → i < n → K i j = H i j) →
      getCholeskyDecomposition Real.sqrt n K C = getCholeskyDecomposition Real.sqrt n H C) := by
  have hrows := rows_of_success n H C hret
  have hup : ∀ i j, i < j → j < n → (getCholeskyDecomposition Real.sqrt n H C).2 i j = 0 :=
    fun i j hij hj => by rw [upper_kept n H C i j hij]; exact hC i j hij hj
  refine ⟨hup, fun i hi => (RowOK_diag H _ i (hrows i hi)).2.1, sqrt_TOL_pos, ?_, ?_⟩
  · intro i j hji
    rw [← toMatrix_lowerPart n _ hup, factor_matrix H _ n hrows]
    have hji' : (j : Nat) ≤ i := hji
    simp [toMatrix, symmetrize, hji']
  · intro K hK
    exact choleskyFrom_congr_H Real.sqrt H K n 0 C (fun r c hc hr => hK r c hc (by omega))

/-- Witness for `getCholeskyDecomposition_success`: the matrix `[[1, 1], [1, 2]]`. -/
theorem getCholeskyDecomposition_success_witness :
    (∀ i j, i < j → j < 2 → (fun _ _ => (0 : ℝ)) i j = 0) ∧
    (getCholeskyDecomposition Real.sqrt 2 exampleGram (fun _ _ => (0 : ℝ))).1 = false ∧
    ((∀ i j, i < j → j < 2 →
        (getCholeskyDecomposition Real.sqrt 2 exampleGram (fun _ _ => (0 : ℝ))).2 i j = 0) ∧
      (∀ i, i < 2 → Real.sqrt TOL
        ≤ (getCholeskyDecomposition Real.sqrt 2 exampleGram (fun _ _ => (0 : ℝ))).2 i i) ∧
      0 < Real.sqrt TOL ∧
      (∀ i j : Fin 2, j ≤ i →
        (toMatrix 2 (getCholeskyDecomposition Real.sqrt 2 exampleGram (fun _ _ => (0 : ℝ))).2
          * (toMatrix 2 (getCholeskyDecomposition Real.sqrt 2 exampleGram
              (fun _ _ => (0 : ℝ))).2).transpose) i j = exampleGram i j) ∧
      (∀ K : Mat ℝ, (∀ i j, j ≤ i → i < 2 → K i j = exampleGram i j) →
        getCholeskyDecomposition Real.sqrt 2 K (fun _ _ => (0 : ℝ))
          = getCholeskyDecomposition Real.sqrt 2 exampleGram (fun _ _ => (0 : ℝ)))) := by
  have hflag : (getCholeskyDecomposition Real.sqrt 2 exampleGram (fun _ _ => (0 : ℝ))).1
      = false := by
    refine (cholesky_of_factor 2 exampleGram exampleFactor (fun _ _ => 0) ?_ ?_ ?_).1
    · intro i hi
      interval_cases i <;> simp [exampleFactor]
    · intro i hi
      have : (TOL : ℝ) ≤ 1 := by unfold TOL; norm_num
      interval_cases i <;> simpa [exampleFactor] using this
    · intro i j hi hj
      interval_cases i <;> interval_cases j <;>
        norm_num [exampleGram, exampleFactor, Finset.sum_range_succ]
  exact ⟨fun _ _ _ _ => rfl, hflag,
    getCholeskyDecomposition_success 2 exampleGram (fun _ _ => 0) (fun _ _ _ _ => rfl) hflag⟩

/-- C5 (over the reals): for every symmetric matrix `H` that is not positive
definite, `getCholeskyDecomposition` returns `true`; it returns at the first row `i` whose
pivot `H[i][i] - sum_{k<i} L[i][k]^2` is below `TOL` (every earlier row was
completed with a pivot not below `TOL`), and it leaves the diagonal entry of that
row and every later row as they were. -/
theorem getCholeskyDecomposition_detects (n : Nat) (H C : Mat ℝ)
    (hsym : ∀ i j, i < n → j < n → H i j = H j i)
    (hnpd : ¬ (toMatrix n H).PosDef) :
    (getCholeskyDecomposition Real.sqrt n H C).1 = true ∧
    ∃ i, i < n ∧
      (∀ r, r < i → RowOK Real.sqrt H (getCholeskyDecomposition Real.sqrt n H C).2 r) ∧
      (∀ r, r < i → ¬ choleskyPivot H r (getCholeskyDecomposition Real.sqrt n H C).2 < TOL) ∧
      choleskyPivot H i (getCholeskyDecomposition Real.sqrt n H C).2 < TOL ∧
      (getCholeskyDecomposition Real.sqrt n H C).2 i i = C i i ∧
      (∀ r c, i < r → (getCholeskyDecomposition Real.sqrt n H C).2 r c = C r c) := by
  have hflag : (getCholeskyDecomposition Real.sqrt n H C).1 = true := by
    by_contra hne
    have hfalse : (getCholeskyDecomposition Real.sqrt n H C).1 = false := by
      simpa using hne
    apply hnpd
    rw [← symmetrize_of_symm n H hsym]
    exact posDef_of_rows H _ n (rows_of_success n H C hfalse)
  refine ⟨hflag, ?_⟩
  obtain ⟨m, _, hm, hrows, _, hpiv, hkeep⟩ := (choleskyFrom_spec Real.sqrt H n 0 C).2.2 hflag
  exact ⟨m, by omega, fun r hr => hrows r (Nat.zero_le r) hr,
    fun r hr => (hrows r (Nat.zero_le r) hr).2.1, hpiv,
    hkeep m m (Or.inr ⟨rfl, rfl⟩), fun r c hr => hkeep r c (Or.inl hr)⟩

/-- Witness for `getCholeskyDecomposition_detects`: the matrix `[[1, 2], [2, 1]]`. -/
theorem getCholeskyDecomposition_detects_witness :
    (∀ i j, i < 2 → j < 2 → (exampleIndefinite : Mat ℝ) i j = exampleIndefinite j i) ∧
    ¬ (toMatrix 2 (exampleIndefinite : Mat ℝ)).PosDef ∧
    ((getCholeskyDecomposition Real.sqrt 2 exampleIndefinite (fun _ _ => (0 : ℝ))).1 = true ∧
      ∃ i, i < 2 ∧
        (∀ r, r < i → RowOK Real.sqrt exampleIndefinite
          (getCholeskyDecomposition Real.sqrt 2 exampleIndefinite (fun _ _ => (0 : ℝ))).2 r) ∧
        (∀ r, r < i → ¬ choleskyPivot exampleIndefinite r
          (getCholeskyDecomposition Real.sqrt 2 exampleIndefinite (fun _ _ => (0 : ℝ))).2 < TOL) ∧
        choleskyPivot exampleIndefinite i
          (getCholeskyDecomposition Real.sqrt 2 exampleIndefinite (fun _ _ => (0 : ℝ))).2 < TOL ∧
        (getCholeskyDecomposition Real.sqrt 2 exampleIndefinite (fun _ _ => (0 : ℝ))).2 i i
          = (fun _ _ => (0 : ℝ)) i i ∧
        (∀ r c, i < r →
          (getCholeskyDecomposition Real.sqrt 2 exampleIndefinite (fun _ _ => (0 : ℝ))).2 r c
            = (fun _ _ => (0 : ℝ)) r c)) := by
  have hsym : ∀ i j, i < 2 → j < 2 →
      (exampleIndefinite : Mat ℝ) i j = exampleIndefinite j i := by
    intro i j _ _
    simp [exampleIndefinite, eq_comm]
  have hnpd : ¬ (toMatrix 2 (exampleIndefinite : Mat ℝ)).PosDef := by
    intro h
    have hx : (![1, -1] : Fin 2 → ℝ) ≠ 0 := by
      intro h0
      have := congrFun h0 0
      simp at this
    have := h.2 ![1, -1] hx
    norm_num [toMatrix, exampleIndefinite, Matrix.mulVec, Matrix.dotProduct,
      Fin.sum_univ_two] at this
  exact ⟨hsym, hnpd, getCholeskyDecomposition_detects 2 exampleIndefinite (fun _ _ => 0) hsym hnpd⟩

/-- C4 (as the code has it): for every `P × P` matrix `H = M * Mᵀ` with `M`
lower-triangular, its diagonal positive and every squared diagonal entry at least
`TOL` (these `H` are symmetric positive definite), `getCholeskyDecomposition`,
started from a `choleskyDecomposition` with zero strict upper triangle, returns
`false` and leaves `L = M`, so `L * Lᵀ = H`. -/
theorem getCholeskyDecomposition_correct (n : Nat) (H M C : Mat ℝ)
    (hC : ∀ i j, i < j → j < n → C i j = 0)
    (hlow : ∀ i j, i < j → j < n → M i j = 0)
    (hpos : ∀ i, i < n → 0 < M i i)
    (htol : ∀ i, i < n → TOL ≤ M i i * M i i)
    (hH : toMatrix n H = toMatrix n M * (toMatrix n M).transpose) :
    (toMatrix n H).PosDef ∧
    (getCholeskyDecomposition Real.sqrt n H C).1 = false ∧
    toMatrix n (getCholeskyDecomposition Real.sqrt n H C).2 = toMatrix n M ∧
    toMatrix n (getCholeskyDecomposition Real.sqrt n H C).2
      * (toMatrix n (getCholeskyDecomposition Real.sqrt n H C).2).transpose = toMatrix n H := by
  have hfac : ∀ i j, i < n → j ≤ i →
      H i j = ∑ k in Finset.range (j + 1), M i k * M j k := by
    intro i j hi hj
    have h1 := congrFun (congrFun hH ⟨i, hi⟩) ⟨j, by omega⟩
    rw [← toMatrix_lowerPart n M hlow, lower_mul_transpose_apply] at h1
    rw [← sum_lower_lower n M i j hj hi]
    exact h1
  obtain ⟨hflag, hent⟩ := cholesky_of_factor n H M C hpos htol hfac
  have hLM : toMatrix n (getCholeskyDecomposition Real.sqrt n H C).2 = toMatrix n M := by
    ext i j
    unfold toMatrix
    by_cases hji : (j : Nat) ≤ i
    · exact hent i j i.2 hji
    · rw [upper_kept n H C i j (by omega), hC i j (by omega) j.2, hlow i j (by omega) j.2]
  refine ⟨?_, hflag, hLM, by rw [hLM, hH]⟩
  rw [hH, ← toMatrix_lowerPart n M hlow]
  apply posDef_mul_transpose
  rw [lowerPart_det]
  exact Finset.prod_ne_zero_iff.mpr (fun i _ => ne_of_gt (hpos i i.2))

/-- Witness for `getCholeskyDecomposition_correct`: `[[1, 1], [1, 2]]` with factor
`[[1, 0], [1, 1]]`. -/
theorem getCholeskyDecomposition_correct_witness :
    (∀ i j, i < j → j < 2 → (fun _ _ => (0 : ℝ)) i j = 0) ∧
    (∀ i j, i < j → j < 2 → (exampleFactor : Mat ℝ) i j = 0) ∧
    (∀ i, i < 2 → 0 < (exampleFactor : Mat ℝ) i i) ∧
    (∀ i, i < 2 → TOL ≤ (exampleFactor : Mat ℝ) i i * exampleFactor i i) ∧
    toMatrix 2 (exampleGram : Mat ℝ)
      = toMatrix 2 exampleFactor * (toMatrix 2 exampleFactor).transpose ∧
    ((toMatrix 2 (exampleGram : Mat ℝ)).PosDef ∧
      (getCholeskyDecomposition Real.sqrt 2 exampleGram (fun _ _ => (0 : ℝ))).1 = false ∧
      toMatrix 2 (getCholeskyDecomposition Real.sqrt 2 exampleGram (fun _ _ => (0 : ℝ))).2
        = toMatrix 2 exampleFactor ∧
      toMatrix 2 (getCholeskyDecomposition Real.sqrt 2 exampleGram (fun _ _ => (0 : ℝ))).2
        * (toMatrix 2 (getCholeskyDecomposition Real.sqrt 2 exampleGram
            (fun _ _ => (0 : ℝ))).2).transpose = toMatrix 2 exampleGram) := by
  have h1 : ∀ i j, i < j → j < 2 → (exampleFactor : Mat ℝ) i j = 0 := by
    intro i j hij hj
    have : ¬ (j ≤ i ∧ i < 2) := by omega
    simp [exampleFactor, this]
  have h2 : ∀ i, i < 2 → 0 < (exampleFactor : Mat ℝ) i i := by
    intro i hi
    simp [exampleFactor, hi]
  have h3 : ∀ i, i < 2 → TOL ≤ (exampleFactor : Mat ℝ) i i * exampleFactor i i := by
    intro i hi
    have : (TOL : ℝ) ≤ 1 := by unfold TOL; norm_num
    simpa [exampleFactor, hi] using this
  have h4 : toMatrix 2 (exampleGram : Mat ℝ)
      = toMatrix 2 exampleFactor * (toMatrix 2 exampleFactor).transpose := by
    ext i j
    fin_cases i <;> fin_cases j <;>
      norm_num [toMatrix, exampleGram, exampleFactor, Matrix.mul_apply, Fin.sum_univ_two]
  exact ⟨fun _ _ _ _ => rfl, h1, h2, h3, h4,
    getCholeskyDecomposition_correct 2 exampleGram exampleFactor (fun _ _ => 0)
      (fun _ _ _ _ => rfl) h1 h2 h3 h4⟩

/-- C4 fails as stated: the `1 × 1` matrix `[[1e-31]]` is symmetric positive
definite, yet `getCholeskyDecomposition` reports it ill-conditioned, because its
pivot is below `TOL = 1e-30`. -/
theorem getCholeskyDecomposition_rejects_tiny_spd :
    (toMatrix 1 (fun _ _ => (1 : ℝ) / 10 ^ 31)).PosDef ∧
    (getCholeskyDecomposition Real.sqrt 1 (fun _ _ => (1 : ℝ) / 10 ^ 31)
      (fun _ _ => (0 : ℝ))).1 = true := by
  refine ⟨⟨?_, ?_⟩, ?_⟩
  · ext i j
    simp [toMatrix]
  · intro x hx
    have hx0 : x 0 ≠ 0 := by
      intro h0
      apply hx
      funext i
      fin_cases i
      simpa using h0
    have hsq : 0 < x 0 * x 0 := mul_self_pos.mpr hx0
    simp only [toMatrix, Matrix.mulVec, Matrix.dotProduct, Finset.univ_unique,
      Fin.default_eq_zero, Finset.sum_singleton, star_trivial]
    have : x 0 * (1 / 10 ^ 31 * x 0) = (x 0 * x 0) / 10 ^ 31 := by ring
    rw [this]
    positivity
  · norm_num [getCholeskyDecomposition, choleskyFrom, choleskyPivot, choleskyOffDiag, forLoop, TOL]

/-- C7: for every array `C` with non-zero diagonal entries below `n` (its lower
triangle is `L`), every `derivative` `d` and every prior content of `delta`,
`solveCholesky` leaves in `delta` the result of the forward substitution
`L z = d` followed by the back substitution `Lᵀ delta = z`, so
`L (Lᵀ delta) = d`; the index `j` through which the forward pass writes is `i`. -/
theorem solveCholesky_correct (n : Nat) (C : Mat ℝ) (d delta : Vec ℝ)
    (hdiag : ∀ i, i < n → C i i ≠ 0) :
    (∀ (w : Vec ℝ) (i : Nat), (forwardInner C w i).1 = i) ∧
    (toMatrix n (lowerPart C)).mulVec (toVector n (forwardSubstitution n C d delta))
      = toVector n d ∧
    (toMatrix n (lowerPart C)).transpose.mulVec (toVector n (solveCholesky n C d delta))
      = toVector n (forwardSubstitution n C d delta) ∧
    (toMatrix n (lowerPart C)).mulVec
      ((toMatrix n (lowerPart C)).transpose.mulVec (toVector n (solveCholesky n C d delta)))
      = toVector n d := by
  obtain ⟨h1, h2⟩ := solveCholesky_matrix n C d delta hdiag
  refine ⟨fun w i => by rw [forwardInner_eq], h1, h2, ?_⟩
  rw [h2, h1]

/-- Witness for `solveCholesky_correct`: the factor `[[1, 0], [1, 1]]`, right-hand
side `(1, 1, ...)`. -/
theorem solveCholesky_correct_witness :
    (∀ i, i < 2 → (exampleFactor : Mat ℝ) i i ≠ 0) ∧
    ((∀ (w : Vec ℝ) (i : Nat), (forwardInner (exampleFactor : Mat ℝ) w i).1 = i) ∧
      (toMatrix 2 (lowerPart (exampleFactor : Mat ℝ))).mulVec
        (toVector 2 (forwardSubstitution 2 exampleFactor (fun _ => 1) (fun _ => 0)))
        = toVector 2 (fun _ => 1) ∧
      (toMatrix 2 (lowerPart (exampleFactor : Mat ℝ))).transpose.mulVec
        (toVector 2 (solveCholesky 2 exampleFactor (fun _ => 1) (fun _ => 0)))
        = toVector 2 (forwardSubstitution 2 exampleFactor (fun _ => 1) (fun _ => 0)) ∧
      (toMatrix 2 (lowerPart (exampleFactor : Mat ℝ))).mulVec
        ((toMatrix 2 (lowerPart (exampleFactor : Mat ℝ))).transpose.mulVec
          (toVector 2 (solveCholesky 2 exampleFactor (fun _ => 1) (fun _ => 0))))
        = toVector 2 (fun _ => 1)) := by
  have h : ∀ i, i < 2 → (exampleFactor : Mat ℝ) i i ≠ 0 := by
    intro i hi
    simp [exampleFactor, hi]
  exact ⟨h, solveCholesky_correct 2 exampleFactor (fun _ => 1) (fun _ => 0) h⟩

end CholeskyClaims

/-! ## The build pass of `fit` -/

section Build

variable {α : Type} [LinearOrderedField α]

/-- A loop of updates `d[i] += c i`. -/
theorem forLoop_addVec (n : Nat) (c : Nat → α) (d : Vec α) (k : Nat) :
    forLoop n (fun i d => setVec d i (d i + c i)) d k = if k < n then d k + c k else d k := by
  induction n with
  | zero => simp [forLoop]
  | succ n ih =>
    rw [forLoop_succ]
    by_cases hk : k = n
    · subst hk
      rw [setVec_same, ih]
      simp
    · rw [setVec_other _ _ _ _ hk, ih]
      by_cases h1 : k < n
      · simp [h1, Nat.lt_succ_of_lt h1]
      · have : ¬ k < n + 1 := by omega
        simp [h1, this]

/-- A loop of updates `h[i][j] += a j` along row `i`. -/
theorem forLoop_addRow (m i : Nat) (a : Nat → α) (h : Mat α) (r c : Nat) :
    forLoop m (fun j h => setMat h i j (h i j + a j)) h r c
      = if r = i ∧ c < m then h r c + a c else h r c := by
  induction m with
  | zero => simp [forLoop]
  | succ m ih =>
    rw [forLoop_succ]
    by_cases hrc : r = i ∧ c = m
    · obtain ⟨h1, h2⟩ := hrc
      subst h1; subst h2
      rw [setMat_same, ih]
      simp
    · rw [setMat_other _ _ _ _ _ _ (by omega), ih]
      by_cases h1 : r = i ∧ c < m
      · have : r = i ∧ c < m + 1 := ⟨h1.1, by omega⟩
        simp [h1, this]
      · have : ¬ (r = i ∧ c < m + 1) := by omega
        simp [h1, this]

/-- The lower-triangular rank-one update `h[i][j] += g i * g j`, `j ≤ i < n`. -/
theorem forLoop_addLower (n : Nat) (g : Vec α) (h : Mat α) (r c : Nat) :
    forLoop n (fun i h => forLoop (i + 1) (fun j h => setMat h i j (h i j + g i * g j)) h) h r c
      = if r < n ∧ c ≤ r then h r c + g r * g c else h r c := by
  induction n with
  | zero => simp [forLoop]
  | succ n ih =>
    rw [forLoop_succ, forLoop_addRow (n + 1) n (fun j => g n * g j), ih]
    by_cases h1 : r = n
    · subst h1
      by_cases h2 : c ≤ r
      · have h3 : c < r + 1 := by omega
        simp [h2, h3]
      · have h3 : ¬ c < r + 1 := by omega
        simp [h2, h3]
    · by_cases h2 : r < n ∧ c ≤ r
      · have h3 : r < n + 1 ∧ c ≤ r := ⟨by omega, h2.2⟩
        simp [h1, h2, h3]
      · have h3 : ¬ (r < n + 1 ∧ c ≤ r) := by omega
        simp [h1, h2, h3]

/-- The zeroing loops of lines 114-118. -/
theorem forLoop_zeroMat (n : Nat) (h : Mat α) (r c : Nat) :
    forLoop n (fun i h => forLoop n (fun j h => setMat h i j 0) h) h r c
      = if r < n ∧ c < n then 0 else h r c := by
  have inner : ∀ (m i : Nat) (h : Mat α) (r c : Nat),
      forLoop m (fun j h => setMat h i j 0) h r c = if r = i ∧ c < m then 0 else h r c := by
    intro m i h r c
    induction m with
    | zero => simp [forLoop]
    | succ m ih =>
      rw [forLoop_succ]
      by_cases hrc : r = i ∧ c = m
      · obtain ⟨h1, h2⟩ := hrc
        subst h1; subst h2
        rw [setMat_same]
        simp
      · rw [setMat_other _ _ _ _ _ _ (by omega), ih]
        by_cases h1 : r = i ∧ c < m
        · have : r = i ∧ c < m + 1 := ⟨h1.1, by omega⟩
          simp [h1, this]
        · have : ¬ (r = i ∧ c < m + 1) := by omega
          simp [h1, this]
  have outer : ∀ (k : Nat),
      forLoop k (fun i h => forLoop n (fun j h => setMat h i j 0) h) h r c
        = if r < k ∧ c < n then 0 else h r c := by
    intro k
    induction k with
    | zero => simp [forLoop]
    | succ k ih =>
      rw [forLoop_succ, inner, ih]
      by_cases h1 : r = k
      · subst h1
        by_cases h2 : c < n
        · simp [h2]
        · simp [h2]
      · by_cases h2 : r < k ∧ c < n
        · have h3 : r < k + 1 ∧ c < n := ⟨by omega, h2.2⟩
          simp [h1, h2, h3]
        · have h3 : ¬ (r < k + 1 ∧ c < n) := by omega
          simp [h1, h2, h3]
  exact outer n

/-- `accumulate` only changes `derivative` and `hessian`, by loops over these arrays. -/
theorem accumulate_eq (pb : Problem α) (m : Nat) (s : FitState α) :
    accumulate pb m s
      = { s with
          derivative := forLoop pb.RowsParameters
            (fun i d => setVec d i (d i + residualAt pb s.parameters m * s.gradient i))
            s.derivative
          hessian := forLoop pb.RowsParameters
            (fun i h => forLoop (i + 1)
              (fun j h => setMat h i j (h i j + s.gradient i * s.gradient j)) h)
            s.hessian } := by
  have key : ∀ n : Nat,
      forLoop n
        (fun i (s : FitState α) =>
          let s := { s with
            derivative := setVec s.derivative i
              (s.derivative i
                + (pb.y m - pb.evaluationFunction (toVector pb.RowsParameters s.parameters)
                    (toVector pb.RowsParameters (pb.x m))) * s.gradient i) }
          { s with
            hessian := forLoop (i + 1)
              (fun j h => setMat h i j (h i j + s.gradient i * s.gradient j)) s.hessian })
        s
      = { s with
          derivative := forLoop n
            (fun i d => setVec d i (d i + residualAt pb s.parameters m * s.gradient i))
            s.derivative
          hessian := forLoop n
            (fun i h => forLoop (i + 1)
              (fun j h => setMat h i j (h i j + s.gradient i * s.gradient j)) h)
            s.hessian } := by
    intro n
    induction n with
    | zero => rfl
    | succ n ih => rw [forLoop_succ, ih]; rfl
  exact key pb.RowsParameters

theorem gradientAfter_succ {β : Type} (pb : Problem β) (p g0 : Vec β) (m : Nat) :
    gradientAfter pb p g0 (m + 1)
      = fromVector pb.RowsParameters
          (pb.gradientFunction (toVector pb.RowsParameters (gradientAfter pb p g0 m))
            (toVector pb.RowsParameters p) (toVector pb.RowsParameters (pb.x m)))
          (gradientAfter pb p g0 m) := rfl

/-- The loop over the measurements (lines 121-134), started in the state `s`. -/
theorem measurement_loop (pb : Problem α) (s : FitState α) (M : Nat) :
    forLoop M
      (fun m s =>
        accumulate pb m
          { s with
            gradient := fromVector pb.RowsParameters
              (pb.gradientFunction (toVector pb.RowsParameters s.gradient)
                (toVector pb.RowsParameters s.parameters)
                (toVector pb.RowsParameters (pb.x m))) s.gradient })
      s
    = { s with
        gradient := gradientAfter pb s.parameters s.gradient M
        derivative := fun k =>
          if k < pb.RowsParameters then
            s.derivative k + ∑ m in Finset.range M,
              residualAt pb s.parameters m * gradientAfter pb s.parameters s.gradient (m + 1) k
          else s.derivative k
        hessian := fun r c =>
          if r < pb.RowsParameters ∧ c ≤ r then
            s.hessian r c + ∑ m in Finset.range M,
              gradientAfter pb s.parameters s.gradient (m + 1) r
                * gradientAfter pb s.parameters s.gradient (m + 1) c
          else s.hessian r c } := by
  induction M with
  | zero =>
    apply FitState.ext <;> try rfl
    · funext r c
      simp [forLoop]
    · funext k
      simp [forLoop]
  | succ M ih =>
    rw [forLoop_succ, ih, accumulate_eq]
    apply FitState.ext <;> try rfl
    · funext r c
      simp only []
      rw [forLoop_addLower, Finset.sum_range_succ, ← gradientAfter_succ]
      by_cases h : r < pb.RowsParameters ∧ c ≤ r
      · simp only [h, and_self, if_true]
        ring
      · simp only [h, if_false]
    · funext k
      simp only []
      rw [forLoop_addVec, Finset.sum_range_succ, ← gradientAfter_succ]
      by_cases h : k < pb.RowsParameters
      · simp only [h, if_true]
        ring
      · simp only [h, if_false]

/-- The build pass: `derivative` and the lower triangle of `hessian` are the sums
over the measurements, the rest of the `P × P` block of `hessian` is zero, and
nothing but `derivative`, `hessian` and `gradient` changes. -/
theorem buildNormalEquations_eq (pb : Problem α) (s : FitState α) :
    buildNormalEquations pb s
    = { s with
        gradient := gradientAfter pb s.parameters s.gradient pb.RowsMeasurements
        derivative := fun k =>
          if k < pb.RowsParameters then
            ∑ m in Finset.range pb.RowsMeasurements,
              residualAt pb s.parameters m * gradientAfter pb s.parameters s.gradient (m + 1) k
          else s.derivative k
        hessian := fun r c =>
          if r < pb.RowsParameters ∧ c < pb.RowsParameters then
            if c ≤ r then
              ∑ m in Finset.range pb.RowsMeasurements,
                gradientAfter pb s.parameters s.gradient (m + 1) r
                  * gradientAfter pb s.parameters s.gradient (m + 1) c
            else 0
          else s.hessian r c } := by
  unfold buildNormalEquations
  simp only []
  rw [measurement_loop]
  apply FitState.ext <;> try rfl
  · funext r c
    simp only []
    rw [forLoop_zeroMat]
    by_cases h1 : r < pb.RowsParameters
    · by_cases h2 : c ≤ r
      · have h3 : c < pb.RowsParameters := by omega
        simp [h1, h2, h3]
      · by_cases h3 : c < pb.RowsParameters
        · simp [h1, h2, h3]
        · simp [h1, h2, h3]
    · simp [h1]
  · funext k
    simp only []
    rw [forLoop_setVec]
    by_cases h : k < pb.RowsParameters
    · simp [h]
    · simp [h]

end Build

/-! ## The damping loop of `fit` -/

section Damping

variable {α : Type} [LinearOrderedField α]

/-- The pass through the `while` body when the factorisation reports failure. -/
theorem attempt_of_ill (sqrt : α → α) (cfg : Config α) (pb : Problem α) (s : FitState α)
    (h : (getCholeskyDecomposition sqrt pb.RowsParameters s.hessian
      s.choleskyDecomposition).1 = true) :
    attempt sqrt cfg pb s
      = { s with
          choleskyDecomposition := (getCholeskyDecomposition sqrt pb.RowsParameters s.hessian
            s.choleskyDecomposition).2
          illConditioned := true
          attempts := s.attempts + 1
          multFactor := (1 + s.lambda * cfg.upFactor) / (1 + s.lambda)
          lambda := s.lambda * cfg.upFactor
          iteration := s.iteration + 1 } := by
  unfold attempt
  simp only [h, if_true]

/-- The pass through the `while` body when the factorisation succeeds and the
candidate is rejected. -/
theorem attempt_of_reject (sqrt : α → α) (cfg : Config α) (pb : Problem α) (s : FitState α)
    (h : (getCholeskyDecomposition sqrt pb.RowsParameters s.hessian
      s.choleskyDecomposition).1 = false)
    (hd : getError pb (candidateOf sqrt pb s) - s.currentError > 0) :
    attempt sqrt cfg pb s
      = { s with
          choleskyDecomposition := (getCholeskyDecomposition sqrt pb.RowsParameters s.hessian
            s.choleskyDecomposition).2
          attempts := s.attempts + 1
          delta := stepOf sqrt pb s
          solves := s.solves + 1
          newParameters := candidateOf sqrt pb s
          newError := getError pb (candidateOf sqrt pb s)
          deltaError := getError pb (candidateOf sqrt pb s) - s.currentError
          illConditioned := true
          multFactor := (1 + s.lambda * cfg.upFactor) / (1 + s.lambda)
          lambda := s.lambda * cfg.upFactor
          iteration := s.iteration + 1 } := by
  unfold candidateOf stepOf at hd
  unfold attempt candidateOf stepOf
  simp only [h, hd, if_true]
  rfl

/-- The pass through the `while` body when the factorisation succeeds and the
candidate is accepted. -/
theorem attempt_of_accept (sqrt : α → α) (cfg : Config α) (pb : Problem α) (s : FitState α)
    (h : (getCholeskyDecomposition sqrt pb.RowsParameters s.hessian
      s.choleskyDecomposition).1 = false)
    (hd : ¬ getError pb (candidateOf sqrt pb s) - s.currentError > 0) :
    attempt sqrt cfg pb s
      = { s with
          choleskyDecomposition := (getCholeskyDecomposition sqrt pb.RowsParameters s.hessian
            s.choleskyDecomposition).2
          attempts := s.attempts + 1
          delta := stepOf sqrt pb s
          solves := s.solves + 1
          newParameters := candidateOf sqrt pb s
          newError := getError pb (candidateOf sqrt pb s)
          deltaError := getError pb (candidateOf sqrt pb s) - s.currentError
          illConditioned := false } := by
  unfold candidateOf stepOf at hd
  unfold attempt candidateOf stepOf
  simp only [h, hd, if_false]
  rfl

/-- A pass through the `while` body never writes `parameters`, `hessian`,
`derivative`, `gradient` or `currentError`. -/
theorem attempt_frame (sqrt : α → α) (cfg : Config α) (pb : Problem α) (s : FitState α) :
    (attempt sqrt cfg pb s).parameters = s.parameters ∧
    (attempt sqrt cfg pb s).hessian = s.hessian ∧
    (attempt sqrt cfg pb s).derivative = s.derivative ∧
    (attempt sqrt cfg pb s).gradient = s.gradient ∧
    (attempt sqrt cfg pb s).currentError = s.currentError := by
  by_cases h : (getCholeskyDecomposition sqrt pb.RowsParameters s.hessian
      s.choleskyDecomposition).1 = true
  · rw [attempt_of_ill sqrt cfg pb s h]
    exact ⟨rfl, rfl, rfl, rfl, rfl⟩
  · have h0 : (getCholeskyDecomposition sqrt pb.RowsParameters s.hessian
        s.choleskyDecomposition).1 = false := by simpa using h
    by_cases hd : getError pb (candidateOf sqrt pb s) - s.currentError > 0
    · rw [attempt_of_reject sqrt cfg pb s h0 hd]
      exact ⟨rfl, rfl, rfl, rfl, rfl⟩
    · rw [attempt_of_accept sqrt cfg pb s h0 hd]
      exact ⟨rfl, rfl, rfl, rfl, rfl⟩

/-- Every pass is one factorisation attempt; it consumes one unit of `iteration`
exactly when it ends with `illConditioned` set. -/
theorem attempt_counters (sqrt : α → α) (cfg : Config α) (pb : Problem α) (s : FitState α) :
    (attempt sqrt cfg pb s).attempts = s.attempts + 1 ∧
    (attempt sqrt cfg pb s).iteration
      = if (attempt sqrt cfg pb s).illConditioned = true then s.iteration + 1
        else s.iteration := by
  by_cases h : (getCholeskyDecomposition sqrt pb.RowsParameters s.hessian
      s.choleskyDecomposition).1 = true
  · rw [attempt_of_ill sqrt cfg pb s h]
    exact ⟨rfl, by simp⟩
  · have h0 : (getCholeskyDecomposition sqrt pb.RowsParameters s.hessian
        s.choleskyDecomposition).1 = false := by simpa using h
    by_cases hd : getError pb (candidateOf sqrt pb s) - s.currentError > 0
    · rw [attempt_of_reject sqrt cfg pb s h0 hd]
      exact ⟨rfl, by simp⟩
    · rw [attempt_of_accept sqrt cfg pb s h0 hd]
      exact ⟨rfl, by simp⟩

/-- The step does not change when the factor and the step are already in place. -/
theorem stepOf_stable (sqrt : α → α) (pb : Problem α) (s t : FitState α)
    (hH : t.hessian = s.hessian) (hd : t.derivative = s.derivative)
    (hc : t.choleskyDecomposition = (getCholeskyDecomposition sqrt pb.RowsParameters
      s.hessian s.choleskyDecomposition).2)
    (hδ : t.delta = stepOf sqrt pb s) : stepOf sqrt pb t = stepOf sqrt pb s := by
  unfold stepOf at hδ ⊢
  rw [hH, hd, hc, hδ, getCholeskyDecomposition_idem, solveCholesky_idem]

/-- The candidate does not change when factor, step and candidate are already in place. -/
theorem candidateOf_stable (sqrt : α → α) (pb : Problem α) (s t : FitState α)
    (hH : t.hessian = s.hessian) (hd : t.derivative = s.derivative)
    (hp : t.parameters = s.parameters)
    (hc : t.choleskyDecomposition = (getCholeskyDecomposition sqrt pb.RowsParameters
      s.hessian s.choleskyDecomposition).2)
    (hδ : t.delta = stepOf sqrt pb s)
    (hn : t.newParameters = candidateOf sqrt pb s) :
    candidateOf sqrt pb t = candidateOf sqrt pb s := by
  have hstep := stepOf_stable sqrt pb s t hH hd hc hδ
  unfold candidateOf at hn ⊢
  rw [hstep, hp, hn]
  funext k
  rw [forLoop_setVec, forLoop_setVec]
  by_cases hk : k < pb.RowsParameters
  · simp [hk]
  · simp [hk]

/-- A second pass through the `while` body recomputes what the first one left:
arrays, errors and flag do not change any more. -/
theorem attempt_core_idem (sqrt : α → α) (cfg : Config α) (pb : Problem α) (s : FitState α) :
    (attempt sqrt cfg pb (attempt sqrt cfg pb s)).core = (attempt sqrt cfg pb s).core := by
  by_cases h : (getCholeskyDecomposition sqrt pb.RowsParameters s.hessian
      s.choleskyDecomposition).1 = true
  · have h2 : (getCholeskyDecomposition sqrt pb.RowsParameters s.hessian
        (getCholeskyDecomposition sqrt pb.RowsParameters s.hessian
          s.choleskyDecomposition).2).1 = true := by
      rw [getCholeskyDecomposition_idem]; exact h
    rw [attempt_of_ill sqrt cfg pb s h, attempt_of_ill sqrt cfg pb _ h2]
    apply FitState.ext <;> try rfl
    exact congrArg Prod.snd (getCholeskyDecomposition_idem sqrt pb.RowsParameters s.hessian
      s.choleskyDecomposition)
  · have h0 : (getCholeskyDecomposition sqrt pb.RowsParameters s.hessian
        s.choleskyDecomposition).1 = false := by simpa using h
    have h2 : (getCholeskyDecomposition sqrt pb.RowsParameters s.hessian
        (getCholeskyDecomposition sqrt pb.RowsParameters s.hessian
          s.choleskyDecomposition).2).1 = false := by
      rw [getCholeskyDecomposition_idem]; exact h0
    have hchol := congrArg Prod.snd (getCholeskyDecomposition_idem sqrt pb.RowsParameters
      s.hessian s.choleskyDecomposition)
    by_cases hd : getError pb (candidateOf sqrt pb s) - s.currentError > 0
    · rw [attempt_of_reject sqrt cfg pb s h0 hd]
      have hstep := stepOf_stable sqrt pb s
        { s with
          choleskyDecomposition := (getCholeskyDecomposition sqrt pb.RowsParameters s.hessian
            s.choleskyDecomposition).2
          attempts := s.attempts + 1
          delta := stepOf sqrt pb s
          solves := s.solves + 1
          newParameters := candidateOf sqrt pb s
          newError := getError pb (candidateOf sqrt pb s)
          deltaError := getError pb (candidateOf sqrt pb s) - s.currentError
          illConditioned := true
          multFactor := (1 + s.lambda * cfg.upFactor) / (1 + s.lambda)
          lambda := s.lambda * cfg.upFactor
          iteration := s.iteration + 1 } rfl rfl rfl rfl
      have hcand := candidateOf_stable sqrt pb s
        { s with
          choleskyDecomposition := (getCholeskyDecomposition sqrt pb.RowsParameters s.hessian
            s.choleskyDecomposition).2
          attempts := s.attempts + 1
          delta := stepOf sqrt pb s
          solves := s.solves + 1
          newParameters := candidateOf sqrt pb s
          newError := getError pb (candidateOf sqrt pb s)
          deltaError := getError pb (candidateOf sqrt pb s) - s.currentError
          illConditioned := true
          multFactor := (1 + s.lambda * cfg.upFactor) / (1 + s.lambda)
          lambda := s.lambda * cfg.upFactor
          iteration := s.iteration + 1 } rfl rfl rfl rfl rfl rfl
      rw [attempt_of_reject sqrt cfg pb _ h2 (by rw [hcand]; exact hd)]
      apply FitState.ext <;> try rfl
      · exact hchol
      · exact hcand
      · exact hstep
      · exact congrArg (getError pb) hcand
      · exact congrArg (fun v => getError pb v - s.currentError) hcand
    · rw [attempt_of_accept sqrt cfg pb s h0 hd]
      have hstep := stepOf_stable sqrt pb s
        { s with
          choleskyDecomposition := (getCholeskyDecomposition sqrt pb.RowsParameters s.hessian
            s.choleskyDecomposition).2
          attempts := s.attempts + 1
          delta := stepOf sqrt pb s
          solves := s.solves + 1
          newParameters := candidateOf sqrt pb s
          newError := getError pb (candidateOf sqrt pb s)
          deltaError := getError pb (candidateOf sqrt pb s) - s.currentError
          illConditioned := false } rfl rfl rfl rfl
      have hcand := candidateOf_stable sqrt pb s
        { s with
          choleskyDecomposition := (getCholeskyDecomposition sqrt pb.RowsParameters s.hessian
            s.choleskyDecomposition).2
          attempts := s.attempts + 1
          delta := stepOf sqrt pb s
          solves := s.solves + 1
          newParameters := candidateOf sqrt pb s
          newError := getError pb (candidateOf sqrt pb s)
          deltaError := getError pb (candidateOf sqrt pb s) - s.currentError
          illConditioned := false } rfl rfl rfl rfl rfl rfl
      rw [attempt_of_accept sqrt cfg pb _ h2 (by rw [hcand]; exact hd)]
      apply FitState.ext <;> try rfl
      · exact hchol
      · exact hcand
      · exact hstep
      · exact congrArg (getError pb) hcand
      · exact congrArg (fun v => getError pb v - s.currentError) hcand

/-- Once a pass has been rejected the loop runs the budget out: every further
pass is rejected alike, and the loop ends with `iteration = maxIterations`. -/
theorem dampingLoop_fixed (sqrt : α → α) (cfg : Config α) (pb : Problem α) (k : Nat) :
    ∀ s : FitState α, s.illConditioned = true → s.iteration ≤ cfg.maxIterations →
      cfg.maxIterations - s.iteration = k →
      (attempt sqrt cfg pb s).core = s.core →
      (dampingLoop sqrt cfg pb s).core = s.core ∧
      (dampingLoop sqrt cfg pb s).iteration = cfg.maxIterations ∧
      (dampingLoop sqrt cfg pb s).attempts = s.attempts + k := by
  induction k with
  | zero =>
    intro s _ hle hk _
    have hnot : ¬ (s.illConditioned = true ∧ s.iteration < cfg.maxIterations) := by omega
    rw [dampingLoop_unfold, if_neg hnot]
    exact ⟨rfl, by omega, rfl⟩
  | succ k ih =>
    intro s hill hle hk hcore
    have hlt : s.iteration < cfg.maxIterations := by omega
    rw [dampingLoop_unfold, if_pos ⟨hill, hlt⟩]
    have hill2 : (attempt sqrt cfg pb s).illConditioned = true := by
      have := congrArg FitState.illConditioned hcore
      exact this.trans hill
    obtain ⟨hatt, hit⟩ := attempt_counters sqrt cfg pb s
    rw [if_pos hill2] at hit
    obtain ⟨h1, h2, h3⟩ := ih (attempt sqrt cfg pb s) hill2 (by omega) (by omega)
      (attempt_core_idem sqrt cfg pb s)
    exact ⟨h1.trans hcore, h2, by omega⟩

/-- The `while` loop, entered with `illConditioned` set and budget left: it
leaves what its first pass computed; if that pass was accepted the loop stops
after it, otherwise it runs until `iteration = maxIterations`. -/
theorem dampingLoop_spec (sqrt : α → α) (cfg : Config α) (pb : Problem α) (s : FitState α)
    (hill : s.illConditioned = true) (hlt : s.iteration < cfg.maxIterations) :
    (dampingLoop sqrt cfg pb s).core = (attempt sqrt cfg pb s).core ∧
    (dampingLoop sqrt cfg pb s).iteration
      = (if (attempt sqrt cfg pb s).illConditioned = true then cfg.maxIterations
         else s.iteration) ∧
    (dampingLoop sqrt cfg pb s).attempts
      = s.attempts + (if (attempt sqrt cfg pb s).illConditioned = true
          then cfg.maxIterations - s.iteration else 1) := by
  rw [dampingLoop_unfold, if_pos ⟨hill, hlt⟩]
  obtain ⟨hatt, hit⟩ := attempt_counters sqrt cfg pb s
  by_cases h : (attempt sqrt cfg pb s).illConditioned = true
  · rw [if_pos h] at hit
    obtain ⟨h1, h2, h3⟩ := dampingLoop_fixed sqrt cfg pb
      (cfg.maxIterations - (attempt sqrt cfg pb s).iteration) (attempt sqrt cfg pb s) h
      (by omega) rfl (attempt_core_idem sqrt cfg pb s)
    rw [if_pos h, if_pos h]
    exact ⟨h1, h2, by omega⟩
  · rw [if_neg h] at hit
    have hnot : ¬ ((attempt sqrt cfg pb s).illConditioned = true ∧
        (attempt sqrt cfg pb s).iteration < cfg.maxIterations) := fun hh => h hh.1
    rw [dampingLoop_unfold, if_neg hnot, if_neg h, if_neg h]
    exact ⟨rfl, hit, hatt⟩

end Damping

/-! ## The outer loop of `fit` -/

section Outer

variable {α : Type} [LinearOrderedField α]

/-- States with equal cores agree on the arrays, the errors and the flag. -/
theorem core_fields (a b : FitState α) (h : a.core = b.core) :
    a.parameters = b.parameters ∧ a.hessian = b.hessian ∧
    a.choleskyDecomposition = b.choleskyDecomposition ∧ a.derivative = b.derivative ∧
    a.gradient = b.gradient ∧ a.newParameters = b.newParameters ∧ a.delta = b.delta ∧
    a.currentError = b.currentError ∧ a.newError = b.newError ∧
    a.deltaError = b.deltaError ∧ a.illConditioned = b.illConditioned := by
  have h1 : a.core.parameters = b.core.parameters := congrArg FitState.parameters h
  have h2 : a.core.hessian = b.core.hessian := congrArg FitState.hessian h
  have h3 : a.core.choleskyDecomposition = b.core.choleskyDecomposition :=
    congrArg FitState.choleskyDecomposition h
  have h4 : a.core.derivative = b.core.derivative := congrArg FitState.derivative h
  have h5 : a.core.gradient = b.core.gradient := congrArg FitState.gradient h
  have h6 : a.core.newParameters = b.core.newParameters := congrArg FitState.newParameters h
  have h7 : a.core.delta = b.core.delta := congrArg FitState.delta h
  have h8 : a.core.currentError = b.core.currentError := congrArg FitState.currentError h
  have h9 : a.core.newError = b.core.newError := congrArg FitState.newError h
  have h10 : a.core.deltaError = b.core.deltaError := congrArg FitState.deltaError h
  have h11 : a.core.illConditioned = b.core.illConditioned :=
    congrArg FitState.illConditioned h
  exact ⟨h1, h2, h3, h4, h5, h6, h7, h8, h9, h10, h11⟩

/-- The state in which the `while` loop is entered, field by field. -/
theorem enterDamping_eq (pb : Problem α) (s : FitState α) :
    enterDamping pb s
    = { s with
        gradient := gradientAfter pb s.parameters s.gradient pb.RowsMeasurements
        derivative := fun k =>
          if k < pb.RowsParameters then
            ∑ m in Finset.range pb.RowsMeasurements,
              residualAt pb s.parameters m * gradientAfter pb s.parameters s.gradient (m + 1) k
          else s.derivative k
        hessian := fun r c =>
          if r < pb.RowsParameters ∧ c < pb.RowsParameters then
            if c ≤ r then
              ∑ m in Finset.range pb.RowsMeasurements,
                gradientAfter pb s.parameters s.gradient (m + 1) r
                  * gradientAfter pb s.parameters s.gradient (m + 1) c
            else 0
          else s.hessian r c
        multFactor := 1 + s.lambda
        illConditioned := true
        newError := 0
        deltaError := 0 } := by
  unfold enterDamping
  simp only []
  rw [buildNormalEquations_eq]

/-- What entering the `while` loop keeps. -/
theorem enterDamping_frame (pb : Problem α) (s : FitState α) :
    (enterDamping pb s).parameters = s.parameters ∧
    (enterDamping pb s).currentError = s.currentError ∧
    (enterDamping pb s).iteration = s.iteration ∧
    (enterDamping pb s).attempts = s.attempts ∧
    (enterDamping pb s).illConditioned = true ∧
    (enterDamping pb s).choleskyDecomposition = s.choleskyDecomposition ∧
    (enterDamping pb s).newParameters = s.newParameters ∧
    (enterDamping pb s).delta = s.delta ∧
    (enterDamping pb s).newError = 0 ∧
    (enterDamping pb s).deltaError = 0 := by
  rw [enterDamping_eq]
  exact ⟨rfl, rfl, rfl, rfl, rfl, rfl, rfl, rfl, rfl, rfl⟩

/-- One pass of the outer loop, run with budget left, in terms of the first pass
`a = firstAttempt s` of its `while` loop: the commit installs `a.newParameters`
and `a.newError` whether or not `a` was accepted. -/
theorem outerIteration_spec (sqrt : α → α) (cfg : Config α) (pb : Problem α) (s : FitState α)
    (hlt : s.iteration < cfg.maxIterations) :
    (outerIteration sqrt cfg pb s).parameters
      = (fun k => if k < pb.RowsParameters then (firstAttempt sqrt cfg pb s).newParameters k
          else s.parameters k) ∧
    (outerIteration sqrt cfg pb s).currentError = (firstAttempt sqrt cfg pb s).newError ∧
    (outerIteration sqrt cfg pb s).newError = (firstAttempt sqrt cfg pb s).newError ∧
    (outerIteration sqrt cfg pb s).deltaError = (firstAttempt sqrt cfg pb s).deltaError ∧
    (outerIteration sqrt cfg pb s).illConditioned
      = (firstAttempt sqrt cfg pb s).illConditioned ∧
    (outerIteration sqrt cfg pb s).newParameters = (firstAttempt sqrt cfg pb s).newParameters ∧
    (outerIteration sqrt cfg pb s).iteration
      = (if (firstAttempt sqrt cfg pb s).illConditioned = true then cfg.maxIterations
         else s.iteration) ∧
    (outerIteration sqrt cfg pb s).attempts
      = s.attempts + (if (firstAttempt sqrt cfg pb s).illConditioned = true
          then cfg.maxIterations - s.iteration else 1) := by
  obtain ⟨hp, _, hit, hatt, hill, _⟩ := enterDamping_frame pb s
  obtain ⟨hcore, hiter, hattempts⟩ := dampingLoop_spec sqrt cfg pb (enterDamping pb s) hill
    (by rw [hit]; exact hlt)
  have hpar : (dampingLoop sqrt cfg pb (enterDamping pb s)).parameters = s.parameters :=
    ((core_fields _ _ hcore).1.trans (attempt_frame sqrt cfg pb (enterDamping pb s)).1).trans hp
  obtain ⟨_, _, _, _, _, hnp, _, _, hne, hde, hic⟩ := core_fields _ _ hcore
  rw [outerIteration_eq]
  refine ⟨?_, hne, hne, hde, hic, hnp, ?_, ?_⟩
  · funext k
    simp only []
    rw [forLoop_setVec, hpar]
    exact congrArg (fun v : Vec α => if k < pb.RowsParameters then v k else s.parameters k) hnp
  · rw [← hit]; exact hiter
  · rw [← hit, ← hatt]; exact hattempts

/-- An outer-loop pass whose `while` loop ran the budget out is the last one. -/
theorem outerLoop_of_rejected (sqrt : α → α) (cfg : Config α) (pb : Problem α) (fuel : Nat)
    (s : FitState α) (hlt : s.iteration < cfg.maxIterations)
    (hrej : (firstAttempt sqrt cfg pb s).illConditioned = true) :
    outerLoop sqrt cfg pb (fuel + 1) s
      = { outerIteration sqrt cfg pb s with iteration := cfg.maxIterations + 1 } := by
  obtain ⟨_, _, _, _, hill, _, hiter, _⟩ := outerIteration_spec sqrt cfg pb s hlt
  rw [if_pos hrej] at hiter
  have hbreak : ¬ breakTest cfg (outerIteration sqrt cfg pb s) = true := by
    unfold breakTest
    rw [hill, hrej]
    simp
  rw [outerLoop_succ, if_pos hlt, if_neg hbreak, hiter]
  cases fuel with
  | zero => rfl
  | succ f =>
    rw [outerLoop_succ, if_neg]
    simp

/-- A pass of the outer loop never lowers `iteration`. -/
theorem outerIteration_iteration_le (sqrt : α → α) (cfg : Config α) (pb : Problem α)
    (s : FitState α) (hlt : s.iteration < cfg.maxIterations) :
    s.iteration ≤ (outerIteration sqrt cfg pb s).iteration := by
  obtain ⟨_, _, _, _, _, _, hiter, _⟩ := outerIteration_spec sqrt cfg pb s hlt
  rw [hiter]
  by_cases h : (firstAttempt sqrt cfg pb s).illConditioned = true
  · rw [if_pos h]; omega
  · rw [if_neg h]

/-- The first argument of `outerLoop` never cuts the loop short: once it covers
the remaining budget, one more unit changes nothing. -/
theorem outerLoop_fuel_succ (sqrt : α → α) (cfg : Config α) (pb : Problem α) (fuel : Nat) :
    ∀ s : FitState α, cfg.maxIterations ≤ s.iteration + fuel →
      outerLoop sqrt cfg pb (fuel + 1) s = outerLoop sqrt cfg pb fuel s := by
  induction fuel with
  | zero =>
    intro s h
    rw [outerLoop_succ, if_neg (by omega)]
    rfl
  | succ fuel ih =>
    intro s h
    rw [outerLoop_succ sqrt cfg pb (fuel + 1) s, outerLoop_succ sqrt cfg pb fuel s]
    by_cases hlt : s.iteration < cfg.maxIterations
    · rw [if_pos hlt, if_pos hlt]
      by_cases hb : breakTest cfg (outerIteration sqrt cfg pb s) = true
      · rw [if_pos hb, if_pos hb]
      · rw [if_neg hb, if_neg hb]
        have hle := outerIteration_iteration_le sqrt cfg pb s hlt
        exact ih _ (by show cfg.maxIterations
          ≤ (outerIteration sqrt cfg pb s).iteration + 1 + fuel; omega)
    · rw [if_neg hlt, if_neg hlt]

/-- `fit` is the outer loop run to its end: any larger first argument of
`outerLoop` gives the same final state. -/
theorem outerLoop_fuel_enough (sqrt : α → α) (cfg : Config α) (pb : Problem α)
    (m : Memory α) (k : Nat) :
    outerLoop sqrt cfg pb (cfg.maxIterations + k) (fitStart cfg pb m)
      = (fitWith sqrt cfg pb m).2 := by
  induction k with
  | zero => rfl
  | succ k ih =>
    rw [← ih]
    exact outerLoop_fuel_succ sqrt cfg pb (cfg.maxIterations + k) (fitStart cfg pb m)
      (by show cfg.maxIterations ≤ 0 + (cfg.maxIterations + k); omega)

/-- A pass through the `while` body that ends with `illConditioned` cleared: the
factorisation succeeded, the candidate was installed in `newParameters`, and its
error does not exceed `currentError`. -/
theorem attempt_accepted (sqrt : α → α) (cfg : Config α) (pb : Problem α) (s : FitState α)
    (h : (attempt sqrt cfg pb s).illConditioned = false) :
    (getCholeskyDecomposition sqrt pb.RowsParameters s.hessian
      s.choleskyDecomposition).1 = false ∧
    (attempt sqrt cfg pb s).newParameters = candidateOf sqrt pb s ∧
    (attempt sqrt cfg pb s).newError = getError pb (candidateOf sqrt pb s) ∧
    (attempt sqrt cfg pb s).deltaError
      = getError pb (candidateOf sqrt pb s) - s.currentError ∧
    (attempt sqrt cfg pb s).newError ≤ s.currentError ∧
    (attempt sqrt cfg pb s).iteration = s.iteration := by
  by_cases hc : (getCholeskyDecomposition sqrt pb.RowsParameters s.hessian
      s.choleskyDecomposition).1 = true
  · rw [attempt_of_ill sqrt cfg pb s hc] at h
    simp at h
  · have h0 : (getCholeskyDecomposition sqrt pb.RowsParameters s.hessian
        s.choleskyDecomposition).1 = false := by simpa using hc
    by_cases hd : getError pb (candidateOf sqrt pb s) - s.currentError > 0
    · rw [attempt_of_reject sqrt cfg pb s h0 hd] at h
      simp at h
    · rw [attempt_of_accept sqrt cfg pb s h0 hd]
      refine ⟨h0, rfl, rfl, rfl, ?_, rfl⟩
      have := not_lt.mp hd
      simp only []
      linarith

/-- Without budget the `while` loop is not entered and the flag stays set. -/
theorem outerIteration_no_budget (sqrt : α → α) (cfg : Config α) (pb : Problem α)
    (s : FitState α) (h : ¬ s.iteration < cfg.maxIterations) :
    (outerIteration sqrt cfg pb s).illConditioned = true := by
  obtain ⟨_, _, hit, _, hill, _⟩ := enterDamping_frame pb s
  have hnot : ¬ ((enterDamping pb s).illConditioned = true ∧
      (enterDamping pb s).iteration < cfg.maxIterations) := by
    rw [hit]; exact fun hh => h hh.2
  rw [outerIteration_eq]
  simp only []
  rw [dampingLoop_unfold, if_neg hnot]
  exact hill

/-- An accepted pass of the outer loop does not raise `currentError`. -/
theorem outerIteration_accepted (sqrt : α → α) (cfg : Config α) (pb : Problem α)
    (s : FitState α) (h : (outerIteration sqrt cfg pb s).illConditioned = false) :
    (outerIteration sqrt cfg pb s).currentError ≤ s.currentError := by
  by_cases hlt : s.iteration < cfg.maxIterations
  · obtain ⟨_, hce, _, _, hill, _⟩ := outerIteration_spec sqrt cfg pb s hlt
    rw [hill] at h
    rw [hce]
    have hacc := (attempt_accepted sqrt cfg pb (enterDamping pb s) h).2.2.2.2.1
    rw [(enterDamping_frame pb s).2.1] at hacc
    exact hacc
  · rw [outerIteration_no_budget sqrt cfg pb s hlt] at h
    simp at h

/-- Along the passes of the outer loop, every accepted pass ends with a
`currentError` not above the one it started with. -/
theorem outerTrace_chain (sqrt : α → α) (cfg : Config α) (pb : Problem α) (fuel : Nat) :
    ∀ s s0 : FitState α, s0.currentError = s.currentError →
      List.Chain (fun a b : FitState α => b.illConditioned = false →
        b.currentError ≤ a.currentError) s0 (outerTrace sqrt cfg pb fuel s) := by
  induction fuel with
  | zero => intro s s0 _; exact List.Chain.nil
  | succ fuel ih =>
    intro s s0 h0
    rw [outerTrace_succ]
    by_cases hlt : s.iteration < cfg.maxIterations
    · rw [if_pos hlt]
      have hstep : (outerIteration sqrt cfg pb s).illConditioned = false →
          (outerIteration sqrt cfg pb s).currentError ≤ s0.currentError := by
        intro hacc
        rw [h0]
        exact outerIteration_accepted sqrt cfg pb s hacc
      by_cases hb : breakTest cfg (outerIteration sqrt cfg pb s) = true
      · rw [if_pos hb]
        exact List.Chain.cons hstep List.Chain.nil
      · rw [if_neg hb]
        exact List.Chain.cons hstep (ih _ _ rfl)
    · rw [if_neg hlt]
      exact List.Chain.nil

/-- Without budget no further pass of the outer loop happens. -/
theorem outerTrace_no_budget (sqrt : α → α) (cfg : Config α) (pb : Problem α) (fuel : Nat)
    (s : FitState α) (h : ¬ s.iteration < cfg.maxIterations) :
    outerTrace sqrt cfg pb fuel s = [] := by
  cases fuel with
  | zero => rfl
  | succ fuel => rw [outerTrace_succ, if_neg h]

/-- The `currentError` values of the accepted passes of the outer loop, preceded
by the value the loop was entered with, never increase. -/
theorem outerTrace_accepted_chain (sqrt : α → α) (cfg : Config α) (pb : Problem α)
    (fuel : Nat) :
    ∀ s s0 : FitState α, s0.currentError = s.currentError →
      List.Chain (fun a b : FitState α => b.currentError ≤ a.currentError) s0
        ((outerTrace sqrt cfg pb fuel s).filter (fun t => !t.illConditioned)) := by
  induction fuel with
  | zero => intro s s0 _; exact List.Chain.nil
  | succ fuel ih =>
    intro s s0 h0
    rw [outerTrace_succ]
    by_cases hlt : s.iteration < cfg.maxIterations
    · rw [if_pos hlt]
      by_cases hacc : (outerIteration sqrt cfg pb s).illConditioned = false
      · have hstep : (outerIteration sqrt cfg pb s).currentError ≤ s0.currentError := by
          rw [h0]
          exact outerIteration_accepted sqrt cfg pb s hacc
        by_cases hb : breakTest cfg (outerIteration sqrt cfg pb s) = true
        · rw [if_pos hb, List.filter_cons_of_pos (by simp [hacc])]
          exact List.Chain.cons hstep List.Chain.nil
        · rw [if_neg hb, List.filter_cons_of_pos (by simp [hacc])]
          exact List.Chain.cons hstep (ih _ _ rfl)
      · have hrej : (outerIteration sqrt cfg pb s).illConditioned = true := by
          simpa using hacc
        have hb : ¬ breakTest cfg (outerIteration sqrt cfg pb s) = true := by
          unfold breakTest
          rw [hrej]
          simp
        obtain ⟨_, _, _, _, hill, _, hiter, _⟩ := outerIteration_spec sqrt cfg pb s hlt
        rw [hill] at hrej
        rw [if_pos hrej] at hiter
        rw [if_neg hb, List.filter_cons_of_neg (by simp [hill, hrej]),
          outerTrace_no_budget sqrt cfg pb fuel _
            (by show ¬ (outerIteration sqrt cfg pb s).iteration + 1 < cfg.maxIterations
                omega)]
        exact List.Chain.nil
    · rw [if_neg hlt]
      exact List.Chain.nil

/-- The state the outer loop stops in is, up to the counters, the last state of
its trace. -/
theorem outerLoop_last (sqrt : α → α) (cfg : Config α) (pb : Problem α) (fuel : Nat) :
    ∀ s s0 : FitState α, s0.core = s.core →
      (outerLoop sqrt cfg pb fuel s).core
        = (((outerTrace sqrt cfg pb fuel s).getLast?).getD s0).core := by
  induction fuel with
  | zero => intro s s0 h; exact h.symm
  | succ fuel ih =>
    intro s s0 h
    rw [outerLoop_succ, outerTrace_succ]
    by_cases hlt : s.iteration < cfg.maxIterations
    · rw [if_pos hlt, if_pos hlt]
      by_cases hb : breakTest cfg (outerIteration sqrt cfg pb s) = true
      · rw [if_pos hb, if_pos hb]
        rfl
      · rw [if_neg hb, if_neg hb]
        generalize hnext : ({ outerIteration sqrt cfg pb s with
          iteration := (outerIteration sqrt cfg pb s).iteration + 1 } : FitState α) = next
        have hc : (outerIteration sqrt cfg pb s).core = next.core := by
          rw [← hnext]; rfl
        rw [ih next (outerIteration sqrt cfg pb s) hc]
        cases hL : outerTrace sqrt cfg pb fuel next with
        | nil => rfl
        | cons a l =>
          rw [List.getLast?_eq_getLast (a :: l) (List.cons_ne_nil a l)]
          rfl
    · rw [if_neg hlt, if_neg hlt]
      exact h.symm

end Outer

/-! ## One-parameter problems -/

section OneParameter

variable {α : Type} [LinearOrderedField α]

/-- `getCholeskyDecomposition` for `P = 1`. -/
theorem getCholeskyDecomposition_one (sqrt : α → α) (H C : Mat α) :
    getCholeskyDecomposition sqrt 1 H C
      = if H 0 0 < TOL then (true, C) else (false, setMat C 0 0 (sqrt (H 0 0))) := by
  simp [getCholeskyDecomposition, choleskyFrom, choleskyOffDiag, choleskyPivot, forLoop]

/-- `solveCholesky` for `P = 1`. -/
theorem solveCholesky_one (C : Mat α) (d delta : Vec α) :
    solveCholesky 1 C d delta 0 = d 0 / C 0 0 / C 0 0 := by
  simp [solveCholesky, backSubstitution, forwardSubstitution, forwardInner, backInner, forDown,
    forLoop, setVec]

end OneParameter

section SquareModel

theorem squareModel_getError (v : Vec ℝ) :
    getError squareModel v = (v 0 * v 0 - 5) * (v 0 * v 0 - 5) := by
  simp [getError, squareModel, forLoop, toVector]

theorem squareModel_enter (s : FitState ℝ) :
    (enterDamping squareModel s).hessian 0 0 = (2 * s.parameters 0) * (2 * s.parameters 0) ∧
    (enterDamping squareModel s).derivative 0
      = (5 - s.parameters 0 * s.parameters 0) * (2 * s.parameters 0) := by
  rw [enterDamping_eq]
  simp [squareModel, gradientAfter, residualAt, fromVector, toVector]

/-- The first pass of the `while` loop for `squareModel` at `p[0] = 1/2` with
`currentError = 361/16`: the Gauss-Newton step `19/4` overshoots, the candidate
`21/4` has error `(361/16)^2` and is rejected. -/
theorem squareModel_firstAttempt (cfg : Config ℝ) (s : FitState ℝ)
    (hp : s.parameters 0 = 1 / 2) (hce : s.currentError = 361 / 16) :
    (firstAttempt Real.sqrt cfg squareModel s).illConditioned = true ∧
    (firstAttempt Real.sqrt cfg squareModel s).newParameters 0 = 21 / 4 ∧
    (firstAttempt Real.sqrt cfg squareModel s).newError = (361 / 16) ^ 2 ∧
    (firstAttempt Real.sqrt cfg squareModel s).choleskyDecomposition 0 0 = 1 ∧
    (firstAttempt Real.sqrt cfg squareModel s).delta 0 = 19 / 4 := by
  obtain ⟨hH, hd⟩ := squareModel_enter s
  obtain ⟨hpar, hcur, _⟩ := enterDamping_frame squareModel s
  rw [hp] at hH hd
  have hH1 : (enterDamping squareModel s).hessian 0 0 = 1 := by rw [hH]; norm_num
  have hd1 : (enterDamping squareModel s).derivative 0 = 19 / 4 := by rw [hd]; norm_num
  have hchol : getCholeskyDecomposition Real.sqrt (squareModel : Problem ℝ).RowsParameters
      (enterDamping squareModel s).hessian (enterDamping squareModel s).choleskyDecomposition
      = (false, setMat (enterDamping squareModel s).choleskyDecomposition 0 0 1) := by
    show getCholeskyDecomposition Real.sqrt 1 _ _ = _
    rw [getCholeskyDecomposition_one, hH1, Real.sqrt_one]
    have : ¬ ((1 : ℝ) < TOL) := by unfold TOL; norm_num
    rw [if_neg this]
  have hstep : stepOf Real.sqrt squareModel (enterDamping squareModel s) 0 = 19 / 4 := by
    unfold stepOf
    rw [hchol]
    show solveCholesky 1 _ _ _ 0 = _
    rw [solveCholesky_one, hd1]
    simp [setMat]
  have hcand : candidateOf Real.sqrt squareModel (enterDamping squareModel s) 0 = 21 / 4 := by
    unfold candidateOf
    show (forLoop 1 _ _ : Vec ℝ) 0 = _
    rw [forLoop_setVec, if_pos (by decide), hstep, hpar, hp]
    norm_num
  have herr : getError squareModel
      (candidateOf Real.sqrt squareModel (enterDamping squareModel s)) = (361 / 16) ^ 2 := by
    rw [squareModel_getError, hcand]
    norm_num
  have hrej : getError squareModel
      (candidateOf Real.sqrt squareModel (enterDamping squareModel s))
      - (enterDamping squareModel s).currentError > 0 := by
    rw [herr, hcur, hce]
    norm_num
  unfold firstAttempt
  rw [attempt_of_reject Real.sqrt cfg squareModel _ (congrArg Prod.fst hchol) hrej]
  refine ⟨rfl, hcand, herr, ?_, hstep⟩
  show (getCholeskyDecomposition Real.sqrt (squareModel : Problem ℝ).RowsParameters
    (enterDamping squareModel s).hessian
    (enterDamping squareModel s).choleskyDecomposition).2 0 0 = 1
  rw [hchol]
  simp [setMat]

/-- C1 fails on the code: for `squareModel` started at `p[0] = 1/2` (sum of squared
residuals `361/16`) the only candidate is rejected, the iteration budget runs out
inside the `while` loop, and the unconditional commit of lines 160-164 installs
the rejected candidate `21/4` and its error `(361/16)^2`, which is larger than
the `currentError` held before the write. -/
theorem fit_installs_rejected_candidate :
    getError squareModel (fun _ => (1 / 2 : ℝ)) = 361 / 16 ∧
    (fit Real.sqrt squareModel (construct (fun _ => (1 / 2 : ℝ)))).2.illConditioned = true ∧
    (fit Real.sqrt squareModel (construct (fun _ => (1 / 2 : ℝ)))).2.parameters 0 = 21 / 4 ∧
    (fit Real.sqrt squareModel (construct (fun _ => (1 / 2 : ℝ)))).2.currentError
      = (361 / 16) ^ 2 ∧
    getError squareModel (fit Real.sqrt squareModel (construct (fun _ => (1 / 2 : ℝ)))).2.parameters
      = (361 / 16) ^ 2 ∧
    getError squareModel (fun _ => (1 / 2 : ℝ))
      < getError squareModel
          (fit Real.sqrt squareModel (construct (fun _ => (1 / 2 : ℝ)))).2.parameters := by
  have hstart : getError squareModel (fun _ => (1 / 2 : ℝ)) = 361 / 16 := by
    rw [squareModel_getError]; norm_num
  have hlt : (fitStart fitConfig squareModel (construct (fun _ => (1 / 2 : ℝ)))).iteration
      < (fitConfig : Config ℝ).maxIterations := by
    show 0 < 10000
    decide
  obtain ⟨hill, hnp, hne, _, _⟩ := squareModel_firstAttempt fitConfig
    (fitStart fitConfig squareModel (construct (fun _ => (1 / 2 : ℝ)))) rfl hstart
  obtain ⟨hpar, hcur, _, _, hflag, _⟩ := outerIteration_spec Real.sqrt fitConfig squareModel
    (fitStart fitConfig squareModel (construct (fun _ => (1 / 2 : ℝ)))) hlt
  have hfit : (fit Real.sqrt squareModel (construct (fun _ => (1 / 2 : ℝ)))).2
      = { outerIteration Real.sqrt fitConfig squareModel
            (fitStart fitConfig squareModel (construct (fun _ => (1 / 2 : ℝ)))) with
          iteration := (fitConfig : Config ℝ).maxIterations + 1 } :=
    outerLoop_of_rejected Real.sqrt fitConfig squareModel 9999 _ hlt hill
  have hp0 : (fit Real.sqrt squareModel (construct (fun _ => (1 / 2 : ℝ)))).2.parameters 0
      = 21 / 4 := by
    rw [hfit]
    show (outerIteration Real.sqrt fitConfig squareModel _).parameters 0 = _
    rw [hpar]
    show (if 0 < 1 then _ else _) = _
    rw [if_pos (by decide), hnp]
  have herr : getError squareModel
      (fit Real.sqrt squareModel (construct (fun _ => (1 / 2 : ℝ)))).2.parameters
      = (361 / 16) ^ 2 := by
    rw [squareModel_getError, hp0]; norm_num
  refine ⟨hstart, ?_, hp0, ?_, herr, ?_⟩
  · rw [hfit]
    show (outerIteration Real.sqrt fitConfig squareModel _).illConditioned = true
    rw [hflag, hill]
  · rw [hfit]
    show (outerIteration Real.sqrt fitConfig squareModel _).currentError = _
    rw [hcur, hne]
  · rw [hstart, herr]; norm_num

/-- C2 fails on the code: `multFactor` is computed and never applied.  For
`squareModel` started at `p[0] = 1/2` with `lambda = 0.1`, the first factorisation
attempt of `fit` is handed the Gauss-Newton Hessian `[[1]]` itself, not
`[[1.1]]`: the factor is `[[1]]` and the step `19/4` solves `H * delta = derivative`,
while `(1 + lambda) * H * delta` differs from `derivative`. -/
theorem fit_factorises_undamped_hessian :
    (fitStart fitConfig squareModel (construct (fun _ => (1 / 2 : ℝ)))).lambda = 1 / 10 ∧
    (enterDamping squareModel
      (fitStart fitConfig squareModel (construct (fun _ => (1 / 2 : ℝ))))).hessian 0 0 = 1 ∧
    (enterDamping squareModel
      (fitStart fitConfig squareModel (construct (fun _ => (1 / 2 : ℝ))))).derivative 0
      = 19 / 4 ∧
    (firstAttempt Real.sqrt fitConfig squareModel
      (fitStart fitConfig squareModel (construct (fun _ => (1 / 2 : ℝ))))).choleskyDecomposition
      0 0 = 1 ∧
    (firstAttempt Real.sqrt fitConfig squareModel
      (fitStart fitConfig squareModel (construct (fun _ => (1 / 2 : ℝ))))).delta 0 = 19 / 4 ∧
    (1 + (fitStart fitConfig squareModel (construct (fun _ => (1 / 2 : ℝ)))).lambda)
        * (enterDamping squareModel
            (fitStart fitConfig squareModel (construct (fun _ => (1 / 2 : ℝ))))).hessian 0 0
        * (firstAttempt Real.sqrt fitConfig squareModel
            (fitStart fitConfig squareModel (construct (fun _ => (1 / 2 : ℝ))))).delta 0
      ≠ (enterDamping squareModel
          (fitStart fitConfig squareModel (construct (fun _ => (1 / 2 : ℝ))))).derivative 0 := by
  have hstart : getError squareModel (fun _ => (1 / 2 : ℝ)) = 361 / 16 := by
    rw [squareModel_getError]; norm_num
  obtain ⟨_, _, _, hchol, hdelta⟩ := squareModel_firstAttempt fitConfig
    (fitStart fitConfig squareModel (construct (fun _ => (1 / 2 : ℝ)))) rfl hstart
  obtain ⟨hH, hd⟩ := squareModel_enter
    (fitStart fitConfig squareModel (construct (fun _ => (1 / 2 : ℝ))))
  have hp : (fitStart fitConfig squareModel (construct (fun _ => (1 / 2 : ℝ)))).parameters 0
      = 1 / 2 := rfl
  have hl : (fitStart fitConfig squareModel (construct (fun _ => (1 / 2 : ℝ)))).lambda
      = 1 / 10 := rfl
  rw [hp] at hH hd
  have hH1 : (enterDamping squareModel
      (fitStart fitConfig squareModel (construct (fun _ => (1 / 2 : ℝ))))).hessian 0 0 = 1 := by
    rw [hH]; norm_num
  have hd1 : (enterDamping squareModel
      (fitStart fitConfig squareModel (construct (fun _ => (1 / 2 : ℝ))))).derivative 0
      = 19 / 4 := by
    rw [hd]; norm_num
  refine ⟨hl, hH1, hd1, hchol, hdelta, ?_⟩
  rw [hl, hH1, hdelta, hd1]
  norm_num

end SquareModel

/-! ## Monotonicity over accepted passes -/

section Monotone

/-- C3 (over the reals): in every pass of the outer loop of `fit` whose `while` loop
ends with an accepted step (`illConditioned` false on exit), the new `currentError`
is at most the `currentError` the pass started with; along the passes of a run
every accepted pass ends at or below the error of the pass before it; and the
sequence of the `currentError` values of the accepted passes, preceded by the
initial `currentError`, is non-increasing. -/
theorem currentError_nonincreasing (cfg : Config ℝ) (pb : Problem ℝ) :
    (∀ s : FitState ℝ, (outerIteration Real.sqrt cfg pb s).illConditioned = false →
      (outerIteration Real.sqrt cfg pb s).currentError ≤ s.currentError) ∧
    (∀ m : Memory ℝ,
      List.Chain (fun a b : FitState ℝ => b.illConditioned = false →
          b.currentError ≤ a.currentError)
        (fitStart cfg pb m)
        (outerTrace Real.sqrt cfg pb cfg.maxIterations (fitStart cfg pb m))) ∧
    (∀ m : Memory ℝ,
      List.Chain (fun a b : FitState ℝ => b.currentError ≤ a.currentError)
        (fitStart cfg pb m)
        ((outerTrace Real.sqrt cfg pb cfg.maxIterations (fitStart cfg pb m)).filter
          (fun t => !t.illConditioned))) :=
  ⟨fun s h => outerIteration_accepted Real.sqrt cfg pb s h,
    fun _ => outerTrace_chain Real.sqrt cfg pb cfg.maxIterations _ _ rfl,
    fun _ => outerTrace_accepted_chain Real.sqrt cfg pb cfg.maxIterations _ _ rfl⟩

end Monotone

/-! ## The damping factor is never read -/

section Lambda

variable {α : Type} [LinearOrderedField α]

/-- A pass through the `while` body reads `lambda` and `multFactor` only to update them. -/
theorem attempt_withDamping (sqrt : α → α) (cfg cfg2 : Config α) (pb : Problem α)
    (s : FitState α) (l m : α) :
    ∃ l2 m2, attempt sqrt cfg2 pb (s.withDamping l m)
      = (attempt sqrt cfg pb s).withDamping l2 m2 := by
  by_cases h : (getCholeskyDecomposition sqrt pb.RowsParameters s.hessian
      s.choleskyDecomposition).1 = true
  · rw [attempt_of_ill sqrt cfg pb s h, attempt_of_ill sqrt cfg2 pb (s.withDamping l m) h]
    exact ⟨_, _, rfl⟩
  · have h0 : (getCholeskyDecomposition sqrt pb.RowsParameters s.hessian
        s.choleskyDecomposition).1 = false := by simpa using h
    by_cases hd : getError pb (candidateOf sqrt pb s) - s.currentError > 0
    · rw [attempt_of_reject sqrt cfg pb s h0 hd,
        attempt_of_reject sqrt cfg2 pb (s.withDamping l m) h0 hd]
      exact ⟨_, _, rfl⟩
    · rw [attempt_of_accept sqrt cfg pb s h0 hd,
        attempt_of_accept sqrt cfg2 pb (s.withDamping l m) h0 hd]
      exact ⟨_, _, rfl⟩

/-- The `while` loop does the same with any content of `lambda` and `multFactor`. -/
theorem dampingLoop_withDamping (sqrt : α → α) (cfg cfg2 : Config α) (pb : Problem α)
    (hmax : cfg2.maxIterations = cfg.maxIterations) (n : Nat) :
    ∀ (s : FitState α) (l m : α),
      (cfg.maxIterations - s.iteration) + (if s.illConditioned = true then 1 else 0) = n →
      ∃ l2 m2, dampingLoop sqrt cfg2 pb (s.withDamping l m)
        = (dampingLoop sqrt cfg pb s).withDamping l2 m2 := by
  induction n using Nat.strong_induction_on with
  | _ n ih =>
    intro s l m hn
    rw [dampingLoop_unfold sqrt cfg pb s, dampingLoop_unfold sqrt cfg2 pb (s.withDamping l m)]
    have hguard : ((s.withDamping l m).illConditioned = true ∧
        (s.withDamping l m).iteration < cfg2.maxIterations)
        ↔ (s.illConditioned = true ∧ s.iteration < cfg.maxIterations) := by
      rw [hmax]; exact Iff.rfl
    by_cases hg : s.illConditioned = true ∧ s.iteration < cfg.maxIterations
    · rw [if_pos hg, if_pos (hguard.mpr hg)]
      obtain ⟨l1, m1, h1⟩ := attempt_withDamping sqrt cfg cfg2 pb s l m
      rw [h1]
      obtain ⟨_, hit⟩ := attempt_counters sqrt cfg pb s
      refine ih _ ?_ (attempt sqrt cfg pb s) l1 m1 rfl
      rw [hit, ← hn, if_pos hg.1]
      by_cases ha : (attempt sqrt cfg pb s).illConditioned = true
      · rw [if_pos ha, if_pos ha]; omega
      · rw [if_neg ha, if_neg ha]; omega
    · rw [if_neg hg, if_neg (fun hh => hg (hguard.mp hh))]
      exact ⟨l, m, rfl⟩

/-- Entering the `while` loop does the same with any content of `lambda` and `multFactor`. -/
theorem enterDamping_withDamping (pb : Problem α) (s : FitState α) (l m : α) :
    enterDamping pb (s.withDamping l m) = (enterDamping pb s).withDamping l (1 + l) := by
  rw [enterDamping_eq, enterDamping_eq]
  rfl

/-- A pass of the outer loop does the same with any content of `lambda` and `multFactor`. -/
theorem outerIteration_withDamping (sqrt : α → α) (cfg cfg2 : Config α) (pb : Problem α)
    (hmax : cfg2.maxIterations = cfg.maxIterations) (s : FitState α) (l m : α) :
    ∃ l2 m2, outerIteration sqrt cfg2 pb (s.withDamping l m)
      = (outerIteration sqrt cfg pb s).withDamping l2 m2 := by
  obtain ⟨l1, m1, h1⟩ := dampingLoop_withDamping sqrt cfg cfg2 pb hmax _ (enterDamping pb s)
    l (1 + l) rfl
  rw [outerIteration_eq, outerIteration_eq, enterDamping_withDamping, h1]
  exact ⟨_, _, rfl⟩

/-- The outer loop does the same with any content of `lambda` and `multFactor`. -/
theorem outerLoop_withDamping (sqrt : α → α) (cfg cfg2 : Config α) (pb : Problem α)
    (hmax : cfg2.maxIterations = cfg.maxIterations)
    (htarget : cfg2.targetDeltaError = cfg.targetDeltaError) (fuel : Nat) :
    ∀ (s : FitState α) (l m : α),
      ∃ l2 m2, outerLoop sqrt cfg2 pb fuel (s.withDamping l m)
        = (outerLoop sqrt cfg pb fuel s).withDamping l2 m2 := by
  induction fuel with
  | zero => intro s l m; exact ⟨l, m, rfl⟩
  | succ fuel ih =>
    intro s l m
    rw [outerLoop_succ, outerLoop_succ]
    have hguard : ((s.withDamping l m).iteration < cfg2.maxIterations)
        ↔ (s.iteration < cfg.maxIterations) := by
      rw [hmax]; exact Iff.rfl
    by_cases hg : s.iteration < cfg.maxIterations
    · rw [if_pos hg, if_pos (hguard.mpr hg)]
      obtain ⟨l1, m1, h1⟩ := outerIteration_withDamping sqrt cfg cfg2 pb hmax s l m
      rw [h1]
      have hbreak : breakTest cfg2 ((outerIteration sqrt cfg pb s).withDamping l1 m1)
          = breakTest cfg (outerIteration sqrt cfg pb s) := by
        unfold breakTest
        rw [htarget]
        rfl
      rw [hbreak]
      by_cases hb : breakTest cfg (outerIteration sqrt cfg pb s) = true
      · rw [if_pos hb, if_pos hb]
        exact ⟨l1, m1, rfl⟩
      · rw [if_neg hb, if_neg hb]
        exact ih { outerIteration sqrt cfg pb s with
          iteration := (outerIteration sqrt cfg pb s).iteration + 1 } l1 m1
    · rw [if_neg hg, if_neg (fun hh => hg (hguard.mp hh))]
      exact ⟨l, m, rfl⟩

/-- C10: for every model, measurement set and initial parameters, `fit` run with
any two starting values of the damping factor `lambda` (`fit` itself is the run
with the built-in `0.1`) and the same data and iteration budget ends with the
same final parameters and the same final `currentError`. -/
theorem fit_independent_of_initial_lambda (cfg : Config ℝ) (pb : Problem ℝ) (m : Memory ℝ)
    (l1 l2 : ℝ) :
    (fitWith Real.sqrt { cfg with lambda := l1 } pb m).2.parameters
      = (fitWith Real.sqrt { cfg with lambda := l2 } pb m).2.parameters ∧
    (fitWith Real.sqrt { cfg with lambda := l1 } pb m).2.currentError
      = (fitWith Real.sqrt { cfg with lambda := l2 } pb m).2.currentError ∧
    fit Real.sqrt pb m
      = fitWith Real.sqrt { (fitConfig : Config ℝ) with lambda := 1 / 10 } pb m := by
  obtain ⟨a, b, h⟩ := outerLoop_withDamping Real.sqrt
    { cfg with lambda := l1 } { cfg with lambda := l2 }
    pb rfl rfl cfg.maxIterations (fitStart { cfg with lambda := l1 } pb m) l2 0
  have hfit : (fitWith Real.sqrt { cfg with lambda := l2 } pb m).2
      = (fitWith Real.sqrt { cfg with lambda := l1 } pb m).2.withDamping a b := h
  rw [hfit]
  exact ⟨rfl, rfl, rfl⟩

end Lambda

/-! ## Starting at a stationary point -/

section Stationary

/-- With a zero right-hand side the forward pass returns zero. -/
theorem forwardSubstitution_zero (n : Nat) (C : Mat ℝ) (d delta : Vec ℝ)
    (hd : ∀ k, k < n → d k = 0) : ∀ i, i < n → forwardSubstitution n C d delta i = 0 := by
  intro i
  induction i using Nat.strong_induction_on with
  | _ i ih =>
    intro hi
    rw [forwardSubstitution_spec n C d delta i hi, hd i hi]
    have hsum : ∑ j in Finset.range i, C i j * forwardSubstitution n C d delta j = 0 := by
      apply Finset.sum_eq_zero
      intro j hj
      have hji : j < i := Finset.mem_range.mp hj
      rw [ih j hji (by omega), mul_zero]
    rw [hsum]
    simp

/-- With a zero input the backward pass returns zero. -/
theorem backSubstitution_zero (n : Nat) (C : Mat ℝ) (v : Vec ℝ)
    (hv : ∀ k, k < n → v k = 0) : ∀ i, i < n → backSubstitution n C v i = 0 := by
  have key : ∀ a i, i < n → n - i = a → backSubstitution n C v i = 0 := by
    intro a
    induction a using Nat.strong_induction_on with
    | _ a ih =>
      intro i hi ha
      rw [backSubstitution_spec n C v i hi, hv i hi]
      have hsum : ∑ t in Finset.range (n - (i + 1)),
          C (i + 1 + t) i * backSubstitution n C v (i + 1 + t) = 0 := by
        apply Finset.sum_eq_zero
        intro t ht
        have htn : t < n - (i + 1) := Finset.mem_range.mp ht
        rw [ih (n - (i + 1 + t)) (by omega) (i + 1 + t) (by omega) rfl, mul_zero]
      rw [hsum]
      simp
  intro i hi
  exact key (n - i) i hi rfl

/-- With a zero `derivative` the step is zero. -/
theorem solveCholesky_zero (n : Nat) (C : Mat ℝ) (d delta : Vec ℝ)
    (hd : ∀ k, k < n → d k = 0) : ∀ i, i < n → solveCholesky n C d delta i = 0 := by
  unfold solveCholesky
  exact backSubstitution_zero n C _ (forwardSubstitution_zero n C d delta hd)

/-- `getError` reads only the first `RowsParameters` entries of its argument. -/
theorem getError_congr (pb : Problem ℝ) (v w : Vec ℝ)
    (h : ∀ k, k < pb.RowsParameters → v k = w k) : getError pb v = getError pb w := by
  have hvw : toVector pb.RowsParameters v = toVector pb.RowsParameters w := by
    funext k
    exact h k k.2
  unfold getError
  rw [hvw]

theorem lineModel_enter (s : FitState ℝ) :
    (enterDamping lineModel s).hessian 0 0 = 1 ∧
    (enterDamping lineModel s).derivative 0 = 1 - s.parameters 0 := by
  rw [enterDamping_eq]
  simp [lineModel, gradientAfter, residualAt, fromVector, toVector]

end Stationary

/-! ## The end-to-end scenario -/

section Quadratic

/-- The step of an attempt whose factorisation succeeded solves the normal
equations with the (undamped) symmetric Gauss-Newton Hessian. -/
theorem step_normal_equations (pb : Problem ℝ) (s : FitState ℝ)
    (hflag : (getCholeskyDecomposition Real.sqrt pb.RowsParameters s.hessian
      s.choleskyDecomposition).1 = false) :
    (toMatrix pb.RowsParameters (symmetrize s.hessian)).mulVec
        (toVector pb.RowsParameters (stepOf Real.sqrt pb s))
      = toVector pb.RowsParameters s.derivative := by
  have hrows := rows_of_success pb.RowsParameters s.hessian s.choleskyDecomposition hflag
  have hdiag : ∀ i, i < pb.RowsParameters →
      (getCholeskyDecomposition Real.sqrt pb.RowsParameters s.hessian
        s.choleskyDecomposition).2 i i ≠ 0 :=
    fun i hi => ne_of_gt (RowOK_diag _ _ i (hrows i hi)).2.2
  obtain ⟨h1, h2⟩ := solveCholesky_matrix pb.RowsParameters _ s.derivative s.delta hdiag
  rw [← factor_matrix s.hessian _ pb.RowsParameters hrows, ← Matrix.mulVec_mulVec]
  unfold stepOf
  rw [h2, h1]

theorem quadraticModel_targets (rest : Nat → Vec ℝ) :
    (quadraticModel rest : Problem ℝ).y 0 = 15 ∧ (quadraticModel rest : Problem ℝ).y 1 = 6 ∧
    (quadraticModel rest : Problem ℝ).y 2 = 1 ∧ (quadraticModel rest : Problem ℝ).y 3 = 0 ∧
    (quadraticModel rest : Problem ℝ).y 4 = 3 ∧ (quadraticModel rest : Problem ℝ).y 5 = 10 := by
  simp only [quadraticModel]
  norm_num

theorem quadraticModel_enter (rest : Nat → Vec ℝ) (s : FitState ℝ) :
    (enterDamping (quadraticModel rest) s).hessian 0 0 = 115 ∧
    (enterDamping (quadraticModel rest) s).hessian 1 0 = 27 ∧
    (enterDamping (quadraticModel rest) s).hessian 1 1 = 19 ∧
    (enterDamping (quadraticModel rest) s).hessian 2 0 = 19 ∧
    (enterDamping (quadraticModel rest) s).hessian 2 1 = 3 ∧
    (enterDamping (quadraticModel rest) s).hessian 2 2 = 6 ∧
    (enterDamping (quadraticModel rest) s).derivative 0
      = 168 - (115 * s.parameters 0 + 27 * s.parameters 1 + 19 * s.parameters 2) ∧
    (enterDamping (quadraticModel rest) s).derivative 1
      = 0 - (27 * s.parameters 0 + 19 * s.parameters 1 + 3 * s.parameters 2) ∧
    (enterDamping (quadraticModel rest) s).derivative 2
      = 35 - (19 * s.parameters 0 + 3 * s.parameters 1 + 6 * s.parameters 2) := by
  rw [enterDamping_eq]
  simp only [quadraticModel, gradientAfter, residualAt, fromVector, toVector,
    Finset.sum_range_succ, Finset.sum_range_zero]
  refine ⟨?_, ?_, ?_, ?_, ?_, ?_, ?_, ?_, ?_⟩ <;> simp <;> ring

/-- `quadraticFactor a b c` factors the Hessian of `quadraticModel`. -/
theorem quadraticFactor_spec (a b c : ℝ) (ha : a * a = 115) (hb : b * b = 1456 / 115)
    (hc : c * c = 35 / 13) (hapos : 0 < a) (hbpos : 0 < b) (hcpos : 0 < c) (H : Mat ℝ)
    (h00 : H 0 0 = 115) (h10 : H 1 0 = 27) (h11 : H 1 1 = 19) (h20 : H 2 0 = 19)
    (h21 : H 2 1 = 3) (h22 : H 2 2 = 6) :
    (∀ i, i < 3 → 0 < quadraticFactor a b c i i) ∧
    (∀ i, i < 3 → TOL ≤ quadraticFactor a b c i i * quadraticFactor a b c i i) ∧
    (∀ i j, i < 3 → j ≤ i →
      H i j = ∑ k in Finset.range (j + 1), quadraticFactor a b c i k * quadraticFactor a b c j k) := by
  have hane : a ≠ 0 := ne_of_gt hapos
  have hbne : b ≠ 0 := ne_of_gt hbpos
  have htol : (TOL : ℝ) ≤ 1 := by unfold TOL; norm_num
  refine ⟨?_, ?_, ?_⟩
  · intro i hi
    interval_cases i <;> simp [quadraticFactor, hapos, hbpos, hcpos]
  · intro i hi
    interval_cases i
    · have : quadraticFactor a b c 0 0 = a := by simp [quadraticFactor]
      rw [this, ha]; linarith
    · have : quadraticFactor a b c 1 1 = b := by simp [quadraticFactor]
      rw [this, hb]; linarith
    · have : quadraticFactor a b c 2 2 = c := by simp [quadraticFactor]
      rw [this, hc]; linarith
  · have e00 : quadraticFactor a b c 0 0 = a := by simp [quadraticFactor]
    have e10 : quadraticFactor a b c 1 0 = 27 / a := by simp [quadraticFactor]
    have e11 : quadraticFactor a b c 1 1 = b := by simp [quadraticFactor]
    have e20 : quadraticFactor a b c 2 0 = 19 / a := by simp [quadraticFactor]
    have e21 : quadraticFactor a b c 2 1 = (-168 / 115) / b := by simp [quadraticFactor]
    have e22 : quadraticFactor a b c 2 2 = c := by simp [quadraticFactor]
    have q1 : 27 / a * (27 / a) = 729 / (a * a) := by field_simp; ring
    have q2 : 19 / a * (27 / a) = 513 / (a * a) := by field_simp; ring
    have q3 : 19 / a * (19 / a) = 361 / (a * a) := by field_simp; ring
    have q4 : -168 / 115 / b * (-168 / 115 / b) = (168 / 115) ^ 2 / (b * b) := by
      field_simp; ring
    have q5 : -168 / 115 / b * b = -168 / 115 := by field_simp; ring
    have q6 : 27 / a * a = 27 := by field_simp
    have q7 : 19 / a * a = 19 := by field_simp
    intro i j hi hj
    interval_cases i <;> interval_cases j
    · rw [h00, Finset.sum_range_one, e00, ha]
    · rw [h10, Finset.sum_range_one, e10, e00, q6]
    · rw [h11, Finset.sum_range_succ, Finset.sum_range_one, e10, e11, q1, ha, hb]
      norm_num
    · rw [h20, Finset.sum_range_one, e20, e00, q7]
    · rw [h21, Finset.sum_range_succ, Finset.sum_range_one, e20, e10, e21, e11, q2, q5, ha]
      norm_num
    · rw [h22, Finset.sum_range_succ, Finset.sum_range_succ, Finset.sum_range_one, e20, e21,
        e22, q3, q4, ha, hb, hc]
      norm_num

/-- The factorisation of the Hessian of `quadraticModel` succeeds, whatever
`choleskyDecomposition` held before. -/
theorem quadraticModel_factorises (rest : Nat → Vec ℝ) (s : FitState ℝ) :
    (getCholeskyDecomposition Real.sqrt (quadraticModel rest : Problem ℝ).RowsParameters
      (enterDamping (quadraticModel rest) s).hessian
      (enterDamping (quadraticModel rest) s).choleskyDecomposition).1 = false := by
  obtain ⟨h00, h10, h11, h20, h21, h22, _⟩ := quadraticModel_enter rest s
  obtain ⟨f1, f2, f3⟩ := quadraticFactor_spec (Real.sqrt 115) (Real.sqrt (1456 / 115))
    (Real.sqrt (35 / 13)) (Real.mul_self_sqrt (by norm_num)) (Real.mul_self_sqrt (by norm_num))
    (Real.mul_self_sqrt (by norm_num)) (Real.sqrt_pos.mpr (by norm_num))
    (Real.sqrt_pos.mpr (by norm_num)) (Real.sqrt_pos.mpr (by norm_num))
    (enterDamping (quadraticModel rest) s).hessian h00 h10 h11 h20 h21 h22
  exact (cholesky_of_factor 3 (enterDamping (quadraticModel rest) s).hessian _ _ f1 f2 f3).1

theorem quadraticModel_getError (rest : Nat → Vec ℝ) (v : Vec ℝ) (h0 : v 0 = 2) (h1 : v 1 = -3) (h2 : v 2 = 1) :
    getError (quadraticModel rest) v = 0 := by
  simp [getError, forLoop, quadraticModel, toVector, h0, h1, h2]

theorem quadraticModel_getError_zero (rest : Nat → Vec ℝ) :
    getError (quadraticModel rest) (fun _ => (0 : ℝ)) = 371 := by
  simp [getError, forLoop, quadraticModel, toVector]
  norm_num

/-- The first pass of the `while` loop for `quadraticModel`, from any parameters
and any non-negative `currentError`: the model is linear in its parameters, so
the Gauss-Newton step lands on `(2, -3, 1)`, where the error is `0`; the
candidate is accepted. -/
theorem quadraticModel_firstAttempt (rest : Nat → Vec ℝ) (cfg : Config ℝ) (s : FitState ℝ)
    (hce : 0 ≤ s.currentError) :
    (firstAttempt Real.sqrt cfg (quadraticModel rest) s).illConditioned = false ∧
    (firstAttempt Real.sqrt cfg (quadraticModel rest) s).newParameters 0 = 2 ∧
    (firstAttempt Real.sqrt cfg (quadraticModel rest) s).newParameters 1 = -3 ∧
    (firstAttempt Real.sqrt cfg (quadraticModel rest) s).newParameters 2 = 1 ∧
    (firstAttempt Real.sqrt cfg (quadraticModel rest) s).newError = 0 ∧
    (firstAttempt Real.sqrt cfg (quadraticModel rest) s).deltaError = 0 - s.currentError := by
  obtain ⟨h00, h10, h11, h20, h21, h22, d0, d1, d2⟩ := quadraticModel_enter rest s
  obtain ⟨hpar, hcur, _⟩ := enterDamping_frame (quadraticModel rest) s
  have hflag := quadraticModel_factorises rest s
  have hne : (toMatrix 3 (symmetrize (enterDamping (quadraticModel rest) s).hessian)).mulVec
      (toVector 3 (stepOf Real.sqrt (quadraticModel rest) (enterDamping (quadraticModel rest) s)))
      = toVector 3 (enterDamping (quadraticModel rest) s).derivative :=
    step_normal_equations (quadraticModel rest) (enterDamping (quadraticModel rest) s) hflag
  have e0 := congrFun hne (0 : Fin 3)
  have e1 := congrFun hne (1 : Fin 3)
  have e2 := congrFun hne (2 : Fin 3)
  simp only [Matrix.mulVec, Matrix.dotProduct, toMatrix, toVector, symmetrize,
    Fin.sum_univ_three] at e0 e1 e2
  simp at e0 e1 e2
  rw [h00, h10, h20, d0] at e0
  rw [h10, h11, h21, d1] at e1
  rw [h20, h21, h22, d2] at e2
  have hc : ∀ k, k < 3 →
      candidateOf Real.sqrt (quadraticModel rest) (enterDamping (quadraticModel rest) s) k
        = s.parameters k + stepOf Real.sqrt (quadraticModel rest) (enterDamping (quadraticModel rest) s) k := by
    intro k hk
    unfold candidateOf
    show (forLoop 3 _ _ : Vec ℝ) k = _
    rw [forLoop_setVec, if_pos hk, hpar]
  have c0 : candidateOf Real.sqrt (quadraticModel rest) (enterDamping (quadraticModel rest) s) 0 = 2 := by
    rw [hc 0 (by decide)]; linarith
  have c1 : candidateOf Real.sqrt (quadraticModel rest) (enterDamping (quadraticModel rest) s) 1 = -3 := by
    rw [hc 1 (by decide)]; linarith
  have c2 : candidateOf Real.sqrt (quadraticModel rest) (enterDamping (quadraticModel rest) s) 2 = 1 := by
    rw [hc 2 (by decide)]; linarith
  have herr := quadraticModel_getError rest _ c0 c1 c2
  have hacc : ¬ getError (quadraticModel rest)
      (candidateOf Real.sqrt (quadraticModel rest) (enterDamping (quadraticModel rest) s))
      - (enterDamping (quadraticModel rest) s).currentError > 0 := by
    rw [herr, hcur]
    intro h
    linarith
  unfold firstAttempt
  rw [attempt_of_accept Real.sqrt cfg (quadraticModel rest) _ hflag hacc]
  refine ⟨rfl, c0, c1, c2, herr, ?_⟩
  show getError (quadraticModel rest) _ - (enterDamping (quadraticModel rest) s).currentError = _
  rw [herr, hcur]

/-- C8: for the quadratic model with the six noise-free measurements of
`y = 2 x^2 - 3 x + 1` and initial parameters `[0, 0, 0]`, `fit` ends within the
iteration budget (it leaves the outer loop through the convergence test with
`iteration = 1`), with final parameters within `1e-3` of `[2, -3, 1]` and
`currentError` below `1e-6`. -/
theorem fit_quadratic_scenario (rest : Nat → Vec ℝ) :
    (fit Real.sqrt (quadraticModel rest) (construct (fun _ => (0 : ℝ)))).2.iteration = 1 ∧
    (fit Real.sqrt (quadraticModel rest) (construct (fun _ => (0 : ℝ)))).2.iteration
      < (fitConfig : Config ℝ).maxIterations ∧
    (fit Real.sqrt (quadraticModel rest) (construct (fun _ => (0 : ℝ)))).2.illConditioned = false ∧
    |(fit Real.sqrt (quadraticModel rest) (construct (fun _ => (0 : ℝ)))).2.parameters 0 - 2|
      < 1 / 1000 ∧
    |(fit Real.sqrt (quadraticModel rest) (construct (fun _ => (0 : ℝ)))).2.parameters 1 - (-3)|
      < 1 / 1000 ∧
    |(fit Real.sqrt (quadraticModel rest) (construct (fun _ => (0 : ℝ)))).2.parameters 2 - 1|
      < 1 / 1000 ∧
    (fit Real.sqrt (quadraticModel rest) (construct (fun _ => (0 : ℝ)))).2.currentError
      < 1 / 10 ^ 6 := by
  -- first pass of the outer loop
  have hstart : (fitStart fitConfig (quadraticModel rest) (construct (fun _ => (0 : ℝ)))).currentError
      = 371 := quadraticModel_getError_zero rest
  have hlt0 : (fitStart fitConfig (quadraticModel rest) (construct (fun _ => (0 : ℝ)))).iteration
      < (fitConfig : Config ℝ).maxIterations := by
    show 0 < 10000
    decide
  obtain ⟨a1, _, _, _, _, a6⟩ := quadraticModel_firstAttempt rest fitConfig
    (fitStart fitConfig (quadraticModel rest) (construct (fun _ => (0 : ℝ))))
    (by rw [hstart]; norm_num)
  obtain ⟨_, t1cur, _, t1delta, t1ill, _, t1iter, _⟩ :=
    outerIteration_spec Real.sqrt fitConfig (quadraticModel rest)
      (fitStart fitConfig (quadraticModel rest) (construct (fun _ => (0 : ℝ)))) hlt0
  rw [a1] at t1ill
  rw [a6, hstart] at t1delta
  rw [a1] at t1iter
  have hbreak1 : ¬ breakTest fitConfig (outerIteration Real.sqrt fitConfig (quadraticModel rest)
      (fitStart fitConfig (quadraticModel rest) (construct (fun _ => (0 : ℝ))))) = true := by
    unfold breakTest
    rw [t1ill, t1delta]
    norm_num [fitConfig]
  have hfit1 : (fit Real.sqrt (quadraticModel rest) (construct (fun _ => (0 : ℝ)))).2
      = outerLoop Real.sqrt fitConfig (quadraticModel rest) 9999
          { outerIteration Real.sqrt fitConfig (quadraticModel rest)
              (fitStart fitConfig (quadraticModel rest) (construct (fun _ => (0 : ℝ)))) with
            iteration := (outerIteration Real.sqrt fitConfig (quadraticModel rest)
              (fitStart fitConfig (quadraticModel rest) (construct (fun _ => (0 : ℝ))))).iteration
              + 1 } := by
    show outerLoop Real.sqrt fitConfig (quadraticModel rest) (9999 + 1)
      (fitStart fitConfig (quadraticModel rest) (construct (fun _ => (0 : ℝ)))) = _
    rw [outerLoop_succ, if_pos hlt0, if_neg hbreak1]
  -- second pass of the outer loop
  generalize hnext : ({ outerIteration Real.sqrt fitConfig (quadraticModel rest)
      (fitStart fitConfig (quadraticModel rest) (construct (fun _ => (0 : ℝ)))) with
    iteration := (outerIteration Real.sqrt fitConfig (quadraticModel rest)
      (fitStart fitConfig (quadraticModel rest) (construct (fun _ => (0 : ℝ))))).iteration + 1 }
    : FitState ℝ) = next at hfit1
  have hnextIter : next.iteration = 1 := by
    rw [← hnext]
    show (outerIteration Real.sqrt fitConfig (quadraticModel rest) _).iteration + 1 = 1
    rw [t1iter]
    simp
    rfl
  have hnextCur : next.currentError = 0 := by
    rw [← hnext]
    show (outerIteration Real.sqrt fitConfig (quadraticModel rest) _).currentError = 0
    rw [t1cur]
    exact (quadraticModel_firstAttempt rest fitConfig _ (by rw [hstart]; norm_num)).2.2.2.2.1
  have hlt1 : next.iteration < (fitConfig : Config ℝ).maxIterations := by
    rw [hnextIter]
    show 1 < 10000
    decide
  obtain ⟨b1, b2, b3, b4, b5, b6⟩ := quadraticModel_firstAttempt rest fitConfig next
    (by rw [hnextCur])
  obtain ⟨t2par, t2cur, _, t2delta, t2ill, _, t2iter, _⟩ :=
    outerIteration_spec Real.sqrt fitConfig (quadraticModel rest) next hlt1
  rw [b1] at t2ill t2iter
  rw [b6, hnextCur] at t2delta
  rw [b5] at t2cur
  have hbreak2 : breakTest fitConfig (outerIteration Real.sqrt fitConfig (quadraticModel rest) next)
      = true := by
    unfold breakTest
    rw [t2ill, t2delta]
    norm_num [fitConfig]
  have hfit2 : (fit Real.sqrt (quadraticModel rest) (construct (fun _ => (0 : ℝ)))).2
      = outerIteration Real.sqrt fitConfig (quadraticModel rest) next := by
    rw [hfit1]
    show outerLoop Real.sqrt fitConfig (quadraticModel rest) (9998 + 1) next = _
    rw [outerLoop_succ, if_pos hlt1, if_pos hbreak2]
  have p0 : (outerIteration Real.sqrt fitConfig (quadraticModel rest) next).parameters 0 = 2 := by
    rw [t2par]
    show (if 0 < 3 then _ else _) = _
    rw [if_pos (by decide), b2]
  have p1 : (outerIteration Real.sqrt fitConfig (quadraticModel rest) next).parameters 1 = -3 := by
    rw [t2par]
    show (if 1 < 3 then _ else _) = _
    rw [if_pos (by decide), b3]
  have p2 : (outerIteration Real.sqrt fitConfig (quadraticModel rest) next).parameters 2 = 1 := by
    rw [t2par]
    show (if 2 < 3 then _ else _) = _
    rw [if_pos (by decide), b4]
  have hiter : (outerIteration Real.sqrt fitConfig (quadraticModel rest) next).iteration = 1 := by
    rw [t2iter]
    simp
    exact hnextIter
  rw [hfit2]
  refine ⟨hiter, ?_, t2ill, ?_, ?_, ?_, ?_⟩
  · rw [hiter]
    show 1 < 10000
    decide
  · rw [p0]; norm_num
  · rw [p1]; norm_num
  · rw [p2]; norm_num
  · rw [t2cur]; norm_num

end Quadratic

/-! ## The build pass: statement -/

section BuildClaim

/-- Below `RowsParameters` the `gradient` buffer holds what the last call wrote. -/
theorem gradientAfter_written (pb : Problem ℝ) (p g0 : Vec ℝ) (m : Nat)
    (k : Fin pb.RowsParameters) :
    gradientAfter pb p g0 (m + 1) k = gradientWritten pb p g0 m k := by
  rw [gradientAfter_succ]
  unfold fromVector gradientWritten
  rw [dif_pos k.2]

/-- C14: whatever `derivative` and `hessian` held before, the build pass at the
start of an outer iteration leaves `derivative[k] = sum_i (y_i -
evaluationFunction(parameters, x_i)) * g_i[k]` and, for `l ≤ k`,
`hessian[k][l] = sum_i g_i[k] * g_i[l]`, where `g_i` is the gradient written by
`gradientFunction(parameters, x_i)`; every entry `hessian[k][l]` with `l > k` is
`0`; `parameters` and `currentError` are not touched, and the `while` loop is
entered with exactly these arrays. -/
theorem buildNormalEquations_correct (pb : Problem ℝ) (s : FitState ℝ) :
    (∀ k : Fin pb.RowsParameters,
      (buildNormalEquations pb s).derivative k
        = ∑ i in Finset.range pb.RowsMeasurements,
            (pb.y i - pb.evaluationFunction (toVector pb.RowsParameters s.parameters)
              (toVector pb.RowsParameters (pb.x i)))
            * gradientWritten pb s.parameters s.gradient i k) ∧
    (∀ k l : Fin pb.RowsParameters,
      (buildNormalEquations pb s).hessian k l
        = if l ≤ k then
            ∑ i in Finset.range pb.RowsMeasurements,
              gradientWritten pb s.parameters s.gradient i k
                * gradientWritten pb s.parameters s.gradient i l
          else 0) ∧
    (buildNormalEquations pb s).parameters = s.parameters ∧
    (buildNormalEquations pb s).currentError = s.currentError ∧
    (enterDamping pb s).derivative = (buildNormalEquations pb s).derivative ∧
    (enterDamping pb s).hessian = (buildNormalEquations pb s).hessian := by
  rw [buildNormalEquations_eq]
  refine ⟨?_, ?_, rfl, rfl, ?_, ?_⟩
  · intro k
    simp only []
    rw [if_pos k.2]
    apply Finset.sum_congr rfl
    intro i _
    rw [gradientAfter_written]
    rfl
  · intro k l
    simp only []
    rw [if_pos ⟨k.2, l.2⟩]
    have hiff : ((l : Nat) ≤ (k : Nat)) ↔ l ≤ k := Iff.rfl
    by_cases hlk : l ≤ k
    · rw [if_pos (hiff.mpr hlk), if_pos hlk]
      apply Finset.sum_congr rfl
      intro i _
      rw [gradientAfter_written, gradientAfter_written]
    · rw [if_neg (fun h => hlk (hiff.mp h)), if_neg hlk]
  · rw [enterDamping_eq]
  · rw [enterDamping_eq]

end BuildClaim

/-! ## Counting the calls of `solveCholesky` -/

section Solves

variable {α : Type} [LinearOrderedField α]

/-- A pass through the `while` body calls `solveCholesky` exactly when the
factorisation of the same pass returned `false`, and then on the factor that
this factorisation left; after a reported failure `delta` is not touched. -/
theorem attempt_solves (sqrt : α → α) (cfg : Config α) (pb : Problem α) (s : FitState α) :
    (attempt sqrt cfg pb s).solves
      = s.solves + (if factorFails sqrt pb s = true then 0 else 1) ∧
    (attempt sqrt cfg pb s).delta
      = (if factorFails sqrt pb s = true then s.delta else stepOf sqrt pb s) ∧
    (attempt sqrt cfg pb s).choleskyDecomposition
      = (getCholeskyDecomposition sqrt pb.RowsParameters s.hessian
          s.choleskyDecomposition).2 ∧
    (factorFails sqrt pb s = true → (attempt sqrt cfg pb s).illConditioned = true) := by
  unfold factorFails
  by_cases h : (getCholeskyDecomposition sqrt pb.RowsParameters s.hessian
      s.choleskyDecomposition).1 = true
  · rw [attempt_of_ill sqrt cfg pb s h, if_pos h, if_pos h]
    exact ⟨rfl, rfl, rfl, fun _ => rfl⟩
  · have h0 : (getCholeskyDecomposition sqrt pb.RowsParameters s.hessian
        s.choleskyDecomposition).1 = false := by simpa using h
    rw [if_neg h, if_neg h]
    by_cases hd : getError pb (candidateOf sqrt pb s) - s.currentError > 0
    · rw [attempt_of_reject sqrt cfg pb s h0 hd]
      exact ⟨rfl, rfl, rfl, fun hh => absurd hh h⟩
    · rw [attempt_of_accept sqrt cfg pb s h0 hd]
      exact ⟨rfl, rfl, rfl, fun hh => absurd hh h⟩

/-- The flag of the factorisation is the same in every pass of one `while` loop:
`hessian` is not written, and the flag does not depend on the prior factor. -/
theorem factorFails_attempt (sqrt : α → α) (cfg : Config α) (pb : Problem α)
    (s : FitState α) :
    factorFails sqrt pb (attempt sqrt cfg pb s) = factorFails sqrt pb s := by
  unfold factorFails
  rw [(attempt_frame sqrt cfg pb s).2.1]
  exact getCholeskyDecomposition_flag sqrt pb.RowsParameters s.hessian _ _

/-- The calls of `solveCholesky` while a rejected pass is repeated. -/
theorem dampingLoop_fixed_solves (sqrt : α → α) (cfg : Config α) (pb : Problem α) (k : Nat) :
    ∀ s : FitState α, s.illConditioned = true → s.iteration ≤ cfg.maxIterations →
      cfg.maxIterations - s.iteration = k →
      (attempt sqrt cfg pb s).core = s.core →
      (dampingLoop sqrt cfg pb s).solves
        = s.solves + k * (if factorFails sqrt pb s = true then 0 else 1) := by
  induction k with
  | zero =>
    intro s _ hle hk _
    have hnot : ¬ (s.illConditioned = true ∧ s.iteration < cfg.maxIterations) := by omega
    rw [dampingLoop_unfold, if_neg hnot]
    simp
  | succ k ih =>
    intro s hill hle hk hcore
    have hlt : s.iteration < cfg.maxIterations := by omega
    rw [dampingLoop_unfold, if_pos ⟨hill, hlt⟩]
    have hill2 : (attempt sqrt cfg pb s).illConditioned = true := by
      have := congrArg FitState.illConditioned hcore
      exact this.trans hill
    obtain ⟨_, hit⟩ := attempt_counters sqrt cfg pb s
    rw [if_pos hill2] at hit
    rw [ih (attempt sqrt cfg pb s) hill2 (by omega) (by omega)
      (attempt_core_idem sqrt cfg pb s), factorFails_attempt,
      (attempt_solves sqrt cfg pb s).1]
    ring

/-- The calls of `solveCholesky` in one `while` loop: none when the factorisation
fails, one when the first pass is accepted, one per pass when it is rejected. -/
theorem dampingLoop_solves (sqrt : α → α) (cfg : Config α) (pb : Problem α) (s : FitState α)
    (hill : s.illConditioned = true) (hlt : s.iteration < cfg.maxIterations) :
    (dampingLoop sqrt cfg pb s).solves
      = s.solves + (if factorFails sqrt pb s = true then 0
          else if (attempt sqrt cfg pb s).illConditioned = true
            then cfg.maxIterations - s.iteration else 1) := by
  rw [dampingLoop_unfold, if_pos ⟨hill, hlt⟩]
  obtain ⟨_, hit⟩ := attempt_counters sqrt cfg pb s
  obtain ⟨hsol, _, _, _⟩ := attempt_solves sqrt cfg pb s
  by_cases h : (attempt sqrt cfg pb s).illConditioned = true
  · rw [if_pos h] at hit
    rw [dampingLoop_fixed_solves sqrt cfg pb
      (cfg.maxIterations - (attempt sqrt cfg pb s).iteration) (attempt sqrt cfg pb s) h
      (by omega) rfl (attempt_core_idem sqrt cfg pb s), factorFails_attempt, hsol, hit, if_pos h]
    by_cases hf : factorFails sqrt pb s = true
    · simp only [if_pos hf, Nat.mul_zero, Nat.add_zero]
    · simp only [if_neg hf, Nat.mul_one]
      omega
  · have hnot : ¬ ((attempt sqrt cfg pb s).illConditioned = true ∧
        (attempt sqrt cfg pb s).iteration < cfg.maxIterations) := fun hh => h hh.1
    have hf : ¬ factorFails sqrt pb s = true :=
      fun hf => h ((attempt_solves sqrt cfg pb s).2.2.2 hf)
    rw [dampingLoop_unfold, if_neg hnot, hsol, if_neg hf, if_neg hf, if_neg h]

/-- The calls of `solveCholesky` in one pass of the outer loop. -/
theorem outerIteration_solves (sqrt : α → α) (cfg : Config α) (pb : Problem α)
    (s : FitState α) (hlt : s.iteration < cfg.maxIterations) :
    (outerIteration sqrt cfg pb s).solves
      = s.solves + (if factorFails sqrt pb (enterDamping pb s) = true then 0
          else if (firstAttempt sqrt cfg pb s).illConditioned = true
            then cfg.maxIterations - s.iteration else 1) := by
  have hE : (enterDamping pb s).solves = s.solves := by rw [enterDamping_eq]
  obtain ⟨_, _, hit, _, hill, _⟩ := enterDamping_frame pb s
  have h := dampingLoop_solves sqrt cfg pb (enterDamping pb s) hill (by rw [hit]; exact hlt)
  rw [hE, hit] at h
  rw [outerIteration_eq]
  exact h

end Solves

/-! ## The iteration budget -/

section Budget

variable {α : Type} [LinearOrderedField α]

theorem dampingStates_unfold (sqrt : α → α) (cfg : Config α) (pb : Problem α)
    (s : FitState α) :
    dampingStates sqrt cfg pb s
      = if s.illConditioned = true ∧ s.iteration < cfg.maxIterations then
          s :: dampingStates sqrt cfg pb (attempt sqrt cfg pb s)
        else [] := by
  rw [dampingStates]

theorem attemptStates_succ (sqrt : α → α) (cfg : Config α) (pb : Problem α) (fuel : Nat)
    (s : FitState α) :
    attemptStates sqrt cfg pb (fuel + 1) s
      = if s.iteration < cfg.maxIterations then
          dampingStates sqrt cfg pb (enterDamping pb s)
            ++ (if breakTest cfg (outerIteration sqrt cfg pb s) = true then []
                else attemptStates sqrt cfg pb fuel
                  { outerIteration sqrt cfg pb s with
                    iteration := (outerIteration sqrt cfg pb s).iteration + 1 })
        else [] := rfl

/-- While a rejected pass is repeated, the passes are made at the counter values
`iteration, iteration + 1, ..., maxIterations - 1`. -/
theorem dampingStates_fixed (sqrt : α → α) (cfg : Config α) (pb : Problem α) (k : Nat) :
    ∀ s : FitState α, s.illConditioned = true → s.iteration ≤ cfg.maxIterations →
      cfg.maxIterations - s.iteration = k →
      (attempt sqrt cfg pb s).core = s.core →
      (dampingStates sqrt cfg pb s).map FitState.iteration = List.range' s.iteration k ∧
      (∀ x, x ∈ dampingStates sqrt cfg pb s → x.core = s.core) := by
  induction k with
  | zero =>
    intro s _ hle hk _
    have hnot : ¬ (s.illConditioned = true ∧ s.iteration < cfg.maxIterations) := by omega
    rw [dampingStates_unfold, if_neg hnot]
    exact ⟨rfl, fun x hx => absurd hx (List.not_mem_nil x)⟩
  | succ k ih =>
    intro s hill hle hk hcore
    have hlt : s.iteration < cfg.maxIterations := by omega
    rw [dampingStates_unfold, if_pos ⟨hill, hlt⟩]
    have hill2 : (attempt sqrt cfg pb s).illConditioned = true := by
      have := congrArg FitState.illConditioned hcore
      exact this.trans hill
    obtain ⟨_, hit⟩ := attempt_counters sqrt cfg pb s
    rw [if_pos hill2] at hit
    obtain ⟨h1, h2⟩ := ih (attempt sqrt cfg pb s) hill2 (by omega) (by omega)
      (attempt_core_idem sqrt cfg pb s)
    refine ⟨?_, ?_⟩
    · rw [List.map_cons, h1, hit, List.range'_succ]
    · intro x hx
      rcases List.mem_cons.mp hx with hxs | hxt
      · rw [hxs]
      · exact (h2 x hxt).trans hcore

/-- The passes of one `while` loop, entered with `illConditioned` set and budget
left, are made at consecutive counter values starting with `iteration`; their
number is the number of factorisation attempts of the loop. -/
theorem dampingStates_spec (sqrt : α → α) (cfg : Config α) (pb : Problem α) (s : FitState α)
    (hill : s.illConditioned = true) (hlt : s.iteration < cfg.maxIterations) :
    (dampingStates sqrt cfg pb s).map FitState.iteration
      = List.range' s.iteration
          (if (attempt sqrt cfg pb s).illConditioned = true
            then cfg.maxIterations - s.iteration else 1) := by
  rw [dampingStates_unfold, if_pos ⟨hill, hlt⟩]
  obtain ⟨_, hit⟩ := attempt_counters sqrt cfg pb s
  by_cases h : (attempt sqrt cfg pb s).illConditioned = true
  · rw [if_pos h] at hit
    obtain ⟨h1, _⟩ := dampingStates_fixed sqrt cfg pb
      (cfg.maxIterations - (attempt sqrt cfg pb s).iteration) (attempt sqrt cfg pb s) h
      (by omega) rfl (attempt_core_idem sqrt cfg pb s)
    rw [if_pos h, List.map_cons, h1, hit]
    have hk : cfg.maxIterations - s.iteration = (cfg.maxIterations - (s.iteration + 1)) + 1 := by
      omega
    rw [hk, List.range'_succ]
  · have hnot : ¬ ((attempt sqrt cfg pb s).illConditioned = true ∧
        (attempt sqrt cfg pb s).iteration < cfg.maxIterations) := fun hh => h hh.1
    rw [dampingStates_unfold, if_neg hnot, if_neg h]
    rfl

end Budget


section BudgetOuter

variable {α : Type} [LinearOrderedField α]

/-- The break of line 167 is taken only after an accepted pass. -/
theorem breakTest_accepted (cfg : Config α) (t : FitState α) (h : breakTest cfg t = true) :
    t.illConditioned = false := by
  unfold breakTest at h
  cases hi : t.illConditioned with
  | false => rfl
  | true => rw [hi] at h; simp at h

/-- Accounting of the outer loop from a loop-head state in which `attempts` agrees
with the counter: the loop stops either at the break, below the budget and with
`attempts = iteration + 1`, or at the loop test with the budget used up and
`attempts = maxIterations`; the passes through the `while` body are made at
consecutive counter values. -/
theorem outerLoop_budget (sqrt : α → α) (cfg : Config α) (pb : Problem α) (fuel : Nat) :
    ∀ s : FitState α, cfg.maxIterations ≤ s.iteration + fuel →
      s.attempts = min s.iteration cfg.maxIterations →
      ((breakTest cfg (outerLoop sqrt cfg pb fuel s) = true ∧
          (outerLoop sqrt cfg pb fuel s).iteration < cfg.maxIterations ∧
          (outerLoop sqrt cfg pb fuel s).attempts
            = (outerLoop sqrt cfg pb fuel s).iteration + 1) ∨
        (¬ (outerLoop sqrt cfg pb fuel s).iteration < cfg.maxIterations ∧
          (outerLoop sqrt cfg pb fuel s).attempts = cfg.maxIterations)) ∧
      ∃ n, (attemptStates sqrt cfg pb fuel s).map FitState.iteration
            = List.range' s.attempts n ∧
          (outerLoop sqrt cfg pb fuel s).attempts = s.attempts + n := by
  induction fuel with
  | zero =>
    intro s hf hinv
    have hge : cfg.maxIterations ≤ s.iteration := by omega
    refine ⟨Or.inr ⟨by show ¬ s.iteration < cfg.maxIterations; omega, ?_⟩, 0, rfl, rfl⟩
    show s.attempts = cfg.maxIterations
    rw [hinv]; exact Nat.min_eq_right hge
  | succ fuel ih =>
    intro s hf hinv
    rw [outerLoop_succ, attemptStates_succ]
    by_cases hlt : s.iteration < cfg.maxIterations
    · rw [if_pos hlt, if_pos hlt]
      have hatt0 : s.attempts = s.iteration := by
        rw [hinv]; exact Nat.min_eq_left (Nat.le_of_lt hlt)
      obtain ⟨_, _, _, _, hill, _, hiter, hattempts⟩ := outerIteration_spec sqrt cfg pb s hlt
      obtain ⟨_, _, hit, _, hill0, _⟩ := enterDamping_frame pb s
      have hlist := dampingStates_spec sqrt cfg pb (enterDamping pb s) hill0
        (by rw [hit]; exact hlt)
      rw [hit] at hlist
      change (dampingStates sqrt cfg pb (enterDamping pb s)).map FitState.iteration
        = List.range' s.iteration (if (firstAttempt sqrt cfg pb s).illConditioned = true
            then cfg.maxIterations - s.iteration else 1) at hlist
      by_cases hb : breakTest cfg (outerIteration sqrt cfg pb s) = true
      · rw [if_pos hb, if_pos hb]
        have hacc : ¬ (firstAttempt sqrt cfg pb s).illConditioned = true := by
          rw [← hill, breakTest_accepted cfg _ hb]; simp
        rw [if_neg hacc] at hiter hattempts hlist
        refine ⟨Or.inl ⟨hb, by omega, by omega⟩, 1, ?_, hattempts⟩
        rw [List.append_nil, hlist, hatt0]
      · rw [if_neg hb, if_neg hb]
        generalize hnext : ({ outerIteration sqrt cfg pb s with
          iteration := (outerIteration sqrt cfg pb s).iteration + 1 } : FitState α) = next
        have hni : next.iteration = (outerIteration sqrt cfg pb s).iteration + 1 := by
          rw [← hnext]
        have hna : next.attempts = (outerIteration sqrt cfg pb s).attempts := by
          rw [← hnext]
        have hfuel : cfg.maxIterations ≤ next.iteration + fuel := by
          rw [hni, hiter]
          by_cases h : (firstAttempt sqrt cfg pb s).illConditioned = true
          · rw [if_pos h]; omega
          · rw [if_neg h]; omega
        have hinv2 : next.attempts = min next.iteration cfg.maxIterations := by
          rw [hni, hna, hiter, hattempts]
          by_cases h : (firstAttempt sqrt cfg pb s).illConditioned = true
          · rw [if_pos h, if_pos h]
            rw [Nat.min_eq_right (by omega)]; omega
          · rw [if_neg h, if_neg h]
            rw [Nat.min_eq_left (by omega)]; omega
        obtain ⟨hexit, n, hl, ha⟩ := ih next hfuel hinv2
        refine ⟨hexit, n + (next.attempts - s.attempts), ?_, ?_⟩
        · rw [List.map_append, hlist, hl, hna, hattempts, hatt0]
          by_cases h : (firstAttempt sqrt cfg pb s).illConditioned = true
          · rw [if_pos h, List.range'_append_1]
            congr 1; omega
          · rw [if_neg h, List.range'_append_1]
            congr 1; omega
        · rw [ha, hna, hattempts]; omega
    · rw [if_neg hlt, if_neg hlt]
      refine ⟨Or.inr ⟨hlt, ?_⟩, 0, rfl, rfl⟩
      rw [hinv]; exact Nat.min_eq_right (by omega)

end BudgetOuter


section BudgetClaim

/-- C11: `fit` terminates and makes at most `maxIterations` factorisation attempts
over all outer iterations together.  The outer loop of `fit` reaches a proper exit
(the break of line 167 or a failed loop test `iteration < maxIterations`) within
`maxIterations` passes, and giving the loop more passes changes neither the final
state nor the list of attempts.  The passes through the `while` body, which are the
calls of `getCholeskyDecomposition`, are made at the counter values
`0, 1, ..., attempts - 1`, one attempt per value, all below `maxIterations`; hence
`attempts <= maxIterations`, which is `10000` for `fit`.  After the break
`attempts = iteration + 1`; otherwise the whole budget was spent on attempts. -/
theorem fit_attempts_bounded (cfg : Config ℝ) (pb : Problem ℝ) (m : Memory ℝ) :
    (∀ k, outerLoop Real.sqrt cfg pb (cfg.maxIterations + k) (fitStart cfg pb m)
        = (fitWith Real.sqrt cfg pb m).2) ∧
    ((breakTest cfg (fitWith Real.sqrt cfg pb m).2 = true ∧
        (fitWith Real.sqrt cfg pb m).2.iteration < cfg.maxIterations ∧
        (fitWith Real.sqrt cfg pb m).2.attempts
          = (fitWith Real.sqrt cfg pb m).2.iteration + 1) ∨
      (¬ (fitWith Real.sqrt cfg pb m).2.iteration < cfg.maxIterations ∧
        (fitWith Real.sqrt cfg pb m).2.attempts = cfg.maxIterations)) ∧
    (∀ k, (attemptStates Real.sqrt cfg pb (cfg.maxIterations + k)
          (fitStart cfg pb m)).map FitState.iteration
        = List.range (fitWith Real.sqrt cfg pb m).2.attempts) ∧
    (∀ k, k ∈ (attemptStates Real.sqrt cfg pb cfg.maxIterations
          (fitStart cfg pb m)).map FitState.iteration → k < cfg.maxIterations) ∧
    (fitWith Real.sqrt cfg pb m).2.attempts ≤ cfg.maxIterations ∧
    (fit Real.sqrt pb m).2.attempts ≤ 10000 := by
  have hinv : (fitStart cfg pb m).attempts
      = min (fitStart cfg pb m).iteration cfg.maxIterations := by
    show 0 = min 0 cfg.maxIterations
    simp
  have key : ∀ k, ((breakTest cfg (fitWith Real.sqrt cfg pb m).2 = true ∧
        (fitWith Real.sqrt cfg pb m).2.iteration < cfg.maxIterations ∧
        (fitWith Real.sqrt cfg pb m).2.attempts
          = (fitWith Real.sqrt cfg pb m).2.iteration + 1) ∨
      (¬ (fitWith Real.sqrt cfg pb m).2.iteration < cfg.maxIterations ∧
        (fitWith Real.sqrt cfg pb m).2.attempts = cfg.maxIterations)) ∧
      (attemptStates Real.sqrt cfg pb (cfg.maxIterations + k)
          (fitStart cfg pb m)).map FitState.iteration
        = List.range (fitWith Real.sqrt cfg pb m).2.attempts := by
    intro k
    obtain ⟨hexit, n, hl, ha⟩ := outerLoop_budget Real.sqrt cfg pb (cfg.maxIterations + k)
      (fitStart cfg pb m) (by show cfg.maxIterations ≤ 0 + (cfg.maxIterations + k); omega) hinv
    rw [outerLoop_fuel_enough] at hexit ha
    refine ⟨hexit, ?_⟩
    have h0 : (fitStart cfg pb m).attempts = 0 := rfl
    rw [hl, ha, h0, Nat.zero_add, List.range_eq_range']
  have hle : (fitWith Real.sqrt cfg pb m).2.attempts ≤ cfg.maxIterations := by
    rcases (key 0).1 with ⟨_, h1, h2⟩ | ⟨_, h2⟩ <;> omega
  refine ⟨fun k => outerLoop_fuel_enough Real.sqrt cfg pb m k, (key 0).1,
    fun k => (key k).2, ?_, hle, ?_⟩
  · intro k hk
    have h0 : (attemptStates Real.sqrt cfg pb cfg.maxIterations
        (fitStart cfg pb m)).map FitState.iteration
          = List.range (fitWith Real.sqrt cfg pb m).2.attempts := (key 0).2
    rw [h0] at hk
    exact lt_of_lt_of_le (List.mem_range.mp hk) hle
  · obtain ⟨hexit, n, _, ha⟩ := outerLoop_budget Real.sqrt fitConfig pb
      ((fitConfig : Config ℝ).maxIterations) (fitStart fitConfig pb m)
      (by show (fitConfig : Config ℝ).maxIterations
            ≤ 0 + (fitConfig : Config ℝ).maxIterations; omega)
      (by show 0 = min 0 (fitConfig : Config ℝ).maxIterations; simp)
    have h10 : (fitConfig : Config ℝ).maxIterations = 10000 := rfl
    show (outerLoop Real.sqrt fitConfig pb ((fitConfig : Config ℝ).maxIterations)
      (fitStart fitConfig pb m)).attempts ≤ 10000
    rcases hexit with ⟨_, h1, h2⟩ | ⟨_, h2⟩ <;> omega

end BudgetClaim


/-! ## The stopping rule of the outer loop -/

section Stopping

/-- After an accepted pass, `-deltaError` is the distance between the error the
pass started with and the error of the candidate. -/
theorem outerIteration_deltaError (cfg : Config ℝ) (pb : Problem ℝ) (s : FitState ℝ)
    (hlt : s.iteration < cfg.maxIterations)
    (hacc : (outerIteration Real.sqrt cfg pb s).illConditioned = false) :
    -(outerIteration Real.sqrt cfg pb s).deltaError
      = |s.currentError - (outerIteration Real.sqrt cfg pb s).newError| := by
  obtain ⟨_, _, hne, hde, hill, _⟩ := outerIteration_spec Real.sqrt cfg pb s hlt
  rw [hill] at hacc
  obtain ⟨_, _, h3, h4, h5, _⟩ := attempt_accepted Real.sqrt cfg pb (enterDamping pb s) hacc
  have hcur : (enterDamping pb s).currentError = s.currentError := (enterDamping_frame pb s).2.1
  rw [hcur] at h4 h5
  have hne2 : (outerIteration Real.sqrt cfg pb s).newError
      = (attempt Real.sqrt cfg pb (enterDamping pb s)).newError := hne
  have hde2 : (outerIteration Real.sqrt cfg pb s).deltaError
      = (attempt Real.sqrt cfg pb (enterDamping pb s)).deltaError := hde
  rw [hne2, hde2, h4, ← h3, abs_of_nonneg (by linarith)]
  ring

/-- The trace of an outer loop entered with budget is never empty. -/
theorem outerTrace_ne_nil (sqrt : ℝ → ℝ) (cfg : Config ℝ) (pb : Problem ℝ) (fuel : Nat)
    (s : FitState ℝ) (hlt : s.iteration < cfg.maxIterations) :
    ∃ rest, outerTrace sqrt cfg pb (fuel + 1) s = outerIteration sqrt cfg pb s :: rest := by
  rw [outerTrace_succ, if_pos hlt]
  by_cases hb : breakTest cfg (outerIteration sqrt cfg pb s) = true
  · rw [if_pos hb]; exact ⟨[], rfl⟩
  · rw [if_neg hb]; exact ⟨_, rfl⟩

/-- C12: the stopping rule of the outer loop of `fit`.  Let `t` be the state at the
end of an outer iteration started in `s` with budget left.  The break of line 167
is taken exactly when the iteration accepted a step (`illConditioned` cleared) with
`|currentError - newError| < targetDeltaError`, `currentError` being the value in
`s`, before the commit.  The iteration is the last one (the trace of the loop is
`[t]`) exactly when the break is taken or the counter, after the increment of the
`for` statement, has reached `maxIterations`; a rejected iteration is of the second
kind.  An accepted step with `|currentError - newError| >= targetDeltaError` and
`iteration + 1 < maxIterations` is followed by another outer iteration.  The
constants of `fit` are `targetDeltaError = 0.01` and `maxIterations = 10000`. -/
theorem outerLoop_stops_iff (cfg : Config ℝ) (pb : Problem ℝ) (s : FitState ℝ) (fuel : Nat)
    (hlt : s.iteration < cfg.maxIterations) :
    (breakTest cfg (outerIteration Real.sqrt cfg pb s) = true ↔
      ((outerIteration Real.sqrt cfg pb s).illConditioned = false ∧
        |s.currentError - (outerIteration Real.sqrt cfg pb s).newError|
          < cfg.targetDeltaError)) ∧
    (outerTrace Real.sqrt cfg pb (fuel + 2) s = [outerIteration Real.sqrt cfg pb s] ↔
      (((outerIteration Real.sqrt cfg pb s).illConditioned = false ∧
          |s.currentError - (outerIteration Real.sqrt cfg pb s).newError|
            < cfg.targetDeltaError) ∨
        cfg.maxIterations ≤ (outerIteration Real.sqrt cfg pb s).iteration + 1)) ∧
    ((outerIteration Real.sqrt cfg pb s).illConditioned = true →
      (outerIteration Real.sqrt cfg pb s).iteration = cfg.maxIterations) ∧
    ((outerIteration Real.sqrt cfg pb s).illConditioned = false →
      cfg.targetDeltaError
        ≤ |s.currentError - (outerIteration Real.sqrt cfg pb s).newError| →
      (outerIteration Real.sqrt cfg pb s).iteration + 1 < cfg.maxIterations →
      ∃ rest, outerTrace Real.sqrt cfg pb (fuel + 2) s
        = outerIteration Real.sqrt cfg pb s
          :: outerIteration Real.sqrt cfg pb
              { outerIteration Real.sqrt cfg pb s with
                iteration := (outerIteration Real.sqrt cfg pb s).iteration + 1 }
          :: rest) ∧
    (fitConfig : Config ℝ).targetDeltaError = 1 / 100 ∧
    (fitConfig : Config ℝ).maxIterations = 10000 := by
  have hbreak : breakTest cfg (outerIteration Real.sqrt cfg pb s) = true ↔
      ((outerIteration Real.sqrt cfg pb s).illConditioned = false ∧
        |s.currentError - (outerIteration Real.sqrt cfg pb s).newError|
          < cfg.targetDeltaError) := by
    constructor
    · intro hb
      have hacc := breakTest_accepted cfg _ hb
      refine ⟨hacc, ?_⟩
      rw [← outerIteration_deltaError cfg pb s hlt hacc]
      unfold breakTest at hb
      rw [hacc] at hb
      simpa using hb
    · rintro ⟨hacc, hd⟩
      rw [← outerIteration_deltaError cfg pb s hlt hacc] at hd
      unfold breakTest
      rw [hacc]
      simpa using hd
  have hnext : ∀ next : FitState ℝ, next.iteration < cfg.maxIterations →
      ∃ rest, outerTrace Real.sqrt cfg pb (fuel + 1) next
        = outerIteration Real.sqrt cfg pb next :: rest :=
    fun next h => outerTrace_ne_nil Real.sqrt cfg pb fuel next h
  refine ⟨hbreak, ?_, ?_, ?_, rfl, rfl⟩
  · rw [outerTrace_succ, if_pos hlt]
    by_cases hb : breakTest cfg (outerIteration Real.sqrt cfg pb s) = true
    · rw [if_pos hb]
      exact ⟨fun _ => Or.inl (hbreak.mp hb), fun _ => rfl⟩
    · rw [if_neg hb]
      constructor
      · intro h
        right
        by_contra hcon
        obtain ⟨rest, hr⟩ := hnext { outerIteration Real.sqrt cfg pb s with
          iteration := (outerIteration Real.sqrt cfg pb s).iteration + 1 }
          (by show (outerIteration Real.sqrt cfg pb s).iteration + 1 < cfg.maxIterations
              omega)
        rw [hr] at h
        simp at h
      · rintro (h | h)
        · exact absurd (hbreak.mpr h) hb
        · rw [outerTrace_no_budget Real.sqrt cfg pb (fuel + 1) _
            (by show ¬ (outerIteration Real.sqrt cfg pb s).iteration + 1 < cfg.maxIterations
                omega)]
  · intro hrej
    obtain ⟨_, _, _, _, hill, _, hiter, _⟩ := outerIteration_spec Real.sqrt cfg pb s hlt
    rw [hill] at hrej
    rw [hiter, if_pos hrej]
  · intro hacc hd hbud
    have hb : ¬ breakTest cfg (outerIteration Real.sqrt cfg pb s) = true :=
      fun hb => absurd (hbreak.mp hb).2 (not_lt.mpr hd)
    rw [outerTrace_succ, if_pos hlt, if_neg hb]
    obtain ⟨rest, hr⟩ := hnext { outerIteration Real.sqrt cfg pb s with
      iteration := (outerIteration Real.sqrt cfg pb s).iteration + 1 } hbud
    exact ⟨rest, by rw [hr]⟩

end Stopping


section StoppingWitness

/-- Witness for `outerLoop_stops_iff`: the first outer iteration of `fit` on
`lineModel` started at `p[0] = 0`. -/
theorem outerLoop_stops_iff_witness :
    (fitStart fitConfig lineModel (construct (fun _ => (0 : ℝ)))).iteration
      < (fitConfig : Config ℝ).maxIterations ∧
    ((breakTest fitConfig (outerIteration Real.sqrt fitConfig lineModel (fitStart fitConfig lineModel (construct (fun _ => (0 : ℝ))))) = true ↔
      ((outerIteration Real.sqrt fitConfig lineModel (fitStart fitConfig lineModel (construct (fun _ => (0 : ℝ))))).illConditioned = false ∧
        |(fitStart fitConfig lineModel (construct (fun _ => (0 : ℝ)))).currentError
            - (outerIteration Real.sqrt fitConfig lineModel (fitStart fitConfig lineModel (construct (fun _ => (0 : ℝ))))).newError|
          < (fitConfig : Config ℝ).targetDeltaError)) ∧
    (outerTrace Real.sqrt fitConfig lineModel (0 + 2)
        (fitStart fitConfig lineModel (construct (fun _ => (0 : ℝ))))
        = [(outerIteration Real.sqrt fitConfig lineModel (fitStart fitConfig lineModel (construct (fun _ => (0 : ℝ)))))] ↔
      (((outerIteration Real.sqrt fitConfig lineModel (fitStart fitConfig lineModel (construct (fun _ => (0 : ℝ))))).illConditioned = false ∧
          |(fitStart fitConfig lineModel (construct (fun _ => (0 : ℝ)))).currentError
              - (outerIteration Real.sqrt fitConfig lineModel (fitStart fitConfig lineModel (construct (fun _ => (0 : ℝ))))).newError|
            < (fitConfig : Config ℝ).targetDeltaError) ∨
        (fitConfig : Config ℝ).maxIterations
          ≤ (outerIteration Real.sqrt fitConfig lineModel (fitStart fitConfig lineModel (construct (fun _ => (0 : ℝ))))).iteration + 1)) ∧
    ((outerIteration Real.sqrt fitConfig lineModel (fitStart fitConfig lineModel (construct (fun _ => (0 : ℝ))))).illConditioned = true →
      (outerIteration Real.sqrt fitConfig lineModel (fitStart fitConfig lineModel (construct (fun _ => (0 : ℝ))))).iteration
        = (fitConfig : Config ℝ).maxIterations) ∧
    ((outerIteration Real.sqrt fitConfig lineModel (fitStart fitConfig lineModel (construct (fun _ => (0 : ℝ))))).illConditioned = false →
      (fitConfig : Config ℝ).targetDeltaError
        ≤ |(fitStart fitConfig lineModel (construct (fun _ => (0 : ℝ)))).currentError
            - (outerIteration Real.sqrt fitConfig lineModel (fitStart fitConfig lineModel (construct (fun _ => (0 : ℝ))))).newError| →
      (outerIteration Real.sqrt fitConfig lineModel (fitStart fitConfig lineModel (construct (fun _ => (0 : ℝ))))).iteration + 1
        < (fitConfig : Config ℝ).maxIterations →
      ∃ rest, outerTrace Real.sqrt fitConfig lineModel (0 + 2)
          (fitStart fitConfig lineModel (construct (fun _ => (0 : ℝ))))
        = (outerIteration Real.sqrt fitConfig lineModel (fitStart fitConfig lineModel (construct (fun _ => (0 : ℝ)))))
          :: outerIteration Real.sqrt fitConfig lineModel
              { (outerIteration Real.sqrt fitConfig lineModel (fitStart fitConfig lineModel (construct (fun _ => (0 : ℝ))))) with
                iteration := (outerIteration Real.sqrt fitConfig lineModel (fitStart fitConfig lineModel (construct (fun _ => (0 : ℝ))))).iteration + 1 }
          :: rest) ∧
    (fitConfig : Config ℝ).targetDeltaError = 1 / 100 ∧
    (fitConfig : Config ℝ).maxIterations = 10000) :=
  ⟨by show 0 < 10000; decide,
    outerLoop_stops_iff fitConfig lineModel
      (fitStart fitConfig lineModel (construct (fun _ => (0 : ℝ)))) 0
      (by show 0 < 10000; decide)⟩

end StoppingWitness


/-! ## Rejected passes repeat -/

section Repeat

variable {α : Type} [LinearOrderedField α]

/-- Every pass after the first leaves the arrays, the errors and the flag as the
first pass left them. -/
theorem attempt_iterate_core (sqrt : α → α) (cfg : Config α) (pb : Problem α)
    (s : FitState α) (n : Nat) :
    ((attempt sqrt cfg pb)^[n + 1] s).core = (attempt sqrt cfg pb s).core := by
  induction n with
  | zero => rfl
  | succ n ih =>
    rw [Function.iterate_succ_apply', Function.iterate_succ_apply', attempt_core_idem,
      ← Function.iterate_succ_apply' (attempt sqrt cfg pb) n s]
    exact ih

/-- The inputs of a pass (`parameters`, `hessian`, `derivative`, `currentError`)
are the same in every pass of one `while` loop. -/
theorem attempt_iterate_frame (sqrt : α → α) (cfg : Config α) (pb : Problem α)
    (s : FitState α) (n : Nat) :
    ((attempt sqrt cfg pb)^[n] s).parameters = s.parameters ∧
    ((attempt sqrt cfg pb)^[n] s).hessian = s.hessian ∧
    ((attempt sqrt cfg pb)^[n] s).derivative = s.derivative ∧
    ((attempt sqrt cfg pb)^[n] s).currentError = s.currentError := by
  induction n with
  | zero => exact ⟨rfl, rfl, rfl, rfl⟩
  | succ n ih =>
    rw [Function.iterate_succ_apply']
    obtain ⟨h1, h2, h3, _, h5⟩ := attempt_frame sqrt cfg pb ((attempt sqrt cfg pb)^[n] s)
    exact ⟨h1.trans ih.1, h2.trans ih.2.1, h3.trans ih.2.2.1, h5.trans ih.2.2.2⟩

/-- After a rejected pass every further pass is rejected and advances both counters
by one. -/
theorem attempt_iterate_counters (sqrt : α → α) (cfg : Config α) (pb : Problem α)
    (s : FitState α) (hrej : (attempt sqrt cfg pb s).illConditioned = true) (n : Nat) :
    ((attempt sqrt cfg pb)^[n + 1] s).illConditioned = true ∧
    ((attempt sqrt cfg pb)^[n + 1] s).iteration = s.iteration + (n + 1) ∧
    ((attempt sqrt cfg pb)^[n + 1] s).attempts = s.attempts + (n + 1) := by
  have hill : ∀ k, ((attempt sqrt cfg pb)^[k + 1] s).illConditioned = true := by
    intro k
    have := (core_fields _ _ (attempt_iterate_core sqrt cfg pb s k)).2.2.2.2.2.2.2.2.2.2
    exact this.trans hrej
  refine ⟨hill n, ?_⟩
  induction n with
  | zero =>
    obtain ⟨ha, hi⟩ := attempt_counters sqrt cfg pb s
    rw [if_pos hrej] at hi
    exact ⟨hi, ha⟩
  | succ n ih =>
    obtain ⟨ha, hi⟩ := attempt_counters sqrt cfg pb ((attempt sqrt cfg pb)^[n + 1] s)
    rw [← Function.iterate_succ_apply' (attempt sqrt cfg pb) (n + 1) s] at ha hi
    rw [if_pos (hill (n + 1))] at hi
    rw [hi, ha, ih.1, ih.2]
    exact ⟨by omega, by omega⟩

/-- From a state that a pass leaves unchanged (up to the counters) the `while` loop
makes exactly the passes the budget allows. -/
theorem dampingLoop_iterate_fixed (sqrt : α → α) (cfg : Config α) (pb : Problem α) (k : Nat) :
    ∀ s : FitState α, s.illConditioned = true → s.iteration ≤ cfg.maxIterations →
      cfg.maxIterations - s.iteration = k →
      (attempt sqrt cfg pb s).core = s.core →
      dampingLoop sqrt cfg pb s = (attempt sqrt cfg pb)^[k] s := by
  induction k with
  | zero =>
    intro s _ hle hk _
    have hnot : ¬ (s.illConditioned = true ∧ s.iteration < cfg.maxIterations) := by omega
    rw [dampingLoop_unfold, if_neg hnot]
    rfl
  | succ k ih =>
    intro s hill hle hk hcore
    have hlt : s.iteration < cfg.maxIterations := by omega
    rw [dampingLoop_unfold, if_pos ⟨hill, hlt⟩]
    have hill2 : (attempt sqrt cfg pb s).illConditioned = true := by
      have := congrArg FitState.illConditioned hcore
      exact this.trans hill
    obtain ⟨_, hit⟩ := attempt_counters sqrt cfg pb s
    rw [if_pos hill2] at hit
    rw [ih (attempt sqrt cfg pb s) hill2 (by omega) (by omega)
      (attempt_core_idem sqrt cfg pb s), Function.iterate_succ_apply]

/-- A `while` loop whose first pass is rejected makes `maxIterations - iteration`
passes. -/
theorem dampingLoop_iterate (sqrt : α → α) (cfg : Config α) (pb : Problem α) (s : FitState α)
    (hill : s.illConditioned = true) (hlt : s.iteration < cfg.maxIterations)
    (hrej : (attempt sqrt cfg pb s).illConditioned = true) :
    dampingLoop sqrt cfg pb s = (attempt sqrt cfg pb)^[cfg.maxIterations - s.iteration] s := by
  rw [dampingLoop_unfold, if_pos ⟨hill, hlt⟩]
  obtain ⟨_, hit⟩ := attempt_counters sqrt cfg pb s
  rw [if_pos hrej] at hit
  rw [dampingLoop_iterate_fixed sqrt cfg pb (cfg.maxIterations - (s.iteration + 1))
    (attempt sqrt cfg pb s) hrej (by omega) (by omega) (attempt_core_idem sqrt cfg pb s),
    ← Function.iterate_succ_apply]
  congr 1
  omega

/-- A `while` loop whose first pass is accepted makes that pass only. -/
theorem dampingStates_accepted (sqrt : α → α) (cfg : Config α) (pb : Problem α)
    (s : FitState α) (hill : s.illConditioned = true) (hlt : s.iteration < cfg.maxIterations)
    (hacc : ¬ (attempt sqrt cfg pb s).illConditioned = true) :
    dampingStates sqrt cfg pb s = [s] := by
  rw [dampingStates_unfold, if_pos ⟨hill, hlt⟩, dampingStates_unfold,
    if_neg (fun hh => hacc hh.1)]

/-- An outer iteration whose `while` loop contains a rejected pass has its first
pass rejected. -/
theorem rejected_is_first (sqrt : α → α) (cfg : Config α) (pb : Problem α) (s : FitState α)
    (hlt : s.iteration < cfg.maxIterations) (x : FitState α)
    (hx : x ∈ dampingStates sqrt cfg pb (enterDamping pb s))
    (hrej : (attempt sqrt cfg pb x).illConditioned = true) :
    (firstAttempt sqrt cfg pb s).illConditioned = true := by
  by_contra hacc
  obtain ⟨_, _, hit, _, hill, _⟩ := enterDamping_frame pb s
  rw [dampingStates_accepted sqrt cfg pb (enterDamping pb s) hill (by rw [hit]; exact hlt) hacc,
    List.mem_singleton] at hx
  rw [hx] at hrej
  exact hacc hrej

/-- An outer iteration whose first pass is rejected is the only one left. -/
theorem outerTrace_of_rejected (sqrt : α → α) (cfg : Config α) (pb : Problem α) (fuel : Nat)
    (s : FitState α) (hlt : s.iteration < cfg.maxIterations)
    (hrej : (firstAttempt sqrt cfg pb s).illConditioned = true) :
    outerTrace sqrt cfg pb (fuel + 1) s = [outerIteration sqrt cfg pb s] := by
  obtain ⟨_, _, _, _, hill, _, hiter, _⟩ := outerIteration_spec sqrt cfg pb s hlt
  rw [if_pos hrej] at hiter
  have hbreak : ¬ breakTest cfg (outerIteration sqrt cfg pb s) = true := by
    unfold breakTest
    rw [hill, hrej]
    simp
  rw [outerTrace_succ, if_pos hlt, if_neg hbreak,
    outerTrace_no_budget sqrt cfg pb fuel _
      (by show ¬ (outerIteration sqrt cfg pb s).iteration + 1 < cfg.maxIterations
          omega)]

/-- In the trace of the outer loop, a pass that ended with `illConditioned` set is
the last one. -/
theorem outerTrace_rejected_last (sqrt : α → α) (cfg : Config α) (pb : Problem α)
    (fuel : Nat) :
    ∀ (s : FitState α) (pre : List (FitState α)) (t : FitState α) (post : List (FitState α)),
      outerTrace sqrt cfg pb fuel s = pre ++ t :: post → t.illConditioned = true →
      post = [] := by
  induction fuel with
  | zero =>
    intro s pre t post h _
    exact absurd h (by simp [outerTrace])
  | succ fuel ih =>
    intro s pre t post h ht
    by_cases hlt : s.iteration < cfg.maxIterations
    · by_cases hrej : (firstAttempt sqrt cfg pb s).illConditioned = true
      · rw [outerTrace_of_rejected sqrt cfg pb fuel s hlt hrej] at h
        cases pre with
        | nil =>
          rw [List.nil_append] at h
          exact ((List.cons.inj h).2).symm
        | cons p pre2 =>
          rw [List.cons_append] at h
          have := (List.cons.inj h).2
          exact absurd this (by simp)
      · rw [outerTrace_succ, if_pos hlt] at h
        have hill := (outerIteration_spec sqrt cfg pb s hlt).2.2.2.2.1
        by_cases hb : breakTest cfg (outerIteration sqrt cfg pb s) = true
        · rw [if_pos hb] at h
          cases pre with
          | nil =>
            rw [List.nil_append] at h
            exact ((List.cons.inj h).2).symm
          | cons p pre2 =>
            rw [List.cons_append] at h
            have := (List.cons.inj h).2
            exact absurd this (by simp)
        · rw [if_neg hb] at h
          cases pre with
          | nil =>
            rw [List.nil_append] at h
            have h1 := (List.cons.inj h).1
            rw [← h1, hill] at ht
            exact absurd ht hrej
          | cons p pre2 =>
            rw [List.cons_append] at h
            exact ih _ pre2 t post (List.cons.inj h).2 ht
    · rw [outerTrace_no_budget sqrt cfg pb (fuel + 1) s hlt] at h
      exact absurd h (by simp)

end Repeat


section RepeatClaim

/-- C16: a rejected pass repeats identically.  Let `x` be a state in which the body
of the `while` loop is entered (`illConditioned` set, budget left) and let the pass
made from `x` be rejected, for either reason: it ends with `illConditioned` set.
Then every later pass sees the same `hessian`, `derivative`, `parameters` and
`currentError`, leaves the same factor, step, candidate and `newError`, and is
rejected too, each advancing `iteration` by one; the `while` loop therefore makes
all `maxIterations - iteration` passes and ends with `iteration = maxIterations`.
The outer iteration that contains `x` is the last one: the loop test fails after
the `for` increment.  In the trace of any outer loop, every pass but the last
ended with `illConditioned` cleared, that is, contained no rejected attempt. -/
theorem rejected_attempt_repeats (cfg : Config ℝ) (pb : Problem ℝ) (x : FitState ℝ)
    (hill : x.illConditioned = true) (hlt : x.iteration < cfg.maxIterations)
    (hrej : (attempt Real.sqrt cfg pb x).illConditioned = true) :
    (∀ n,
      ((attempt Real.sqrt cfg pb)^[n + 1] x).hessian = x.hessian ∧
      ((attempt Real.sqrt cfg pb)^[n + 1] x).derivative = x.derivative ∧
      ((attempt Real.sqrt cfg pb)^[n + 1] x).parameters = x.parameters ∧
      ((attempt Real.sqrt cfg pb)^[n + 1] x).currentError = x.currentError) ∧
    (∀ n,
      ((attempt Real.sqrt cfg pb)^[n + 1] x).choleskyDecomposition
        = ((attempt Real.sqrt cfg pb) x).choleskyDecomposition ∧
      ((attempt Real.sqrt cfg pb)^[n + 1] x).delta = ((attempt Real.sqrt cfg pb) x).delta ∧
      ((attempt Real.sqrt cfg pb)^[n + 1] x).newParameters
        = ((attempt Real.sqrt cfg pb) x).newParameters ∧
      ((attempt Real.sqrt cfg pb)^[n + 1] x).newError = ((attempt Real.sqrt cfg pb) x).newError ∧
      ((attempt Real.sqrt cfg pb)^[n + 1] x).illConditioned = true ∧
      ((attempt Real.sqrt cfg pb)^[n + 1] x).iteration = x.iteration + (n + 1)) ∧
    dampingLoop Real.sqrt cfg pb x
      = (attempt Real.sqrt cfg pb)^[(cfg : Config ℝ).maxIterations - x.iteration] x ∧
    (dampingLoop Real.sqrt cfg pb x).iteration = (cfg : Config ℝ).maxIterations ∧
    (dampingLoop Real.sqrt cfg pb x).illConditioned = true ∧
    (∀ (fuel : Nat) (s0 : FitState ℝ), s0.iteration < (cfg : Config ℝ).maxIterations →
      x ∈ dampingStates Real.sqrt cfg pb (enterDamping pb s0) →
      outerTrace Real.sqrt cfg pb (fuel + 1) s0 = [outerIteration Real.sqrt cfg pb s0] ∧
      (outerIteration Real.sqrt cfg pb s0).illConditioned = true ∧
      (outerLoop Real.sqrt cfg pb (fuel + 1) s0).iteration
        = (cfg : Config ℝ).maxIterations + 1) ∧
    (∀ (fuel : Nat) (s0 : FitState ℝ) (pre : List (FitState ℝ)) (t : FitState ℝ)
        (post : List (FitState ℝ)),
      outerTrace Real.sqrt cfg pb fuel s0 = pre ++ t :: post → post ≠ [] →
      t.illConditioned = false) := by
  obtain ⟨hcore, hiter, _⟩ := dampingLoop_spec Real.sqrt cfg pb x hill hlt
  rw [if_pos hrej] at hiter
  refine ⟨?_, ?_, dampingLoop_iterate Real.sqrt cfg pb x hill hlt hrej, hiter, ?_, ?_, ?_⟩
  · intro n
    obtain ⟨h1, h2, h3, h4⟩ := attempt_iterate_frame Real.sqrt cfg pb x (n + 1)
    exact ⟨h2, h3, h1, h4⟩
  · intro n
    obtain ⟨_, _, h3, _, _, h6, h7, _, h9, _, _⟩ :=
      core_fields _ _ (attempt_iterate_core Real.sqrt cfg pb x n)
    obtain ⟨c1, c2, _⟩ := attempt_iterate_counters Real.sqrt cfg pb x hrej n
    exact ⟨h3, h7, h6, h9, c1, c2⟩
  · exact ((core_fields _ _ hcore).2.2.2.2.2.2.2.2.2.2).trans hrej
  · intro fuel s0 h0 hx
    have hfirst := rejected_is_first Real.sqrt cfg pb s0 h0 x hx hrej
    refine ⟨outerTrace_of_rejected Real.sqrt cfg pb fuel s0 h0 hfirst, ?_, ?_⟩
    · rw [(outerIteration_spec Real.sqrt cfg pb s0 h0).2.2.2.2.1]
      exact hfirst
    · rw [outerLoop_of_rejected Real.sqrt cfg pb fuel s0 h0 hfirst]
  · intro fuel s0 pre t post h hpost
    cases ht : t.illConditioned with
    | false => rfl
    | true =>
      exact absurd (outerTrace_rejected_last Real.sqrt cfg pb fuel s0 pre t post h ht) hpost

/-- Witness for `rejected_attempt_repeats`: the first pass of `fit` on `squareModel`
started at `p[0] = 1/2`, whose candidate `21/4` is rejected. -/
theorem rejected_attempt_repeats_witness :
    (enterDamping squareModel (fitStart fitConfig squareModel (construct (fun _ => (1 / 2 : ℝ))))).illConditioned = true ∧
    (enterDamping squareModel (fitStart fitConfig squareModel (construct (fun _ => (1 / 2 : ℝ))))).iteration
      < (fitConfig : Config ℝ).maxIterations ∧
    (attempt Real.sqrt fitConfig squareModel
      (enterDamping squareModel (fitStart fitConfig squareModel (construct (fun _ => (1 / 2 : ℝ)))))).illConditioned = true ∧
    ((∀ n,
      ((attempt Real.sqrt fitConfig squareModel)^[n + 1] (enterDamping squareModel (fitStart fitConfig squareModel (construct (fun _ => (1 / 2 : ℝ)))))).hessian = (enterDamping squareModel (fitStart fitConfig squareModel (construct (fun _ => (1 / 2 : ℝ))))).hessian ∧
      ((attempt Real.sqrt fitConfig squareModel)^[n + 1] (enterDamping squareModel (fitStart fitConfig squareModel (construct (fun _ => (1 / 2 : ℝ)))))).derivative = (enterDamping squareModel (fitStart fitConfig squareModel (construct (fun _ => (1 / 2 : ℝ))))).derivative ∧
      ((attempt Real.sqrt fitConfig squareModel)^[n + 1] (enterDamping squareModel (fitStart fitConfig squareModel (construct (fun _ => (1 / 2 : ℝ)))))).parameters = (enterDamping squareModel (fitStart fitConfig squareModel (construct (fun _ => (1 / 2 : ℝ))))).parameters ∧
      ((attempt Real.sqrt fitConfig squareModel)^[n + 1] (enterDamping squareModel (fitStart fitConfig squareModel (construct (fun _ => (1 / 2 : ℝ)))))).currentError = (enterDamping squareModel (fitStart fitConfig squareModel (construct (fun _ => (1 / 2 : ℝ))))).currentError) ∧
    (∀ n,
      ((attempt Real.sqrt fitConfig squareModel)^[n + 1] (enterDamping squareModel (fitStart fitConfig squareModel (construct (fun _ => (1 / 2 : ℝ)))))).choleskyDecomposition
        = ((attempt Real.sqrt fitConfig squareModel) (enterDamping squareModel (fitStart fitConfig squareModel (construct (fun _ => (1 / 2 : ℝ)))))).choleskyDecomposition ∧
      ((attempt Real.sqrt fitConfig squareModel)^[n + 1] (enterDamping squareModel (fitStart fitConfig squareModel (construct (fun _ => (1 / 2 : ℝ)))))).delta = ((attempt Real.sqrt fitConfig squareModel) (enterDamping squareModel (fitStart fitConfig squareModel (construct (fun _ => (1 / 2 : ℝ)))))).delta ∧
      ((attempt Real.sqrt fitConfig squareModel)^[n + 1] (enterDamping squareModel (fitStart fitConfig squareModel (construct (fun _ => (1 / 2 : ℝ)))))).newParameters
        = ((attempt Real.sqrt fitConfig squareModel) (enterDamping squareModel (fitStart fitConfig squareModel (construct (fun _ => (1 / 2 : ℝ)))))).newParameters ∧
      ((attempt Real.sqrt fitConfig squareModel)^[n + 1] (enterDamping squareModel (fitStart fitConfig squareModel (construct (fun _ => (1 / 2 : ℝ)))))).newError = ((attempt Real.sqrt fitConfig squareModel) (enterDamping squareModel (fitStart fitConfig squareModel (construct (fun _ => (1 / 2 : ℝ)))))).newError ∧
      ((attempt Real.sqrt fitConfig squareModel)^[n + 1] (enterDamping squareModel (fitStart fitConfig squareModel (construct (fun _ => (1 / 2 : ℝ)))))).illConditioned = true ∧
      ((attempt Real.sqrt fitConfig squareModel)^[n + 1] (enterDamping squareModel (fitStart fitConfig squareModel (construct (fun _ => (1 / 2 : ℝ)))))).iteration = (enterDamping squareModel (fitStart fitConfig squareModel (construct (fun _ => (1 / 2 : ℝ))))).iteration + (n + 1)) ∧
    dampingLoop Real.sqrt fitConfig squareModel (enterDamping squareModel (fitStart fitConfig squareModel (construct (fun _ => (1 / 2 : ℝ)))))
      = (attempt Real.sqrt fitConfig squareModel)^[(fitConfig : Config ℝ).maxIterations - (enterDamping squareModel (fitStart fitConfig squareModel (construct (fun _ => (1 / 2 : ℝ))))).iteration] (enterDamping squareModel (fitStart fitConfig squareModel (construct (fun _ => (1 / 2 : ℝ))))) ∧
    (dampingLoop Real.sqrt fitConfig squareModel (enterDamping squareModel (fitStart fitConfig squareModel (construct (fun _ => (1 / 2 : ℝ)))))).iteration = (fitConfig : Config ℝ).maxIterations ∧
    (dampingLoop Real.sqrt fitConfig squareModel (enterDamping squareModel (fitStart fitConfig squareModel (construct (fun _ => (1 / 2 : ℝ)))))).illConditioned = true ∧
    (∀ (fuel : Nat) (s0 : FitState ℝ), s0.iteration < (fitConfig : Config ℝ).maxIterations →
      (enterDamping squareModel (fitStart fitConfig squareModel (construct (fun _ => (1 / 2 : ℝ))))) ∈ dampingStates Real.sqrt fitConfig squareModel (enterDamping squareModel s0) →
      outerTrace Real.sqrt fitConfig squareModel (fuel + 1) s0 = [outerIteration Real.sqrt fitConfig squareModel s0] ∧
      (outerIteration Real.sqrt fitConfig squareModel s0).illConditioned = true ∧
      (outerLoop Real.sqrt fitConfig squareModel (fuel + 1) s0).iteration
        = (fitConfig : Config ℝ).maxIterations + 1) ∧
    (∀ (fuel : Nat) (s0 : FitState ℝ) (pre : List (FitState ℝ)) (t : FitState ℝ)
        (post : List (FitState ℝ)),
      outerTrace Real.sqrt fitConfig squareModel fuel s0 = pre ++ t :: post → post ≠ [] →
      t.illConditioned = false)) := by
  have hill : (enterDamping squareModel (fitStart fitConfig squareModel (construct (fun _ => (1 / 2 : ℝ))))).illConditioned = true :=
    (enterDamping_frame squareModel _).2.2.2.2.1
  have hlt : (enterDamping squareModel (fitStart fitConfig squareModel (construct (fun _ => (1 / 2 : ℝ))))).iteration
      < (fitConfig : Config ℝ).maxIterations := by
    rw [(enterDamping_frame squareModel _).2.2.1]
    show 0 < 10000
    decide
  have hstart : getError squareModel (fun _ => (1 / 2 : ℝ)) = 361 / 16 := by
    rw [squareModel_getError]; norm_num
  have hrej : (attempt Real.sqrt fitConfig squareModel
      (enterDamping squareModel (fitStart fitConfig squareModel (construct (fun _ => (1 / 2 : ℝ)))))).illConditioned = true :=
    (squareModel_firstAttempt fitConfig
      (fitStart fitConfig squareModel (construct (fun _ => (1 / 2 : ℝ)))) rfl hstart).1
  exact ⟨hill, hlt, hrej, rejected_attempt_repeats fitConfig squareModel _ hill hlt hrej⟩

end RepeatClaim


/-! ## A Hessian that is never factorised -/

section IllStart

variable {α : Type} [LinearOrderedField α]

/-- A corner entry below `TOL` makes the factorisation fail in row `0`. -/
theorem getCholeskyDecomposition_corner (sqrt : α → α) (n : Nat) (H L : Mat α)
    (hn : 1 ≤ n) (h : H 0 0 < TOL) :
    (getCholeskyDecomposition sqrt n H L).1 = true := by
  obtain ⟨k, rfl⟩ : ∃ k, n = k + 1 := ⟨n - 1, by omega⟩
  have hp : choleskyPivot H 0 (choleskyOffDiag H 0 L) = H 0 0 := by
    simp [choleskyPivot, forLoop]
  unfold getCholeskyDecomposition
  rw [choleskyFrom_succ, hp, if_pos h]

/-- A failed factorisation needs at least one row. -/
theorem factorFails_pos (sqrt : α → α) (pb : Problem α) (s : FitState α)
    (h : factorFails sqrt pb s = true) : 1 ≤ pb.RowsParameters := by
  by_contra hcon
  have h0 : pb.RowsParameters = 0 := by omega
  unfold factorFails getCholeskyDecomposition at h
  rw [h0, choleskyFrom_zero] at h
  simp at h

/-- The run of `fit` when the factorisation of the first Hessian fails: the budget
is spent on failing factorisations, no solve is made, and the commit installs the
content `newParameters` had on entry and the error `0`. -/
theorem fitWith_of_failed_factorisation (sqrt : α → α) (cfg : Config α) (pb : Problem α)
    (m : Memory α) (hpos : 0 < cfg.maxIterations)
    (hfail : factorFails sqrt pb (enterDamping pb (fitStart cfg pb m)) = true) :
    (fitWith sqrt cfg pb m).2.attempts = cfg.maxIterations ∧
    (fitWith sqrt cfg pb m).2.solves = 0 ∧
    (fitWith sqrt cfg pb m).2.parameters
      = (fun k => if k < pb.RowsParameters then m.newParameters k else m.parameters k) ∧
    (fitWith sqrt cfg pb m).2.currentError = 0 ∧
    (fitWith sqrt cfg pb m).2.illConditioned = true ∧
    (fitWith sqrt cfg pb m).2.iteration = cfg.maxIterations + 1 := by
  have hlt : (fitStart cfg pb m).iteration < cfg.maxIterations := hpos
  have hflag : (getCholeskyDecomposition sqrt pb.RowsParameters
      (enterDamping pb (fitStart cfg pb m)).hessian
      (enterDamping pb (fitStart cfg pb m)).choleskyDecomposition).1 = true := hfail
  have hfa : firstAttempt sqrt cfg pb (fitStart cfg pb m)
      = attempt sqrt cfg pb (enterDamping pb (fitStart cfg pb m)) := rfl
  have hatt := attempt_of_ill sqrt cfg pb (enterDamping pb (fitStart cfg pb m)) hflag
  have hfirst : (firstAttempt sqrt cfg pb (fitStart cfg pb m)).illConditioned = true := by
    rw [hfa, hatt]
  have hnp : (firstAttempt sqrt cfg pb (fitStart cfg pb m)).newParameters = m.newParameters := by
    rw [hfa, hatt]
    exact (enterDamping_frame pb (fitStart cfg pb m)).2.2.2.2.2.2.1
  have hne : (firstAttempt sqrt cfg pb (fitStart cfg pb m)).newError = 0 := by
    rw [hfa, hatt]
    exact (enterDamping_frame pb (fitStart cfg pb m)).2.2.2.2.2.2.2.2.1
  obtain ⟨k, hk⟩ : ∃ k, cfg.maxIterations = k + 1 := ⟨cfg.maxIterations - 1, by omega⟩
  have hfit : (fitWith sqrt cfg pb m).2
      = { outerIteration sqrt cfg pb (fitStart cfg pb m) with
          iteration := cfg.maxIterations + 1 } := by
    have h := outerLoop_of_rejected sqrt cfg pb k (fitStart cfg pb m) hlt hfirst
    rw [← hk] at h
    exact h
  obtain ⟨oPar, oCur, _, _, oIll, _, _, oAtt⟩ :=
    outerIteration_spec sqrt cfg pb (fitStart cfg pb m) hlt
  have oSol := outerIteration_solves sqrt cfg pb (fitStart cfg pb m) hlt
  rw [if_pos hfail] at oSol
  rw [if_pos hfirst] at oAtt
  rw [hfit]
  refine ⟨?_, ?_, ?_, ?_, ?_, rfl⟩
  · show (outerIteration sqrt cfg pb (fitStart cfg pb m)).attempts = _
    rw [oAtt]
    show 0 + (cfg.maxIterations - 0) = cfg.maxIterations
    omega
  · show (outerIteration sqrt cfg pb (fitStart cfg pb m)).solves = _
    rw [oSol]
    rfl
  · show (outerIteration sqrt cfg pb (fitStart cfg pb m)).parameters = _
    rw [oPar, hnp]
    rfl
  · show (outerIteration sqrt cfg pb (fitStart cfg pb m)).currentError = _
    rw [oCur, hne]
  · show (outerIteration sqrt cfg pb (fitStart cfg pb m)).illConditioned = _
    rw [oIll, hfirst]

end IllStart

section IllStartClaim

/-- When every gradient written during the build pass is the zero vector, the
Hessian is zero and its factorisation fails in row `0`. -/
theorem factorFails_of_zero_gradient (pb : Problem ℝ) (s : FitState ℝ)
    (hP : 1 ≤ pb.RowsParameters)
    (hg : ∀ i, i < pb.RowsMeasurements → ∀ k,
      gradientWritten pb s.parameters s.gradient i k = 0) :
    factorFails Real.sqrt pb (enterDamping pb s) = true := by
  have hH : (enterDamping pb s).hessian 0 0 = 0 := by
    rw [enterDamping_eq]
    simp only []
    rw [if_pos ⟨hP, hP⟩, if_pos (Nat.le_refl 0)]
    apply Finset.sum_eq_zero
    intro i hi
    have h0 := gradientAfter_written pb s.parameters s.gradient i ⟨0, hP⟩
    rw [hg i (Finset.mem_range.mp hi)] at h0
    change gradientAfter pb s.parameters s.gradient (i + 1) 0 = 0 at h0
    rw [h0, zero_mul]
  unfold factorFails
  exact getCholeskyDecomposition_corner Real.sqrt pb.RowsParameters _ _ hP
    (by rw [hH]; exact TOL_pos)

/-- C17: a freshly constructed solver whose first Hessian is reported
ill-conditioned.  If `getCholeskyDecomposition` returns `true` for the Hessian built
at the initial parameters `p0` (the solver being fresh, so `newParameters` is zero),
then `fit` returns `true` after exactly `10000` factorisation attempts and no call of
`solveCholesky`; every entry `k < RowsParameters` of `parameters` ends as `0`,
`currentError` ends as `0`, and `illConditioned` is still set.  The hypothesis
implies `RowsParameters >= 1`. -/
theorem fit_of_ill_conditioned_start (pb : Problem ℝ) (p0 : Vec ℝ)
    (hfail : factorFails Real.sqrt pb
      (enterDamping pb (fitStart fitConfig pb (construct p0))) = true) :
    (fit Real.sqrt pb (construct p0)).1 = true ∧
    (fit Real.sqrt pb (construct p0)).2.attempts = 10000 ∧
    (fit Real.sqrt pb (construct p0)).2.solves = 0 ∧
    (∀ k, k < pb.RowsParameters → (fit Real.sqrt pb (construct p0)).2.parameters k = 0) ∧
    (fit Real.sqrt pb (construct p0)).2.currentError = 0 ∧
    (fit Real.sqrt pb (construct p0)).2.illConditioned = true ∧
    1 ≤ pb.RowsParameters := by
  obtain ⟨h1, h2, h3, h4, h5, _⟩ := fitWith_of_failed_factorisation Real.sqrt fitConfig pb
    (construct p0) (by show 0 < 10000; decide) hfail
  refine ⟨rfl, h1, h2, ?_, h4, h5, factorFails_pos Real.sqrt pb _ hfail⟩
  intro k hk
  have h3k : (fit Real.sqrt pb (construct p0)).2.parameters k
      = (fun k => if k < pb.RowsParameters then (construct p0).newParameters k
          else (construct p0).parameters k) k := congrFun h3 k
  rw [h3k]
  simp only []
  rw [if_pos hk]
  rfl

/-- Witness for `fit_of_ill_conditioned_start`: `flatModel` started at `p[0] = 1`,
where every gradient written is zero. -/
theorem fit_of_ill_conditioned_start_witness :
    factorFails Real.sqrt flatModel
      (enterDamping flatModel (fitStart fitConfig flatModel (construct (fun _ => (1 : ℝ)))))
      = true ∧
    ((fit Real.sqrt flatModel (construct (fun _ => (1 : ℝ)))).1 = true ∧
    (fit Real.sqrt flatModel (construct (fun _ => (1 : ℝ)))).2.attempts = 10000 ∧
    (fit Real.sqrt flatModel (construct (fun _ => (1 : ℝ)))).2.solves = 0 ∧
    (∀ k, k < (flatModel : Problem ℝ).RowsParameters →
      (fit Real.sqrt flatModel (construct (fun _ => (1 : ℝ)))).2.parameters k = 0) ∧
    (fit Real.sqrt flatModel (construct (fun _ => (1 : ℝ)))).2.currentError = 0 ∧
    (fit Real.sqrt flatModel (construct (fun _ => (1 : ℝ)))).2.illConditioned = true ∧
    1 ≤ (flatModel : Problem ℝ).RowsParameters) := by
  have hfail : factorFails Real.sqrt flatModel
      (enterDamping flatModel (fitStart fitConfig flatModel (construct (fun _ => (1 : ℝ)))))
      = true := by
    apply factorFails_of_zero_gradient flatModel _ (Nat.le_refl 1)
    intro i _ k
    simp [gradientWritten, flatModel, toVector, fitStart, construct]
  exact ⟨hfail, fit_of_ill_conditioned_start flatModel (fun _ => 1) hfail⟩

end IllStartClaim


/-! ## Models that are linear in their parameters -/

section Linear

/-- The symmetric Hessian of the build pass is `Jᵀ J`. -/
theorem enterDamping_hessian_matrix (pb : Problem ℝ) (s : FitState ℝ) :
    toMatrix pb.RowsParameters (symmetrize (enterDamping pb s).hessian)
      = (jacobian pb s.parameters s.gradient).transpose * jacobian pb s.parameters s.gradient := by
  ext r c
  rw [Matrix.mul_apply]
  have hH : ∀ a b : Fin pb.RowsParameters, (b : Nat) ≤ a →
      (enterDamping pb s).hessian a b
        = ∑ i : Fin pb.RowsMeasurements,
            jacobian pb s.parameters s.gradient i a * jacobian pb s.parameters s.gradient i b := by
    intro a b hba
    rw [enterDamping_eq]
    simp only []
    rw [if_pos ⟨a.2, b.2⟩, if_pos hba, Finset.sum_range]
    apply Finset.sum_congr rfl
    intro i _
    rw [gradientAfter_written pb s.parameters s.gradient i a,
      gradientAfter_written pb s.parameters s.gradient i b]
    rfl
  by_cases hcr : (c : Nat) ≤ r
  · have h1 : toMatrix pb.RowsParameters (symmetrize (enterDamping pb s).hessian) r c
        = (enterDamping pb s).hessian r c := by
      simp [toMatrix, symmetrize, hcr]
    rw [h1, hH r c hcr]
    rfl
  · have h1 : toMatrix pb.RowsParameters (symmetrize (enterDamping pb s).hessian) r c
        = (enterDamping pb s).hessian c r := by
      simp [toMatrix, symmetrize, hcr]
    rw [h1, hH c r (by omega)]
    apply Finset.sum_congr rfl
    intro i _
    rw [Matrix.transpose_apply]
    exact mul_comm _ _

/-- The derivative of the build pass is `Jᵀ (y - f(p))`. -/
theorem enterDamping_derivative_vector (pb : Problem ℝ) (s : FitState ℝ) :
    toVector pb.RowsParameters (enterDamping pb s).derivative
      = (jacobian pb s.parameters s.gradient).transpose.mulVec
          (measured pb - predicted pb s.parameters) := by
  funext k
  rw [Matrix.mulVec, Matrix.dotProduct]
  have h : toVector pb.RowsParameters (enterDamping pb s).derivative k
      = (enterDamping pb s).derivative k := rfl
  rw [h, enterDamping_eq]
  simp only []
  rw [if_pos k.2, Finset.sum_range]
  apply Finset.sum_congr rfl
  intro i _
  rw [gradientAfter_written pb s.parameters s.gradient i k, Matrix.transpose_apply]
  exact mul_comm _ _

/-- `getError` is the squared length of the residual vector. -/
theorem getError_dotProduct (pb : Problem ℝ) (v : Vec ℝ) :
    getError pb v
      = Matrix.dotProduct (predicted pb v - measured pb) (predicted pb v - measured pb) := by
  unfold getError
  simp only []
  rw [forLoop_sum, zero_add, Finset.sum_range, Matrix.dotProduct]
  rfl

/-- A solution of the normal equations minimises the squared residual length. -/
theorem normal_equations_minimise {M P : Nat} (J : Matrix (Fin M) (Fin P) ℝ)
    (y : Fin M → ℝ) (p q : Fin P → ℝ)
    (h : (J.transpose * J).mulVec p = J.transpose.mulVec y) :
    Matrix.dotProduct (J.mulVec p - y) (J.mulVec p - y)
      ≤ Matrix.dotProduct (J.mulVec q - y) (J.mulVec q - y) := by
  have hq : J.mulVec q - y = (J.mulVec p - y) + J.mulVec (q - p) := by
    rw [Matrix.mulVec_sub]
    abel
  have hzero : J.transpose.mulVec (J.mulVec p - y) = 0 := by
    rw [Matrix.mulVec_sub, Matrix.mulVec_mulVec, h, sub_self]
  have hcross : Matrix.dotProduct (J.mulVec p - y) (J.mulVec (q - p)) = 0 := by
    rw [Matrix.dotProduct_mulVec, ← Matrix.mulVec_transpose, hzero, Matrix.zero_dotProduct]
  have hcross2 : Matrix.dotProduct (J.mulVec (q - p)) (J.mulVec p - y) = 0 := by
    rw [Matrix.dotProduct_comm]; exact hcross
  have hnn : 0 ≤ Matrix.dotProduct (J.mulVec (q - p)) (J.mulVec (q - p)) := by
    unfold Matrix.dotProduct
    exact Finset.sum_nonneg (fun i _ => mul_self_nonneg _)
  rw [hq, Matrix.add_dotProduct, Matrix.dotProduct_add, Matrix.dotProduct_add, hcross, hcross2]
  linarith

end Linear


section LinearModel

/-- Entries of the lower triangle of the Hessian of the build pass. -/
theorem enterDamping_hessian_entry (pb : Problem ℝ) (s : FitState ℝ)
    (a b : Fin pb.RowsParameters) (hba : (b : Nat) ≤ a) :
    (enterDamping pb s).hessian a b
      = ∑ i : Fin pb.RowsMeasurements,
          jacobian pb s.parameters s.gradient i a * jacobian pb s.parameters s.gradient i b := by
  rw [enterDamping_eq]
  simp only []
  rw [if_pos ⟨a.2, b.2⟩, if_pos hba, Finset.sum_range]
  apply Finset.sum_congr rfl
  intro i _
  rw [gradientAfter_written pb s.parameters s.gradient i a,
    gradientAfter_written pb s.parameters s.gradient i b]
  rfl

/-- For a gradient that does not depend on the parameters, the Jacobian is the
same at every point. -/
theorem jacobian_linear (pb : Problem ℝ)
    (φ : Fin pb.RowsParameters → (Fin pb.RowsParameters → ℝ) → ℝ)
    (hg : ∀ g p x, pb.gradientFunction g p x = fun k => φ k x) (p g0 : Vec ℝ) :
    jacobian pb p g0
      = fun (i : Fin pb.RowsMeasurements) (k : Fin pb.RowsParameters) =>
          φ k (toVector pb.RowsParameters (pb.x i)) := by
  funext i k
  unfold jacobian gradientWritten
  rw [hg]

/-- For a model linear in its parameters, the model values are `J p`. -/
theorem predicted_linear (pb : Problem ℝ)
    (φ : Fin pb.RowsParameters → (Fin pb.RowsParameters → ℝ) → ℝ)
    (hf : ∀ p x, pb.evaluationFunction p x = ∑ k, p k * φ k x)
    (hg : ∀ g p x, pb.gradientFunction g p x = fun k => φ k x) (p g0 v : Vec ℝ) :
    predicted pb v = (jacobian pb p g0).mulVec (toVector pb.RowsParameters v) := by
  funext i
  rw [jacobian_linear pb φ hg]
  unfold predicted
  rw [hf, Matrix.mulVec, Matrix.dotProduct]
  exact Finset.sum_congr rfl (fun k _ => mul_comm _ _)

/-- The candidate of a pass is the old point plus the step. -/
theorem candidateOf_vector (pb : Problem ℝ) (s : FitState ℝ) :
    toVector pb.RowsParameters (candidateOf Real.sqrt pb s)
      = toVector pb.RowsParameters s.parameters
        + toVector pb.RowsParameters (stepOf Real.sqrt pb s) := by
  funext k
  have h : toVector pb.RowsParameters (candidateOf Real.sqrt pb s) k
      = candidateOf Real.sqrt pb s k := rfl
  rw [h]
  unfold candidateOf
  rw [forLoop_setVec, if_pos k.2]
  rfl

/-- For a model linear in its parameters, the candidate of the first pass after a
build pass solves the normal equations. -/
theorem candidate_normal_equations (pb : Problem ℝ)
    (φ : Fin pb.RowsParameters → (Fin pb.RowsParameters → ℝ) → ℝ)
    (hf : ∀ p x, pb.evaluationFunction p x = ∑ k, p k * φ k x)
    (hg : ∀ g p x, pb.gradientFunction g p x = fun k => φ k x) (s : FitState ℝ)
    (hfac : factorFails Real.sqrt pb (enterDamping pb s) = false) :
    ((jacobian pb s.parameters s.gradient).transpose
        * jacobian pb s.parameters s.gradient).mulVec
        (toVector pb.RowsParameters (candidateOf Real.sqrt pb (enterDamping pb s)))
      = (jacobian pb s.parameters s.gradient).transpose.mulVec (measured pb) := by
  have hstep := step_normal_equations pb (enterDamping pb s) hfac
  rw [enterDamping_hessian_matrix, enterDamping_derivative_vector,
    predicted_linear pb φ hf hg s.parameters s.gradient s.parameters] at hstep
  rw [candidateOf_vector, Matrix.mulVec_add, hstep, (enterDamping_frame pb s).1,
    Matrix.mulVec_sub, Matrix.mulVec_mulVec]
  abel

/-- For a model linear in its parameters, a point that solves the normal equations
minimises `getError`. -/
theorem getError_minimal (pb : Problem ℝ)
    (φ : Fin pb.RowsParameters → (Fin pb.RowsParameters → ℝ) → ℝ)
    (hf : ∀ p x, pb.evaluationFunction p x = ∑ k, p k * φ k x)
    (hg : ∀ g p x, pb.gradientFunction g p x = fun k => φ k x) (p g0 v : Vec ℝ)
    (hv : ((jacobian pb p g0).transpose * jacobian pb p g0).mulVec
        (toVector pb.RowsParameters v)
      = (jacobian pb p g0).transpose.mulVec (measured pb)) (q : Vec ℝ) :
    getError pb v ≤ getError pb q := by
  rw [getError_dotProduct, getError_dotProduct, predicted_linear pb φ hf hg p g0 v,
    predicted_linear pb φ hf hg p g0 q]
  exact normal_equations_minimise _ _ _ _ hv

/-- For a model linear in its parameters, the derivative built at a solution of the
normal equations is zero. -/
theorem derivative_at_solution (pb : Problem ℝ)
    (φ : Fin pb.RowsParameters → (Fin pb.RowsParameters → ℝ) → ℝ)
    (hf : ∀ p x, pb.evaluationFunction p x = ∑ k, p k * φ k x)
    (hg : ∀ g p x, pb.gradientFunction g p x = fun k => φ k x) (s : FitState ℝ)
    (hv : ((jacobian pb s.parameters s.gradient).transpose
        * jacobian pb s.parameters s.gradient).mulVec (toVector pb.RowsParameters s.parameters)
      = (jacobian pb s.parameters s.gradient).transpose.mulVec (measured pb)) :
    ∀ k, k < pb.RowsParameters → (enterDamping pb s).derivative k = 0 := by
  intro k hk
  have h := congrFun (enterDamping_derivative_vector pb s) ⟨k, hk⟩
  rw [predicted_linear pb φ hf hg s.parameters s.gradient s.parameters, Matrix.mulVec_sub,
    Matrix.mulVec_mulVec, hv, sub_self] at h
  exact h

/-- For a gradient that does not depend on the parameters, the factorisation
succeeds at every point if it succeeds at one. -/
theorem factorFails_linear (pb : Problem ℝ)
    (φ : Fin pb.RowsParameters → (Fin pb.RowsParameters → ℝ) → ℝ)
    (hg : ∀ g p x, pb.gradientFunction g p x = fun k => φ k x) (s t : FitState ℝ) :
    factorFails Real.sqrt pb (enterDamping pb t) = factorFails Real.sqrt pb (enterDamping pb s) := by
  have hH : ∀ r c, c ≤ r → r < 0 + pb.RowsParameters →
      (enterDamping pb t).hessian r c = (enterDamping pb s).hessian r c := by
    intro r c hcr hr
    have hr2 : r < pb.RowsParameters := by omega
    have h1 := enterDamping_hessian_entry pb t ⟨r, hr2⟩ ⟨c, by omega⟩ hcr
    have h2 := enterDamping_hessian_entry pb s ⟨r, hr2⟩ ⟨c, by omega⟩ hcr
    rw [jacobian_linear pb φ hg] at h1 h2
    exact h1.trans h2.symm
  unfold factorFails
  rw [getCholeskyDecomposition_flag Real.sqrt pb.RowsParameters (enterDamping pb t).hessian
    (enterDamping pb t).choleskyDecomposition (enterDamping pb s).choleskyDecomposition]
  unfold getCholeskyDecomposition
  rw [choleskyFrom_congr_H Real.sqrt (enterDamping pb s).hessian (enterDamping pb t).hessian
    pb.RowsParameters 0 _ hH]

end LinearModel


section LinearFit

/-- An outer iteration started at a point where the built derivative is zero and the
factorisation succeeds: the step is zero, the pass is accepted with `deltaError = 0`,
the parameters stay, and the break of line 167 is taken. -/
theorem outerIteration_stationary (cfg : Config ℝ) (pb : Problem ℝ) (s : FitState ℝ)
    (hlt : s.iteration < cfg.maxIterations)
    (hcur : s.currentError = getError pb s.parameters)
    (hd : ∀ k, k < pb.RowsParameters → (enterDamping pb s).derivative k = 0)
    (hfac : factorFails Real.sqrt pb (enterDamping pb s) = false)
    (htarget : 0 < cfg.targetDeltaError) :
    (outerIteration Real.sqrt cfg pb s).illConditioned = false ∧
    (outerIteration Real.sqrt cfg pb s).deltaError = 0 ∧
    breakTest cfg (outerIteration Real.sqrt cfg pb s) = true ∧
    (outerIteration Real.sqrt cfg pb s).parameters = s.parameters ∧
    (outerIteration Real.sqrt cfg pb s).currentError = s.currentError ∧
    (outerIteration Real.sqrt cfg pb s).attempts = s.attempts + 1 ∧
    (outerIteration Real.sqrt cfg pb s).iteration = s.iteration := by
  obtain ⟨hpar, hcure, _, _, _, _, hnp, _⟩ := enterDamping_frame pb s
  have hstep : ∀ k, k < pb.RowsParameters → stepOf Real.sqrt pb (enterDamping pb s) k = 0 :=
    fun k hk => solveCholesky_zero pb.RowsParameters _ _ _ hd k hk
  have hcand : ∀ k, candidateOf Real.sqrt pb (enterDamping pb s) k
      = if k < pb.RowsParameters then s.parameters k else s.newParameters k := by
    intro k
    unfold candidateOf
    rw [forLoop_setVec, hpar, hnp]
    by_cases hk : k < pb.RowsParameters
    · rw [if_pos hk, if_pos hk, hstep k hk, add_zero]
    · rw [if_neg hk, if_neg hk]
  have herr : getError pb (candidateOf Real.sqrt pb (enterDamping pb s))
      = getError pb s.parameters :=
    getError_congr pb _ _ (fun k hk => by rw [hcand k, if_pos hk])
  have hacc : ¬ getError pb (candidateOf Real.sqrt pb (enterDamping pb s))
      - (enterDamping pb s).currentError > 0 := by
    rw [herr, hcure, hcur, sub_self]
    exact lt_irrefl 0
  have hatt := attempt_of_accept Real.sqrt cfg pb (enterDamping pb s) hfac hacc
  obtain ⟨oPar, oCur, _, oDelta, oIll, _, oIter, oAtt⟩ :=
    outerIteration_spec Real.sqrt cfg pb s hlt
  have hfa : firstAttempt Real.sqrt cfg pb s
      = attempt Real.sqrt cfg pb (enterDamping pb s) := rfl
  rw [hfa, hatt] at oPar oCur oDelta oIll oIter oAtt
  simp only [] at oPar oCur oDelta oIll oIter oAtt
  have hde : (outerIteration Real.sqrt cfg pb s).deltaError = 0 := by
    rw [oDelta, herr, hcure, hcur, sub_self]
  refine ⟨oIll, hde, ?_, ?_, ?_, ?_, ?_⟩
  · unfold breakTest
    rw [oIll, hde]
    simpa using htarget
  · rw [oPar]
    funext k
    by_cases hk : k < pb.RowsParameters
    · rw [if_pos hk, hcand k, if_pos hk]
    · rw [if_neg hk]
  · rw [oCur, herr, hcur]
  · rw [oAtt]; simp
  · rw [oIter]; simp

/-- An outer iteration of a model linear in its parameters, started with
`currentError` the error of `parameters` and with a Hessian that passes the
factorisation: the step is accepted and the candidate is committed. -/
theorem outerIteration_linear (cfg : Config ℝ) (pb : Problem ℝ)
    (φ : Fin pb.RowsParameters → (Fin pb.RowsParameters → ℝ) → ℝ)
    (hf : ∀ p x, pb.evaluationFunction p x = ∑ k, p k * φ k x)
    (hg : ∀ g p x, pb.gradientFunction g p x = fun k => φ k x) (s : FitState ℝ)
    (hlt : s.iteration < cfg.maxIterations)
    (hcur : s.currentError = getError pb s.parameters)
    (hfac : factorFails Real.sqrt pb (enterDamping pb s) = false) :
    (outerIteration Real.sqrt cfg pb s).illConditioned = false ∧
    (outerIteration Real.sqrt cfg pb s).parameters
      = (fun k => if k < pb.RowsParameters
          then candidateOf Real.sqrt pb (enterDamping pb s) k else s.parameters k) ∧
    (outerIteration Real.sqrt cfg pb s).currentError
      = getError pb (candidateOf Real.sqrt pb (enterDamping pb s)) ∧
    (outerIteration Real.sqrt cfg pb s).attempts = s.attempts + 1 ∧
    (outerIteration Real.sqrt cfg pb s).iteration = s.iteration := by
  obtain ⟨_, hcure, _⟩ := enterDamping_frame pb s
  have hmin := getError_minimal pb φ hf hg s.parameters s.gradient
    (candidateOf Real.sqrt pb (enterDamping pb s))
    (candidate_normal_equations pb φ hf hg s hfac) s.parameters
  have hacc : ¬ getError pb (candidateOf Real.sqrt pb (enterDamping pb s))
      - (enterDamping pb s).currentError > 0 := by
    rw [hcure, hcur]
    exact not_lt.mpr (sub_nonpos.mpr hmin)
  have hatt := attempt_of_accept Real.sqrt cfg pb (enterDamping pb s) hfac hacc
  obtain ⟨oPar, oCur, _, _, oIll, _, oIter, oAtt⟩ :=
    outerIteration_spec Real.sqrt cfg pb s hlt
  have hfa : firstAttempt Real.sqrt cfg pb s
      = attempt Real.sqrt cfg pb (enterDamping pb s) := rfl
  rw [hfa, hatt] at oPar oCur oIll oIter oAtt
  simp only [] at oPar oCur oIll oIter oAtt
  refine ⟨oIll, oPar, oCur, ?_, ?_⟩
  · rw [oAtt]; simp
  · rw [oIter]; simp

end LinearFit


section LinearClaim

/-- C18: `fit` on a model that is linear in its parameters.  Let
`evaluationFunction(p, x) = sum_k p[k] * phi_k(x)`, let `gradientFunction` write
`phi(x)` whatever `p` is, and let the Hessian built at the initial parameters pass
`getCholeskyDecomposition`.  Then, for every initial content of the solver's arrays,
the first outer iteration accepts its step and commits `p1 = p0 + delta`; `p1` solves
the normal equations `Jᵀ J p1 = Jᵀ y` and minimises `getError`; the outer loop makes
one or two passes, `fit` ends through the break of line 167 after at most two
factorisation attempts, and the final parameters are `p1`. -/
theorem fit_linear_model (pb : Problem ℝ) (m : Memory ℝ)
    (φ : Fin pb.RowsParameters → (Fin pb.RowsParameters → ℝ) → ℝ)
    (hf : ∀ p x, pb.evaluationFunction p x = ∑ k, p k * φ k x)
    (hg : ∀ g p x, pb.gradientFunction g p x = fun k => φ k x)
    (hfac : factorFails Real.sqrt pb (enterDamping pb (fitStart fitConfig pb m)) = false) :
    (outerIteration Real.sqrt fitConfig pb (fitStart fitConfig pb m)).illConditioned = false ∧
    (∀ k, k < pb.RowsParameters →
      (outerIteration Real.sqrt fitConfig pb (fitStart fitConfig pb m)).parameters k
        = m.parameters k + stepOf Real.sqrt pb (enterDamping pb (fitStart fitConfig pb m)) k) ∧
    ((jacobian pb m.parameters m.gradient).transpose * (jacobian pb m.parameters m.gradient)).mulVec
        (toVector pb.RowsParameters (outerIteration Real.sqrt fitConfig pb (fitStart fitConfig pb m)).parameters)
      = (jacobian pb m.parameters m.gradient).transpose.mulVec (measured pb) ∧
    (∀ q : Vec ℝ, getError pb (outerIteration Real.sqrt fitConfig pb (fitStart fitConfig pb m)).parameters
      ≤ getError pb q) ∧
    (outerTrace Real.sqrt fitConfig pb 10000 (fitStart fitConfig pb m)
        = [(outerIteration Real.sqrt fitConfig pb (fitStart fitConfig pb m))] ∨
      outerTrace Real.sqrt fitConfig pb 10000 (fitStart fitConfig pb m)
        = [(outerIteration Real.sqrt fitConfig pb (fitStart fitConfig pb m)),
        (outerIteration Real.sqrt fitConfig pb
          { (outerIteration Real.sqrt fitConfig pb (fitStart fitConfig pb m)) with
            iteration := (outerIteration Real.sqrt fitConfig pb (fitStart fitConfig pb m)).iteration + 1 })]) ∧
    (fit Real.sqrt pb m).2.parameters = (outerIteration Real.sqrt fitConfig pb (fitStart fitConfig pb m)).parameters ∧
    (fit Real.sqrt pb m).2.illConditioned = false ∧
    breakTest fitConfig (fit Real.sqrt pb m).2 = true ∧
    (fit Real.sqrt pb m).2.attempts ≤ 2 := by
  have hlt : (fitStart fitConfig pb m).iteration < (fitConfig : Config ℝ).maxIterations := by
    show 0 < 10000
    decide
  obtain ⟨l1, l2, l3, l4, l5⟩ :=
    outerIteration_linear fitConfig pb φ hf hg (fitStart fitConfig pb m) hlt rfl hfac
  have hne : ((jacobian pb m.parameters m.gradient).transpose
        * jacobian pb m.parameters m.gradient).mulVec
        (toVector pb.RowsParameters
          (candidateOf Real.sqrt pb (enterDamping pb (fitStart fitConfig pb m))))
      = (jacobian pb m.parameters m.gradient).transpose.mulVec (measured pb) :=
    candidate_normal_equations pb φ hf hg (fitStart fitConfig pb m) hfac
  have hk1 : ∀ k, k < pb.RowsParameters →
      (outerIteration Real.sqrt fitConfig pb (fitStart fitConfig pb m)).parameters k
        = candidateOf Real.sqrt pb (enterDamping pb (fitStart fitConfig pb m)) k := by
    intro k hk
    rw [l2]
    simp only []
    rw [if_pos hk]
  have htv : toVector pb.RowsParameters
      (outerIteration Real.sqrt fitConfig pb (fitStart fitConfig pb m)).parameters
      = toVector pb.RowsParameters
          (candidateOf Real.sqrt pb (enterDamping pb (fitStart fitConfig pb m))) := by
    funext k
    exact hk1 k k.2
  have hne1 : ((jacobian pb m.parameters m.gradient).transpose
        * jacobian pb m.parameters m.gradient).mulVec
        (toVector pb.RowsParameters
          (outerIteration Real.sqrt fitConfig pb (fitStart fitConfig pb m)).parameters)
      = (jacobian pb m.parameters m.gradient).transpose.mulVec (measured pb) := by
    rw [htv]; exact hne
  have hstepk : ∀ k, k < pb.RowsParameters →
      (outerIteration Real.sqrt fitConfig pb (fitStart fitConfig pb m)).parameters k
        = m.parameters k
          + stepOf Real.sqrt pb (enterDamping pb (fitStart fitConfig pb m)) k := by
    intro k hk
    rw [hk1 k hk]
    unfold candidateOf
    rw [forLoop_setVec, if_pos hk, (enterDamping_frame pb (fitStart fitConfig pb m)).1]
    rfl
  refine ⟨l1, hstepk, hne1, ?_, ?_⟩
  · exact getError_minimal pb φ hf hg m.parameters m.gradient _ hne1
  by_cases hb : breakTest fitConfig
      (outerIteration Real.sqrt fitConfig pb (fitStart fitConfig pb m)) = true
  · have hfit : (fit Real.sqrt pb m).2
        = outerIteration Real.sqrt fitConfig pb (fitStart fitConfig pb m) := by
      show outerLoop Real.sqrt fitConfig pb (9999 + 1) (fitStart fitConfig pb m) = _
      rw [outerLoop_succ, if_pos hlt, if_pos hb]
    refine ⟨Or.inl ?_, ?_⟩
    · show outerTrace Real.sqrt fitConfig pb (9999 + 1) (fitStart fitConfig pb m) = _
      rw [outerTrace_succ, if_pos hlt, if_pos hb]
    · rw [hfit]
      refine ⟨rfl, l1, hb, ?_⟩
      rw [l4]
      show 0 + 1 ≤ 2
      decide
  · generalize hnext : ({ outerIteration Real.sqrt fitConfig pb (fitStart fitConfig pb m) with
        iteration := (outerIteration Real.sqrt fitConfig pb
          (fitStart fitConfig pb m)).iteration + 1 } : FitState ℝ) = next
    have hnp : next.parameters
        = (outerIteration Real.sqrt fitConfig pb (fitStart fitConfig pb m)).parameters := by
      rw [← hnext]
    have hng : next.currentError
        = (outerIteration Real.sqrt fitConfig pb (fitStart fitConfig pb m)).currentError := by
      rw [← hnext]
    have hna : next.attempts
        = (outerIteration Real.sqrt fitConfig pb (fitStart fitConfig pb m)).attempts := by
      rw [← hnext]
    have hnill : next.illConditioned
        = (outerIteration Real.sqrt fitConfig pb (fitStart fitConfig pb m)).illConditioned := by
      rw [← hnext]
    have hni : next.iteration = 1 := by
      rw [← hnext]
      show (outerIteration Real.sqrt fitConfig pb (fitStart fitConfig pb m)).iteration + 1 = 1
      rw [l5]
      rfl
    have hlt2 : next.iteration < (fitConfig : Config ℝ).maxIterations := by
      rw [hni]
      show 1 < 10000
      decide
    have hcur2 : next.currentError = getError pb next.parameters := by
      rw [hng, hnp, l3]
      exact getError_congr pb _ _ (fun k hk => (hk1 k hk).symm)
    have hJ : jacobian pb next.parameters next.gradient
        = jacobian pb m.parameters m.gradient := by
      rw [jacobian_linear pb φ hg, jacobian_linear pb φ hg]
    have hd2 : ∀ k, k < pb.RowsParameters → (enterDamping pb next).derivative k = 0 := by
      apply derivative_at_solution pb φ hf hg next
      rw [hJ, hnp]
      exact hne1
    have hfac2 : factorFails Real.sqrt pb (enterDamping pb next) = false :=
      (factorFails_linear pb φ hg (fitStart fitConfig pb m) next).trans hfac
    obtain ⟨s1, _, s3, s4, _, s6, _⟩ := outerIteration_stationary fitConfig pb next hlt2 hcur2
      hd2 hfac2 (by show (0 : ℝ) < 1 / 100; norm_num)
    have hfit : (fit Real.sqrt pb m).2 = outerIteration Real.sqrt fitConfig pb next := by
      show outerLoop Real.sqrt fitConfig pb (9998 + 1 + 1) (fitStart fitConfig pb m) = _
      rw [outerLoop_succ Real.sqrt fitConfig pb (9998 + 1) (fitStart fitConfig pb m),
        if_pos hlt, if_neg hb, hnext, outerLoop_succ, if_pos hlt2, if_pos s3]
    refine ⟨Or.inr ?_, ?_⟩
    · show outerTrace Real.sqrt fitConfig pb (9998 + 1 + 1) (fitStart fitConfig pb m) = _
      rw [outerTrace_succ Real.sqrt fitConfig pb (9998 + 1) (fitStart fitConfig pb m),
        if_pos hlt, if_neg hb, hnext, outerTrace_succ, if_pos hlt2, if_pos s3]
    · rw [hfit]
      refine ⟨s4.trans hnp, s1, s3, ?_⟩
      rw [s6, hna, l4]
      show 0 + 1 + 1 ≤ 2
      decide

/-- Witness for `fit_linear_model`: `lineModel`, `f(p, x) = p[0] * x[0]`, started at
`p[0] = 0` on a fresh solver. -/
theorem fit_linear_model_witness :
    (∀ p x : Fin 1 → ℝ,
      (lineModel : Problem ℝ).evaluationFunction p x
        = ∑ k, p k * (fun (_ : Fin 1) (z : Fin 1 → ℝ) => z 0) k x) ∧
    (∀ g p x : Fin 1 → ℝ,
      (lineModel : Problem ℝ).gradientFunction g p x
        = fun k => (fun (_ : Fin 1) (z : Fin 1 → ℝ) => z 0) k x) ∧
    factorFails Real.sqrt lineModel
      (enterDamping lineModel (fitStart fitConfig lineModel (construct (fun _ => (0 : ℝ))))) = false ∧
    ((outerIteration Real.sqrt fitConfig lineModel (fitStart fitConfig lineModel (construct (fun _ => (0 : ℝ))))).illConditioned = false ∧
    (∀ k, k < (lineModel : Problem ℝ).RowsParameters →
      (outerIteration Real.sqrt fitConfig lineModel (fitStart fitConfig lineModel (construct (fun _ => (0 : ℝ))))).parameters k
        = (construct (fun _ => (0 : ℝ))).parameters k + stepOf Real.sqrt lineModel (enterDamping lineModel (fitStart fitConfig lineModel (construct (fun _ => (0 : ℝ))))) k) ∧
    ((jacobian lineModel (construct (fun _ => (0 : ℝ))).parameters (construct (fun _ => (0 : ℝ))).gradient).transpose * (jacobian lineModel (construct (fun _ => (0 : ℝ))).parameters (construct (fun _ => (0 : ℝ))).gradient)).mulVec
        (toVector (lineModel : Problem ℝ).RowsParameters (outerIteration Real.sqrt fitConfig lineModel (fitStart fitConfig lineModel (construct (fun _ => (0 : ℝ))))).parameters)
      = (jacobian lineModel (construct (fun _ => (0 : ℝ))).parameters (construct (fun _ => (0 : ℝ))).gradient).transpose.mulVec (measured lineModel) ∧
    (∀ q : Vec ℝ, getError lineModel (outerIteration Real.sqrt fitConfig lineModel (fitStart fitConfig lineModel (construct (fun _ => (0 : ℝ))))).parameters
      ≤ getError lineModel q) ∧
    (outerTrace Real.sqrt fitConfig lineModel 10000 (fitStart fitConfig lineModel (construct (fun _ => (0 : ℝ))))
        = [(outerIteration Real.sqrt fitConfig lineModel (fitStart fitConfig lineModel (construct (fun _ => (0 : ℝ)))))] ∨
      outerTrace Real.sqrt fitConfig lineModel 10000 (fitStart fitConfig lineModel (construct (fun _ => (0 : ℝ))))
        = [(outerIteration Real.sqrt fitConfig lineModel (fitStart fitConfig lineModel (construct (fun _ => (0 : ℝ))))),
        (outerIteration Real.sqrt fitConfig lineModel
          { (outerIteration Real.sqrt fitConfig lineModel (fitStart fitConfig lineModel (construct (fun _ => (0 : ℝ))))) with
            iteration := (outerIteration Real.sqrt fitConfig lineModel (fitStart fitConfig lineModel (construct (fun _ => (0 : ℝ))))).iteration + 1 })]) ∧
    (fit Real.sqrt lineModel (construct (fun _ => (0 : ℝ)))).2.parameters = (outerIteration Real.sqrt fitConfig lineModel (fitStart fitConfig lineModel (construct (fun _ => (0 : ℝ))))).parameters ∧
    (fit Real.sqrt lineModel (construct (fun _ => (0 : ℝ)))).2.illConditioned = false ∧
    breakTest fitConfig (fit Real.sqrt lineModel (construct (fun _ => (0 : ℝ)))).2 = true ∧
    (fit Real.sqrt lineModel (construct (fun _ => (0 : ℝ)))).2.attempts ≤ 2) := by
  have hf : ∀ p x : Fin 1 → ℝ,
      (lineModel : Problem ℝ).evaluationFunction p x
        = ∑ k, p k * (fun (_ : Fin 1) (z : Fin 1 → ℝ) => z 0) k x := by
    intro p x
    show p 0 * x 0 = ∑ k : Fin 1, p k * x 0
    simp
  have hg : ∀ g p x : Fin 1 → ℝ,
      (lineModel : Problem ℝ).gradientFunction g p x
        = fun k => (fun (_ : Fin 1) (z : Fin 1 → ℝ) => z 0) k x :=
    fun _ _ _ => rfl
  have hfac : factorFails Real.sqrt lineModel
      (enterDamping lineModel (fitStart fitConfig lineModel (construct (fun _ => (0 : ℝ))))) = false := by
    unfold factorFails
    show (getCholeskyDecomposition Real.sqrt 1 _ _).1 = false
    rw [getCholeskyDecomposition_one,
      (lineModel_enter (fitStart fitConfig lineModel (construct (fun _ => (0 : ℝ))))).1]
    have : ¬ ((1 : ℝ) < TOL) := by unfold TOL; norm_num
    rw [if_neg this]
  exact ⟨hf, hg, hfac, fit_linear_model lineModel (construct (fun _ => (0 : ℝ)))
    (fun (_ : Fin 1) (z : Fin 1 → ℝ) => z 0) hf hg hfac⟩

end LinearClaim


/-! ## The divisors -/

section Divisors

variable {α : Type} [LinearOrderedField α]

/-- Row `i` divides by the diagonal entries of the rows above, which it does not
write. -/
theorem choleskyOffDiagLog_eq (H : Mat α) (i : Nat) (L : Mat α) :
    choleskyOffDiagLog H i L
      = (choleskyOffDiag H i L, (List.range i).map (fun j => L j j)) := by
  have key : ∀ m, m ≤ i →
      forLoop m
        (fun j (st : Mat α × List α) =>
          let sum := forLoop j (fun k sum => sum + st.1 i k * st.1 j k) 0
          (setMat st.1 i j ((H i j - sum) / st.1 j j), st.2 ++ [st.1 j j])) (L, [])
      = (forLoop m (fun j L =>
          let sum := forLoop j (fun k sum => sum + L i k * L j k) 0
          setMat L i j ((H i j - sum) / L j j)) L, (List.range m).map (fun j => L j j)) := by
    intro m
    induction m with
    | zero => intro _; rfl
    | succ m ih =>
      intro hm
      rw [forLoop_succ, ih (by omega), forLoop_succ]
      simp only []
      rw [(offDiag_loop H i L m (by omega)).1 m m (Or.inl (by omega)), List.range_succ,
        List.map_append]
      rfl
  exact key i (Nat.le_refl i)

theorem choleskyFromLog_succ (sqrt : α → α) (H : Mat α) (rem i : Nat) (L : Mat α)
    (log : List α) :
    choleskyFromLog sqrt H (rem + 1) i L log
      = if choleskyPivot H i (choleskyOffDiag H i L) < TOL then
          ((true, choleskyOffDiag H i L), log ++ (List.range i).map (fun j => L j j))
        else choleskyFromLog sqrt H rem (i + 1)
          (setMat (choleskyOffDiag H i L) i i
            (sqrt (choleskyPivot H i (choleskyOffDiag H i L))))
          (log ++ (List.range i).map (fun j => L j j)) := by
  rw [choleskyFromLog, choleskyOffDiagLog_eq]

/-- Erasing the divisor list gives the row loop of `getCholeskyDecomposition`. -/
theorem choleskyFromLog_fst (sqrt : α → α) (H : Mat α) (rem : Nat) :
    ∀ (i : Nat) (L : Mat α) (log : List α),
      (choleskyFromLog sqrt H rem i L log).1 = choleskyFrom sqrt H rem i L := by
  induction rem with
  | zero => intro i L log; rfl
  | succ rem ih =>
    intro i L log
    rw [choleskyFromLog_succ, choleskyFrom_succ]
    by_cases hp : choleskyPivot H i (choleskyOffDiag H i L) < TOL
    · rw [if_pos hp, if_pos hp]
    · rw [if_neg hp, if_neg hp, ih]

/-- Every divisor of the row loop, started with the rows above `i` completed, is
the diagonal entry of a completed row of the result. -/
theorem choleskyFromLog_divisors (sqrt : α → α) (H : Mat α) (rem : Nat) :
    ∀ (i : Nat) (L : Mat α) (log : List α), (∀ j, j < i → RowOK sqrt H L j) →
      ∀ d, d ∈ (choleskyFromLog sqrt H rem i L log).2 →
        d ∈ log ∨ ∃ j, j < i + rem ∧ d = (choleskyFrom sqrt H rem i L).2 j j ∧
          RowOK sqrt H (choleskyFrom sqrt H rem i L).2 j := by
  induction rem with
  | zero =>
    intro i L log _ d hd
    exact Or.inl hd
  | succ rem ih =>
    intro i L log hL d hd
    rw [choleskyFromLog_succ] at hd
    rw [choleskyFrom_succ]
    have hrow : ∀ x, x ∈ log ++ (List.range i).map (fun j => L j j) →
        x ∈ log ∨ ∃ j, j < i ∧ x = L j j := by
      intro x hx
      rcases List.mem_append.mp hx with h | h
      · exact Or.inl h
      · obtain ⟨j, hj, hjx⟩ := List.mem_map.mp h
        exact Or.inr ⟨j, List.mem_range.mp hj, hjx.symm⟩
    by_cases hp : choleskyPivot H i (choleskyOffDiag H i L) < TOL
    · rw [if_pos hp] at hd
      rw [if_pos hp]
      rcases hrow d hd with h | ⟨j, hj, hdj⟩
      · exact Or.inl h
      · refine Or.inr ⟨j, by omega, ?_, ?_⟩
        · rw [hdj]
          exact (choleskyOffDiag_frame H i L j j (Or.inl (by omega))).symm
        · exact RowOK_congr sqrt H L _ j
            (fun r c _ hr => choleskyOffDiag_frame H i L r c (Or.inl (by omega))) (hL j hj)
    · rw [if_neg hp] at hd
      rw [if_neg hp]
      have hL2 : ∀ j, j < i + 1 → RowOK sqrt H (setMat (choleskyOffDiag H i L) i i
          (sqrt (choleskyPivot H i (choleskyOffDiag H i L)))) j := by
        intro j hj
        by_cases hji : j = i
        · rw [hji]; exact rowOK_after_diag sqrt H i L hp
        · refine RowOK_congr sqrt H L _ j (fun r c _ hr => ?_) (hL j (by omega))
          rw [setMat_other _ _ _ _ _ _ (Or.inl (by omega))]
          exact choleskyOffDiag_frame H i L r c (Or.inl (by omega))
      have hframe := (choleskyFrom_spec sqrt H rem (i + 1)
        (setMat (choleskyOffDiag H i L) i i
          (sqrt (choleskyPivot H i (choleskyOffDiag H i L))))).1
      rcases ih (i + 1) _ _ hL2 d hd with h | ⟨j, hj, hdj, hok⟩
      · rcases hrow d h with h1 | ⟨j, hj, hdj⟩
        · exact Or.inl h1
        · refine Or.inr ⟨j, by omega, ?_, ?_⟩
          · rw [hdj, hframe j j (Or.inl (by omega)),
              setMat_other _ _ _ _ _ _ (Or.inl (by omega))]
            exact (choleskyOffDiag_frame H i L j j (Or.inl (by omega))).symm
          · exact RowOK_congr sqrt H _ _ j
              (fun r c _ hr => hframe r c (Or.inl (by omega))) (hL2 j (by omega))
      · exact Or.inr ⟨j, by omega, hdj, hok⟩

/-- On success the divisors are, row by row, the diagonal entries of the rows
above. -/
theorem choleskyFromLog_success (sqrt : α → α) (H : Mat α) (rem : Nat) :
    ∀ (i : Nat) (L : Mat α) (log : List α), (choleskyFrom sqrt H rem i L).1 = false →
      (choleskyFromLog sqrt H rem i L log).2
        = log ++ (List.range' i rem).flatMap (fun r =>
            (List.range r).map (fun j => (choleskyFrom sqrt H rem i L).2 j j)) := by
  induction rem with
  | zero =>
    intro i L log _
    simp [choleskyFromLog]
  | succ rem ih =>
    intro i L log hflag
    rw [choleskyFromLog_succ]
    rw [choleskyFrom_succ] at hflag ⊢
    by_cases hp : choleskyPivot H i (choleskyOffDiag H i L) < TOL
    · rw [if_pos hp] at hflag
      simp at hflag
    · rw [if_neg hp] at hflag
      rw [if_neg hp, if_neg hp, ih _ _ _ hflag, List.range'_succ, List.flatMap_cons,
        List.append_assoc]
      have hframe := (choleskyFrom_spec sqrt H rem (i + 1)
        (setMat (choleskyOffDiag H i L) i i
          (sqrt (choleskyPivot H i (choleskyOffDiag H i L))))).1
      congr 2
      apply List.map_congr_left
      intro j hj
      have hji : j < i := List.mem_range.mp hj
      rw [hframe j j (Or.inl (by omega)), setMat_other _ _ _ _ _ _ (Or.inl (by omega)),
        choleskyOffDiag_frame H i L j j (Or.inl (by omega))]

/-- The forward pass divides by the diagonal entries `C[0][0], ..., C[n-1][n-1]`. -/
theorem forwardSubstitutionLog_eq (n : Nat) (C : Mat α) (d delta : Vec α) :
    forwardSubstitutionLog n C d delta
      = (forwardSubstitution n C d delta, (List.range n).map (fun i => C i i)) := by
  unfold forwardSubstitutionLog forwardSubstitution
  induction n with
  | zero => rfl
  | succ n ih =>
    rw [forLoop_succ, ih, forLoop_succ, List.range_succ, List.map_append]
    rfl

/-- The backward pass divides by the diagonal entries `C[n-1][n-1], ..., C[0][0]`. -/
theorem backSubstitutionLog_eq (n : Nat) (C : Mat α) (delta : Vec α) (log : List α) :
    backSubstitutionLog n C delta log
      = (backSubstitution n C delta, log ++ ((List.range n).map (fun i => C i i)).reverse) := by
  have key : ∀ m (v : Vec α) (l : List α),
      forDown m (fun i (st : Vec α × List α) =>
          (setVec st.1 i ((st.1 i - backInner n C st.1 i) / C i i), st.2 ++ [C i i])) (v, l)
        = (forDown m (fun i delta =>
            setVec delta i ((delta i - backInner n C delta i) / C i i)) v,
          l ++ ((List.range m).map (fun i => C i i)).reverse) := by
    intro m
    induction m with
    | zero => intro v l; simp [forDown]
    | succ m ih =>
      intro v l
      rw [forDown_succ, ih, forDown_succ, List.range_succ, List.map_append,
        List.reverse_append, List.append_assoc]
      rfl
  exact key n delta log

/-- The divisors of `solveCholesky` are the diagonal entries of the factor, up and
down. -/
theorem solveCholeskyLog_eq (n : Nat) (C : Mat α) (d delta : Vec α) :
    solveCholeskyLog n C d delta
      = (solveCholesky n C d delta,
          (List.range n).map (fun i => C i i)
            ++ ((List.range n).map (fun i => C i i)).reverse) := by
  unfold solveCholeskyLog
  simp only []
  rw [forwardSubstitutionLog_eq, backSubstitutionLog_eq]
  rfl

end Divisors


section DivisorsClaim

/-- The divisors of one call of `getCholeskyDecomposition`, whatever it returns and
whatever `choleskyDecomposition` held before: each is the diagonal entry of a row
the call has completed. -/
theorem getCholeskyDecompositionLog_divisors (n : Nat) (H L : Mat ℝ) (d : ℝ)
    (hd : d ∈ (getCholeskyDecompositionLog Real.sqrt n H L).2) :
    ∃ j, j < n ∧ d = (getCholeskyDecomposition Real.sqrt n H L).2 j j ∧
      RowOK Real.sqrt H (getCholeskyDecomposition Real.sqrt n H L).2 j := by
  rcases choleskyFromLog_divisors Real.sqrt H n 0 L []
    (fun j hj => absurd hj (Nat.not_lt_zero j)) d hd with h | ⟨j, hj, hdj, hok⟩
  · exact absurd h (List.not_mem_nil d)
  · exact ⟨j, by omega, hdj, hok⟩

/-- C15 (over the reals): `solveCholesky` runs only after a successful
factorisation of the same pass, and no divisor is zero.  For every state `s` in which the body of the `while`
loop is run: `solveCholesky` is called (ghost counter `solves`) exactly when the
`getCholeskyDecomposition` call of this pass returned `false`, and then on the factor
that call has just written; after a reported failure `delta` is left alone and the
pass ends with `illConditioned` set.  The instrumented functions compute the same
arrays as the plain ones, and every divisor they record for this pass, both inside
`getCholeskyDecomposition` and inside `solveCholesky`, is a diagonal entry
`choleskyDecomposition[j][j]` of a row completed by the factorisation of this pass
(`RowOK`: it is the square root of a pivot that is at least `TOL`), hence at least
`sqrt TOL > 0` and not zero.  After a success the recorded divisors are the
entries `[j][j]`, `j < i`, for each row `i`, followed by the diagonal up and down. -/
theorem divisors_at_least_sqrt_TOL (cfg : Config ℝ) (pb : Problem ℝ) (s : FitState ℝ) :
    (attempt Real.sqrt cfg pb s).solves
      = s.solves + (if factorFails Real.sqrt pb s = true then 0 else 1) ∧
    (attempt Real.sqrt cfg pb s).choleskyDecomposition
      = (getCholeskyDecomposition Real.sqrt pb.RowsParameters s.hessian
          s.choleskyDecomposition).2 ∧
    (factorFails Real.sqrt pb s = true →
      (attempt Real.sqrt cfg pb s).delta = s.delta ∧
      (attempt Real.sqrt cfg pb s).illConditioned = true) ∧
    (factorFails Real.sqrt pb s = false →
      (attempt Real.sqrt cfg pb s).delta
        = solveCholesky pb.RowsParameters (attempt Real.sqrt cfg pb s).choleskyDecomposition
            s.derivative s.delta) ∧
    (getCholeskyDecompositionLog Real.sqrt pb.RowsParameters s.hessian
        s.choleskyDecomposition).1
      = getCholeskyDecomposition Real.sqrt pb.RowsParameters s.hessian
          s.choleskyDecomposition ∧
    (solveCholeskyLog pb.RowsParameters (attempt Real.sqrt cfg pb s).choleskyDecomposition
        s.derivative s.delta).1
      = solveCholesky pb.RowsParameters (attempt Real.sqrt cfg pb s).choleskyDecomposition
          s.derivative s.delta ∧
    (∀ d, d ∈ attemptDivisors Real.sqrt pb s →
      Real.sqrt TOL ≤ d ∧ d ≠ 0 ∧
      ∃ j, j < pb.RowsParameters ∧
        d = (attempt Real.sqrt cfg pb s).choleskyDecomposition j j ∧
        RowOK Real.sqrt s.hessian (attempt Real.sqrt cfg pb s).choleskyDecomposition j) ∧
    0 < Real.sqrt TOL ∧
    (factorFails Real.sqrt pb s = false →
      attemptDivisors Real.sqrt pb s
        = (List.range pb.RowsParameters).flatMap (fun i =>
            (List.range i).map (fun j => (attempt Real.sqrt cfg pb s).choleskyDecomposition j j))
          ++ ((List.range pb.RowsParameters).map
              (fun j => (attempt Real.sqrt cfg pb s).choleskyDecomposition j j)
            ++ ((List.range pb.RowsParameters).map
              (fun j => (attempt Real.sqrt cfg pb s).choleskyDecomposition j j)).reverse)) := by
  obtain ⟨a1, a2, a3, a4⟩ := attempt_solves Real.sqrt cfg pb s
  have hfst : (getCholeskyDecompositionLog Real.sqrt pb.RowsParameters s.hessian
      s.choleskyDecomposition).1
      = getCholeskyDecomposition Real.sqrt pb.RowsParameters s.hessian
          s.choleskyDecomposition :=
    choleskyFromLog_fst Real.sqrt s.hessian pb.RowsParameters 0 s.choleskyDecomposition []
  have hdiv : ∀ d, d ∈ attemptDivisors Real.sqrt pb s →
      ∃ j, j < pb.RowsParameters ∧
        d = (attempt Real.sqrt cfg pb s).choleskyDecomposition j j ∧
        RowOK Real.sqrt s.hessian (attempt Real.sqrt cfg pb s).choleskyDecomposition j := by
    intro d hd
    rw [a3]
    unfold attemptDivisors at hd
    simp only [] at hd
    rw [hfst] at hd
    by_cases hflag : (getCholeskyDecomposition Real.sqrt pb.RowsParameters s.hessian
        s.choleskyDecomposition).1 = true
    · rw [if_pos hflag] at hd
      exact getCholeskyDecompositionLog_divisors _ _ _ d hd
    · rw [if_neg hflag, solveCholeskyLog_eq] at hd
      have hfalse : (getCholeskyDecomposition Real.sqrt pb.RowsParameters s.hessian
          s.choleskyDecomposition).1 = false := by simpa using hflag
      rcases List.mem_append.mp hd with h | h
      · exact getCholeskyDecompositionLog_divisors _ _ _ d h
      · have hmem : d ∈ (List.range pb.RowsParameters).map
            (fun i => (getCholeskyDecomposition Real.sqrt pb.RowsParameters s.hessian
              s.choleskyDecomposition).2 i i) := by
          rcases List.mem_append.mp h with h1 | h1
          · exact h1
          · exact List.mem_reverse.mp h1
        obtain ⟨j, hj, hjd⟩ := List.mem_map.mp hmem
        exact ⟨j, List.mem_range.mp hj, hjd.symm,
          rows_of_success _ _ _ hfalse j (List.mem_range.mp hj)⟩
  refine ⟨a1, a3, fun hf => ⟨?_, a4 hf⟩, ?_, hfst, ?_, ?_, sqrt_TOL_pos, ?_⟩
  · rw [a2, if_pos hf]
  · intro hf
    rw [a2, if_neg (by rw [hf]; simp), a3]
    rfl
  · rw [solveCholeskyLog_eq]
  · intro d hd
    obtain ⟨j, hj, hdj, hok⟩ := hdiv d hd
    obtain ⟨_, h2, h3⟩ := RowOK_diag _ _ j hok
    rw [← hdj] at h2 h3
    exact ⟨h2, ne_of_gt h3, j, hj, hdj, hok⟩
  · intro hf
    have hflag : (getCholeskyDecomposition Real.sqrt pb.RowsParameters s.hessian
        s.choleskyDecomposition).1 = false := hf
    rw [a3]
    unfold attemptDivisors
    simp only []
    rw [hfst, if_neg (by rw [hflag]; simp), solveCholeskyLog_eq]
    have hlog := choleskyFromLog_success Real.sqrt s.hessian pb.RowsParameters 0
      s.choleskyDecomposition [] hflag
    rw [List.nil_append, ← List.range_eq_range'] at hlog
    unfold getCholeskyDecompositionLog
    rw [hlog]
    rfl

end DivisorsClaim


/-! ## The returned flag -/

section Returned

/-- A converged run: `lineModel` started at its minimiser `p[0] = 1` leaves the
outer loop through the break after one factorisation attempt. -/
theorem lineModel_converges :
    breakTest fitConfig (fit Real.sqrt lineModel (construct (fun _ => (1 : ℝ)))).2 = true ∧
    (fit Real.sqrt lineModel (construct (fun _ => (1 : ℝ)))).2.attempts = 1 := by
  have hlt : (fitStart fitConfig lineModel (construct (fun _ => (1 : ℝ)))).iteration
      < (fitConfig : Config ℝ).maxIterations := by
    show 0 < 10000
    decide
  obtain ⟨hH, hd⟩ := lineModel_enter
    (fitStart fitConfig lineModel (construct (fun _ => (1 : ℝ))))
  have hd0 : ∀ k, k < (lineModel : Problem ℝ).RowsParameters →
      (enterDamping lineModel
        (fitStart fitConfig lineModel (construct (fun _ => (1 : ℝ))))).derivative k = 0 := by
    intro k hk
    have hk0 : k = 0 := by
      have : k < 1 := hk
      omega
    subst hk0
    rw [hd]
    show (1 : ℝ) - 1 = 0
    norm_num
  have hfac : factorFails Real.sqrt lineModel (enterDamping lineModel
      (fitStart fitConfig lineModel (construct (fun _ => (1 : ℝ))))) = false := by
    unfold factorFails
    show (getCholeskyDecomposition Real.sqrt 1 _ _).1 = false
    rw [getCholeskyDecomposition_one, hH]
    have : ¬ ((1 : ℝ) < TOL) := by unfold TOL; norm_num
    rw [if_neg this]
  obtain ⟨_, _, hb, _, _, hatt, _⟩ := outerIteration_stationary fitConfig lineModel
    (fitStart fitConfig lineModel (construct (fun _ => (1 : ℝ)))) hlt rfl hd0 hfac
    (by show (0 : ℝ) < 1 / 100; norm_num)
  have hfit : (fit Real.sqrt lineModel (construct (fun _ => (1 : ℝ)))).2
      = outerIteration Real.sqrt fitConfig lineModel
          (fitStart fitConfig lineModel (construct (fun _ => (1 : ℝ)))) := by
    show outerLoop Real.sqrt fitConfig lineModel (9999 + 1)
      (fitStart fitConfig lineModel (construct (fun _ => (1 : ℝ)))) = _
    rw [outerLoop_succ, if_pos hlt, if_pos hb]
  rw [hfit]
  exact ⟨hb, hatt⟩

/-- A run that spends its budget on rejected steps: `squareModel` started at
`p[0] = 1/2` factorises and solves 10000 times and ends with `illConditioned` set. -/
theorem squareModel_exhausts :
    (fit Real.sqrt squareModel (construct (fun _ => (1 / 2 : ℝ)))).2.illConditioned = true ∧
    (fit Real.sqrt squareModel (construct (fun _ => (1 / 2 : ℝ)))).2.attempts = 10000 ∧
    (fit Real.sqrt squareModel (construct (fun _ => (1 / 2 : ℝ)))).2.solves = 10000 := by
  have hstart : getError squareModel (fun _ => (1 / 2 : ℝ)) = 361 / 16 := by
    rw [squareModel_getError]; norm_num
  have hlt : (fitStart fitConfig squareModel (construct (fun _ => (1 / 2 : ℝ)))).iteration
      < (fitConfig : Config ℝ).maxIterations := by
    show 0 < 10000
    decide
  obtain ⟨hill, _⟩ := squareModel_firstAttempt fitConfig
    (fitStart fitConfig squareModel (construct (fun _ => (1 / 2 : ℝ)))) rfl hstart
  obtain ⟨hH, _⟩ := squareModel_enter
    (fitStart fitConfig squareModel (construct (fun _ => (1 / 2 : ℝ))))
  have hfac : ¬ factorFails Real.sqrt squareModel (enterDamping squareModel
      (fitStart fitConfig squareModel (construct (fun _ => (1 / 2 : ℝ))))) = true := by
    unfold factorFails
    show ¬ (getCholeskyDecomposition Real.sqrt 1 _ _).1 = true
    have hH1 : (enterDamping squareModel
        (fitStart fitConfig squareModel (construct (fun _ => (1 / 2 : ℝ))))).hessian 0 0
        = 1 := by
      rw [hH]
      show (2 * (1 / 2 : ℝ)) * (2 * (1 / 2)) = 1
      norm_num
    rw [getCholeskyDecomposition_one, hH1]
    have : ¬ ((1 : ℝ) < TOL) := by unfold TOL; norm_num
    rw [if_neg this]
    simp
  obtain ⟨_, _, _, _, hflag, _, _, hatt⟩ := outerIteration_spec Real.sqrt fitConfig squareModel
    (fitStart fitConfig squareModel (construct (fun _ => (1 / 2 : ℝ)))) hlt
  have hsol := outerIteration_solves Real.sqrt fitConfig squareModel
    (fitStart fitConfig squareModel (construct (fun _ => (1 / 2 : ℝ)))) hlt
  rw [if_neg hfac, if_pos hill] at hsol
  rw [if_pos hill] at hatt
  have hfit : (fit Real.sqrt squareModel (construct (fun _ => (1 / 2 : ℝ)))).2
      = { outerIteration Real.sqrt fitConfig squareModel
            (fitStart fitConfig squareModel (construct (fun _ => (1 / 2 : ℝ)))) with
          iteration := (fitConfig : Config ℝ).maxIterations + 1 } :=
    outerLoop_of_rejected Real.sqrt fitConfig squareModel 9999 _ hlt hill
  rw [hfit]
  refine ⟨?_, ?_, ?_⟩
  · show (outerIteration Real.sqrt fitConfig squareModel _).illConditioned = true
    rw [hflag, hill]
  · show (outerIteration Real.sqrt fitConfig squareModel _).attempts = 10000
    rw [hatt]
    rfl
  · show (outerIteration Real.sqrt fitConfig squareModel _).solves = 10000
    rw [hsol]
    rfl

/-- A run that never obtains a factorisation: `flatModel` started at `p[0] = 1`
makes 10000 failing attempts and no solve. -/
theorem flatModel_never_factorises :
    (fit Real.sqrt flatModel (construct (fun _ => (1 : ℝ)))).2.illConditioned = true ∧
    (fit Real.sqrt flatModel (construct (fun _ => (1 : ℝ)))).2.attempts = 10000 ∧
    (fit Real.sqrt flatModel (construct (fun _ => (1 : ℝ)))).2.solves = 0 := by
  have hfail : factorFails Real.sqrt flatModel
      (enterDamping flatModel (fitStart fitConfig flatModel (construct (fun _ => (1 : ℝ)))))
      = true := by
    apply factorFails_of_zero_gradient flatModel _ (Nat.le_refl 1)
    intro i _ k
    simp [gradientWritten, flatModel, toVector, fitStart, construct]
  obtain ⟨h1, h2, _, _, h5, _⟩ := fitWith_of_failed_factorisation Real.sqrt fitConfig flatModel
    (construct (fun _ => (1 : ℝ))) (by show 0 < 10000; decide) hfail
  exact ⟨h5, h1, h2⟩

/-- C13: `fit` returns `true` for every input.  The flag is the constant of line 171
and carries no information about the run: it is `true` for a run that converged
(`lineModel` from its minimiser, break taken after one attempt), for a run that
spent the whole budget on rejected steps (`squareModel` from `1/2`: 10000 solves,
`illConditioned` still set), and for a run that never obtained a factorisation
(`flatModel` from `1`: 10000 attempts, no solve). -/
theorem fit_returns_true (cfg : Config ℝ) (pb : Problem ℝ) (m : Memory ℝ) :
    (fit Real.sqrt pb m).1 = true ∧
    (fitWith Real.sqrt cfg pb m).1 = true ∧
    ((fit Real.sqrt lineModel (construct (fun _ => (1 : ℝ)))).1 = true ∧
      breakTest fitConfig (fit Real.sqrt lineModel (construct (fun _ => (1 : ℝ)))).2 = true ∧
      (fit Real.sqrt lineModel (construct (fun _ => (1 : ℝ)))).2.attempts = 1) ∧
    ((fit Real.sqrt squareModel (construct (fun _ => (1 / 2 : ℝ)))).1 = true ∧
      (fit Real.sqrt squareModel (construct (fun _ => (1 / 2 : ℝ)))).2.illConditioned = true ∧
      (fit Real.sqrt squareModel (construct (fun _ => (1 / 2 : ℝ)))).2.attempts = 10000 ∧
      (fit Real.sqrt squareModel (construct (fun _ => (1 / 2 : ℝ)))).2.solves = 10000) ∧
    ((fit Real.sqrt flatModel (construct (fun _ => (1 : ℝ)))).1 = true ∧
      (fit Real.sqrt flatModel (construct (fun _ => (1 : ℝ)))).2.illConditioned = true ∧
      (fit Real.sqrt flatModel (construct (fun _ => (1 : ℝ)))).2.attempts = 10000 ∧
      (fit Real.sqrt flatModel (construct (fun _ => (1 : ℝ)))).2.solves = 0) :=
  ⟨rfl, rfl, ⟨rfl, lineModel_converges⟩, ⟨rfl, squareModel_exhausts⟩,
    ⟨rfl, flatModel_never_factorises⟩⟩

end Returned


/-! ## Runs in binary64 arithmetic

The statements above are over the reals.  The runs below instantiate the same
definitions with `Double`, where a comparison with NaN is false and results are
rounded.  In the two runs of `rootModel` every value apart from the dead variable
`lambda` is a small dyadic fraction or NaN, so no rounding takes place there. -/

section Binary64

/-- The structural `log2Floor` is the library's binary logarithm. -/
theorem log2Floor_eq (n : Nat) : log2Floor n = Nat.log2 n := by
  have key : ∀ fuel n, n ≤ fuel → log2Aux fuel n = Nat.log2 n := by
    intro fuel
    induction fuel with
    | zero =>
      intro n hn
      have h0 : n = 0 := by omega
      subst h0
      simp [log2Aux, Nat.log2]
    | succ fuel ih =>
      intro n hn
      rw [log2Aux, Nat.log2]
      by_cases h : 2 ≤ n
      · rw [if_pos h, if_pos h, ih (n / 2) (by omega)]
      · rw [if_neg h, if_neg h]
  exact key n n (Nat.le_refl n)

/-- The constants of the code in binary64: each decimal literal is the `double`
nearest to it. -/
theorem double_literals :
    (TOL : Double) = Double.ofRat (1 / 10 ^ 30) ∧
    (TOL : Double)
      = Double.fin (178405961588245 / 2 ^ 147) ∧
    (fitConfig : Config Double).lambda = Double.fin (3602879701896397 / 2 ^ 55) ∧
    (fitConfig : Config Double).upFactor = Double.fin 10 ∧
    (fitConfig : Config Double).targetDeltaError
      = Double.fin (5764607523034235 / 2 ^ 59) ∧
    Double.sqrt (Double.fin 2) = Double.fin (6369051672525773 / 2 ^ 52) := by
  decide!

/-- The first outer iteration of `fit` on `rootModel` from `p[0] = 1`: its `while`
loop makes one pass, which ends with `illConditioned` cleared. -/
theorem rootModel_first_pass :
    outerIteration Double.sqrt fitConfig rootModel
        (fitStart fitConfig rootModel (construct (fun _ => (1 : Double))))
      = { (attempt Double.sqrt fitConfig rootModel
        (enterDamping rootModel (fitStart fitConfig rootModel (construct (fun _ => (1 : Double)))))) with
          parameters := forLoop (rootModel.RowsParameters)
            (fun i p => setVec p i ((attempt Double.sqrt fitConfig rootModel
        (enterDamping rootModel (fitStart fitConfig rootModel (construct (fun _ => (1 : Double)))))).newParameters i))
            (attempt Double.sqrt fitConfig rootModel
        (enterDamping rootModel (fitStart fitConfig rootModel (construct (fun _ => (1 : Double)))))).parameters
          currentError := (attempt Double.sqrt fitConfig rootModel
        (enterDamping rootModel (fitStart fitConfig rootModel (construct (fun _ => (1 : Double)))))).newError
          lambda := (attempt Double.sqrt fitConfig rootModel
        (enterDamping rootModel (fitStart fitConfig rootModel (construct (fun _ => (1 : Double)))))).lambda * (fitConfig : Config Double).downFactor } :=
  outerIteration_accepted_eq Double.sqrt fitConfig rootModel _ (by decide!) (by decide!)

/-- C3 fails as stated: a candidate whose error is NaN is accepted.  `fit` on
`rootModel` (`f = sqrt(p[0])`, `y = -1`) from `p[0] = 1` starts with
`currentError = 4`; the factorisation of `[[0.25]]` succeeds, the step is `-4`, the
candidate `-3` has the error NaN, `deltaError > 0` is false, the `while` loop ends
with `illConditioned` cleared and the commit sets `currentError` to NaN, which is
not `<= 4`; so the errors along the run are not non-increasing. -/
theorem fit_accepts_nan_candidate :
    (fitStart fitConfig rootModel (construct (fun _ => (1 : Double)))).currentError
      = Double.fin 4 ∧
    factorFails Double.sqrt rootModel
      (enterDamping rootModel (fitStart fitConfig rootModel (construct (fun _ => (1 : Double)))))
      = false ∧
    (attempt Double.sqrt fitConfig rootModel
        (enterDamping rootModel (fitStart fitConfig rootModel (construct (fun _ => (1 : Double)))))).newParameters 0
      = Double.fin (-3) ∧
    (attempt Double.sqrt fitConfig rootModel
        (enterDamping rootModel (fitStart fitConfig rootModel (construct (fun _ => (1 : Double)))))).deltaError = Double.nan ∧
    (outerIteration Double.sqrt fitConfig rootModel
        (fitStart fitConfig rootModel (construct (fun _ => (1 : Double))))).illConditioned = false ∧
    (outerIteration Double.sqrt fitConfig rootModel
        (fitStart fitConfig rootModel (construct (fun _ => (1 : Double))))).parameters 0 = Double.fin (-3) ∧
    (outerIteration Double.sqrt fitConfig rootModel
        (fitStart fitConfig rootModel (construct (fun _ => (1 : Double))))).currentError = Double.nan ∧
    ¬ ((outerIteration Double.sqrt fitConfig rootModel
        (fitStart fitConfig rootModel (construct (fun _ => (1 : Double))))).currentError
      ≤ (fitStart fitConfig rootModel (construct (fun _ => (1 : Double)))).currentError) ∧
    ¬ List.Chain (fun a b : FitState Double => b.illConditioned = false →
        b.currentError ≤ a.currentError)
      (fitStart fitConfig rootModel (construct (fun _ => (1 : Double))))
      (outerTrace Double.sqrt fitConfig rootModel (fitConfig : Config Double).maxIterations
        (fitStart fitConfig rootModel (construct (fun _ => (1 : Double))))) := by
  have hlt : (fitStart fitConfig rootModel (construct (fun _ => (1 : Double)))).iteration
      < (fitConfig : Config Double).maxIterations := by decide!
  have hill : (outerIteration Double.sqrt fitConfig rootModel
        (fitStart fitConfig rootModel (construct (fun _ => (1 : Double))))).illConditioned = false := by
    rw [rootModel_first_pass]
    decide!
  have hle : ¬ ((outerIteration Double.sqrt fitConfig rootModel
        (fitStart fitConfig rootModel (construct (fun _ => (1 : Double))))).currentError
      ≤ (fitStart fitConfig rootModel (construct (fun _ => (1 : Double)))).currentError) := by
    rw [rootModel_first_pass]
    decide!
  refine ⟨by decide!, by decide!, by decide!, by decide!, hill, ?_, ?_, hle, ?_⟩
  · rw [rootModel_first_pass]
    decide!
  · rw [rootModel_first_pass]
    decide!
  · intro hchain
    have htrace : ∃ rest, outerTrace Double.sqrt fitConfig rootModel (9999 + 1)
        (fitStart fitConfig rootModel (construct (fun _ => (1 : Double))))
        = (outerIteration Double.sqrt fitConfig rootModel
        (fitStart fitConfig rootModel (construct (fun _ => (1 : Double))))) :: rest := by
      rw [outerTrace_succ, if_pos hlt]
      by_cases hb : breakTest fitConfig (outerIteration Double.sqrt fitConfig rootModel
        (fitStart fitConfig rootModel (construct (fun _ => (1 : Double))))) = true
      · rw [if_pos hb]; exact ⟨[], rfl⟩
      · rw [if_neg hb]; exact ⟨_, rfl⟩
    obtain ⟨rest, hrest⟩ := htrace
    have hchain2 : List.Chain (fun a b : FitState Double => b.illConditioned = false →
        b.currentError ≤ a.currentError)
        (fitStart fitConfig rootModel (construct (fun _ => (1 : Double))))
        ((outerIteration Double.sqrt fitConfig rootModel
        (fitStart fitConfig rootModel (construct (fun _ => (1 : Double))))) :: rest) := by
      rw [← hrest]
      exact hchain
    exact hle ((List.chain_cons.mp hchain2).1 hill)

/-- C15 fails as stated: `solveCholesky` divides by NaN.  In the run of `fit` on
`rootModel` from `p[0] = 1` the second outer iteration starts at `p[0] = -3`; the
gradient, and with it the Hessian, is NaN; the pivot NaN passes the test
`sum < TOL`, `sqrt(NaN)` is written on the diagonal and `getCholeskyDecomposition`
returns `false`; `solveCholesky` is called and both its divisors are NaN, which is
not `>= sqrt(TOL)`. -/
theorem fit_divides_by_nan :
    (∃ rest, outerTrace Double.sqrt fitConfig rootModel
        (fitConfig : Config Double).maxIterations
        (fitStart fitConfig rootModel (construct (fun _ => (1 : Double))))
      = (outerIteration Double.sqrt fitConfig rootModel
        (fitStart fitConfig rootModel (construct (fun _ => (1 : Double)))))
        :: outerIteration Double.sqrt fitConfig rootModel
          { (outerIteration Double.sqrt fitConfig rootModel
        (fitStart fitConfig rootModel (construct (fun _ => (1 : Double))))) with
        iteration := (outerIteration Double.sqrt fitConfig rootModel
        (fitStart fitConfig rootModel (construct (fun _ => (1 : Double))))).iteration + 1 }
        :: rest) ∧
    (enterDamping rootModel
      { (outerIteration Double.sqrt fitConfig rootModel
        (fitStart fitConfig rootModel (construct (fun _ => (1 : Double))))) with
        iteration := (outerIteration Double.sqrt fitConfig rootModel
        (fitStart fitConfig rootModel (construct (fun _ => (1 : Double))))).iteration + 1 }).parameters 0 = Double.fin (-3) ∧
    (enterDamping rootModel
      { (outerIteration Double.sqrt fitConfig rootModel
        (fitStart fitConfig rootModel (construct (fun _ => (1 : Double))))) with
        iteration := (outerIteration Double.sqrt fitConfig rootModel
        (fitStart fitConfig rootModel (construct (fun _ => (1 : Double))))).iteration + 1 }).hessian 0 0 = Double.nan ∧
    ¬ (choleskyPivot (enterDamping rootModel
      { (outerIteration Double.sqrt fitConfig rootModel
        (fitStart fitConfig rootModel (construct (fun _ => (1 : Double))))) with
        iteration := (outerIteration Double.sqrt fitConfig rootModel
        (fitStart fitConfig rootModel (construct (fun _ => (1 : Double))))).iteration + 1 }).hessian 0
        (enterDamping rootModel
      { (outerIteration Double.sqrt fitConfig rootModel
        (fitStart fitConfig rootModel (construct (fun _ => (1 : Double))))) with
        iteration := (outerIteration Double.sqrt fitConfig rootModel
        (fitStart fitConfig rootModel (construct (fun _ => (1 : Double))))).iteration + 1 }).choleskyDecomposition < TOL) ∧
    factorFails Double.sqrt rootModel
      (enterDamping rootModel
      { (outerIteration Double.sqrt fitConfig rootModel
        (fitStart fitConfig rootModel (construct (fun _ => (1 : Double))))) with
        iteration := (outerIteration Double.sqrt fitConfig rootModel
        (fitStart fitConfig rootModel (construct (fun _ => (1 : Double))))).iteration + 1 }) = false ∧
    (attempt Double.sqrt fitConfig rootModel
      (enterDamping rootModel
      { (outerIteration Double.sqrt fitConfig rootModel
        (fitStart fitConfig rootModel (construct (fun _ => (1 : Double))))) with
        iteration := (outerIteration Double.sqrt fitConfig rootModel
        (fitStart fitConfig rootModel (construct (fun _ => (1 : Double))))).iteration + 1 })).solves
      = (enterDamping rootModel
      { (outerIteration Double.sqrt fitConfig rootModel
        (fitStart fitConfig rootModel (construct (fun _ => (1 : Double))))) with
        iteration := (outerIteration Double.sqrt fitConfig rootModel
        (fitStart fitConfig rootModel (construct (fun _ => (1 : Double))))).iteration + 1 }).solves + 1 ∧
    (attempt Double.sqrt fitConfig rootModel
      (enterDamping rootModel
      { (outerIteration Double.sqrt fitConfig rootModel
        (fitStart fitConfig rootModel (construct (fun _ => (1 : Double))))) with
        iteration := (outerIteration Double.sqrt fitConfig rootModel
        (fitStart fitConfig rootModel (construct (fun _ => (1 : Double))))).iteration + 1 })).choleskyDecomposition 0 0 = Double.nan ∧
    attemptDivisors Double.sqrt rootModel
      (enterDamping rootModel
      { (outerIteration Double.sqrt fitConfig rootModel
        (fitStart fitConfig rootModel (construct (fun _ => (1 : Double))))) with
        iteration := (outerIteration Double.sqrt fitConfig rootModel
        (fitStart fitConfig rootModel (construct (fun _ => (1 : Double))))).iteration + 1 }) = [Double.nan, Double.nan] ∧
    ¬ (Double.sqrt TOL ≤ Double.nan) := by
  have hlt : (fitStart fitConfig rootModel (construct (fun _ => (1 : Double)))).iteration
      < (fitConfig : Config Double).maxIterations := by decide!
  have hb : ¬ breakTest fitConfig (outerIteration Double.sqrt fitConfig rootModel
        (fitStart fitConfig rootModel (construct (fun _ => (1 : Double))))) = true := by
    rw [rootModel_first_pass]
    decide!
  have hlt2 : ({ (outerIteration Double.sqrt fitConfig rootModel
        (fitStart fitConfig rootModel (construct (fun _ => (1 : Double))))) with
        iteration := (outerIteration Double.sqrt fitConfig rootModel
        (fitStart fitConfig rootModel (construct (fun _ => (1 : Double))))).iteration + 1 } : FitState Double).iteration
      < (fitConfig : Config Double).maxIterations := by
    rw [rootModel_first_pass]
    decide!
  refine ⟨?_, ?_, ?_, ?_, ?_, ?_, ?_, ?_, by decide!⟩
  · show ∃ rest, outerTrace Double.sqrt fitConfig rootModel (9998 + 1 + 1)
        (fitStart fitConfig rootModel (construct (fun _ => (1 : Double)))) = _
    rw [outerTrace_succ Double.sqrt fitConfig rootModel (9998 + 1)
      (fitStart fitConfig rootModel (construct (fun _ => (1 : Double)))), if_pos hlt, if_neg hb,
      outerTrace_succ, if_pos hlt2]
    by_cases hb2 : breakTest fitConfig (outerIteration Double.sqrt fitConfig rootModel
        { (outerIteration Double.sqrt fitConfig rootModel
        (fitStart fitConfig rootModel (construct (fun _ => (1 : Double))))) with
        iteration := (outerIteration Double.sqrt fitConfig rootModel
        (fitStart fitConfig rootModel (construct (fun _ => (1 : Double))))).iteration + 1 }) = true
    · rw [if_pos hb2]; exact ⟨[], rfl⟩
    · rw [if_neg hb2]; exact ⟨_, rfl⟩
  all_goals
    rw [rootModel_first_pass]
    decide!

/-- C5 fails as stated: rounding lets a matrix that is not positive definite pass.
The `double` matrix `[[25, 7], [7, 1.96]]` is symmetric and indefinite (its
determinant is `-2^-50`, and the exact pivot of row 1 is negative), but in binary64
`7 / 5` rounds down, its square rounds to the `double` just below `1.96`, and the
pivot of row 1 comes out as `2^-52`, which is not below `TOL`:
`getCholeskyDecomposition` returns `false` and writes `sqrt(2^-52) = 2^-26` on the
diagonal of row 1. -/
theorem getCholeskyDecomposition_passes_indefinite :
    (∀ i j, i < 2 → j < 2 → roundedGram i j = roundedGram j i) ∧
    roundedGram 0 0 = Double.fin 25 ∧ roundedGram 1 0 = Double.fin 7 ∧
    roundedGram 1 1 = Double.fin (8827055269646172 / 2 ^ 52) ∧
    ¬ (toMatrix 2 (fun i j => ((roundedGram i j).value : ℝ))).PosDef ∧
    (roundedGram 0 0).value * (roundedGram 1 1).value
      - (roundedGram 1 0).value * (roundedGram 1 0).value = -(1 / 2 ^ 50) ∧
    (roundedGram 1 1).value
      - ((roundedGram 1 0).value / 5) * ((roundedGram 1 0).value / 5) < 0 ∧
    (getCholeskyDecomposition Double.sqrt 2 roundedGram (fun _ _ => 0)).1 = false ∧
    (getCholeskyDecomposition Double.sqrt 2 roundedGram (fun _ _ => 0)).2 0 0
      = Double.fin 5 ∧
    (getCholeskyDecomposition Double.sqrt 2 roundedGram (fun _ _ => 0)).2 1 0
      = Double.fin (6305039478318694 / 2 ^ 52) ∧
    choleskyPivot roundedGram 1
        (getCholeskyDecomposition Double.sqrt 2 roundedGram (fun _ _ => 0)).2
      = Double.fin (1 / 2 ^ 52) ∧
    ¬ (choleskyPivot roundedGram 1
        (getCholeskyDecomposition Double.sqrt 2 roundedGram (fun _ _ => 0)).2 < TOL) ∧
    (getCholeskyDecomposition Double.sqrt 2 roundedGram (fun _ _ => 0)).2 1 1
      = Double.fin (1 / 2 ^ 26) := by
  have h00 : (roundedGram 0 0).value = 25 := by decide!
  have h01 : (roundedGram 0 1).value = 7 := by decide!
  have h10 : (roundedGram 1 0).value = 7 := by decide!
  have h11 : (roundedGram 1 1).value = 8827055269646172 / 2 ^ 52 := by decide!
  have hnpd : ¬ (toMatrix 2 (fun i j => ((roundedGram i j).value : ℝ))).PosDef := by
    intro h
    have hx : (![7, -25] : Fin 2 → ℝ) ≠ 0 := by
      intro h0
      have := congrFun h0 0
      simp at this
    have := h.2 ![7, -25] hx
    simp only [toMatrix, Matrix.mulVec, Matrix.dotProduct, Fin.sum_univ_two,
      Fin.val_zero, Fin.val_one, h00, h01, h10, h11] at this
    norm_num at this
  refine ⟨?_, by decide!, by decide!, by decide!, hnpd, by decide!, by decide!, by decide!,
    by decide!, by decide!, by decide!, by decide!, by decide!⟩
  intro i j hi hj
  interval_cases i <;> interval_cases j <;> rfl

end Binary64

end LMEngine
